import Mathlib

/-!
# verarta.core : a shallow embedding of the ledger contract

Source: `blockchain/contracts/verarta.core/verarta.core.{hpp,cpp}`.

* Account names (`eosio::name`) are their 64-bit values, as `Nat`.
* `std::string` values are byte sequences (`Bytes`); `size()` is `List.length`.
* Machine integers are `Nat`; every addition or multiplication of the source
  that can leave its width is followed by `u32` or `u64`.
* A `multi_index` table is the list of its rows.  `find`, `modify`, `erase`
  and `emplace` go by primary key; `emplace` refuses a primary key that is
  already stored, as the record store does.
* An action returns `Except Err Ledger`: a failed `check` aborts the whole
  transaction, so an error carries no ledger and the stored state stays as it
  was (`exec`).
* The same source lines are also given as state transformers that keep every
  write in the order the code makes it (`dispatch_run`): they show the store
  at the moment of a failure, and agree with the actions on every result.
-/

namespace Verarta

/-! ## Basic types -/

/-- Value of an `eosio::name`. -/
abbrev Name := Nat

/-- Contents of a `std::string`: its bytes. -/
abbrev Bytes := List Nat

/-- Truncation to `uint32_t`. -/
def u32 (n : Nat) : Nat := n % 2 ^ 32

/-- Truncation to `uint64_t`. -/
def u64 (n : Nat) : Nat := n % 2 ^ 64

/-- One constructor per failure the contract can raise; the comment gives the
message of the `check` (or the environment call) that raises it. -/
inductive Err where
  | missing_authority              -- require_auth / "missing required authority"
  | primary_key_exists             -- record store: emplace on a stored primary key
  | artwork_id_not_positive        -- "artwork_id must be positive"
  | title_empty                    -- "title_encrypted cannot be empty"
  | title_too_long                 -- "title_encrypted too long"
  | description_too_long           -- "description_encrypted too long"
  | metadata_too_long              -- "metadata_encrypted too long"
  | invalid_public_key_length      -- "invalid X25519 public key length"
  | artwork_id_exists              -- "artwork_id already exists"
  | file_id_not_positive           -- "file_id must be positive"
  | filename_empty                 -- "filename_encrypted cannot be empty"
  | filename_too_long              -- "filename_encrypted too long"
  | invalid_mime_type              -- "invalid mime_type"
  | file_size_not_positive         -- "file_size must be positive"
  | file_size_too_large            -- "file_size exceeds 100MB limit"
  | encrypted_dek_empty            -- "encrypted_dek cannot be empty"
  | iv_empty                       -- "iv cannot be empty"
  | auth_tag_empty                 -- "auth_tag cannot be empty"
  | artwork_not_found              -- "artwork not found"
  | artwork_owner_mismatch         -- "artwork owner mismatch"
  | file_id_exists                 -- "file_id already exists"
  | admin_dek_count_mismatch       -- "admin_encrypted_deks count must match active admin keys"
  | chunk_id_not_positive          -- "chunk_id must be positive"
  | chunk_data_empty               -- "chunk_data cannot be empty"
  | chunk_data_too_large           -- "chunk_data too large (max ~350KB base64)"
  | invalid_chunk_size             -- "invalid chunk_size (max 256KB)"
  | file_not_found                 -- "file not found"
  | file_owner_mismatch            -- "file owner mismatch"
  | upload_already_complete        -- "file upload already complete"
  | chunk_id_exists                -- "chunk_id already exists"
  | chunk_index_exists             -- "chunk_index already uploaded for this file"
  | total_chunks_not_positive      -- "total_chunks must be positive"
  | already_marked_complete        -- "file already marked complete"
  | not_all_chunks_uploaded        -- "not all chunks uploaded"
  | invalid_tier                   -- "tier must be 0 (free) or 1 (premium)"
  | daily_file_limit_not_positive  -- "daily_file_limit must be positive"
  | daily_size_limit_not_positive  -- "daily_size_limit must be positive"
  | weekly_file_limit_not_positive -- "weekly_file_limit must be positive"
  | weekly_size_limit_not_positive -- "weekly_size_limit must be positive"
  | weekly_file_limit_below_daily  -- "weekly_file_limit must be >= daily_file_limit"
  | weekly_size_limit_below_daily  -- "weekly_size_limit must be >= daily_size_limit"
  | invalid_description            -- "invalid description"
  | public_key_exists              -- "public_key already exists"
  | admin_key_not_found            -- "admin key not found"
  | invalid_reason                 -- "invalid reason"
  | no_active_admin_key            -- "admin_account does not have an active admin key"
  | file_not_in_artwork            -- "file does not belong to artwork"
  | transfer_to_self               -- "cannot transfer to self"
  | dek_size_mismatch              -- "file_ids and new_encrypted_deks size mismatch"
  | tag_size_mismatch              -- "file_ids and new_auth_tags size mismatch"
  | new_dek_empty                  -- "new_encrypted_dek cannot be empty"
  | all_admin_deks_present         -- "file already has DEKs for all active admin keys"
  | daily_file_count_exceeded      -- "daily file count limit exceeded"
  | daily_size_exceeded            -- "daily size limit exceeded"
  | weekly_file_count_exceeded     -- "weekly file count limit exceeded"
  | weekly_size_exceeded           -- "weekly size limit exceeded"
  deriving DecidableEq, Repr

/-! ## Tables (verarta.core.hpp) -/

/-- Row of `artworks`; primary key `artwork_id`. -/
structure artwork where
  artwork_id : Nat
  owner : Name
  title_encrypted : Bytes
  description_encrypted : Bytes
  metadata_encrypted : Bytes
  creator_public_key : Bytes
  created_at : Nat
  file_count : Nat
  deriving DecidableEq, Repr

/-- Row of `artfiles`; primary key `file_id`. -/
structure artfile where
  file_id : Nat
  artwork_id : Nat
  owner : Name
  filename_encrypted : Bytes
  mime_type : Bytes
  file_size : Nat
  file_hash : Nat
  encrypted_dek : Bytes
  admin_encrypted_deks : List Bytes
  iv : Bytes
  auth_tag : Bytes
  is_thumbnail : Bool
  total_chunks : Nat
  uploaded_chunks : Nat
  upload_complete : Bool
  created_at : Nat
  completed_at : Nat
  deriving DecidableEq, Repr

/-- Row of `artchunks`; primary key `chunk_id`. -/
structure artchunk where
  chunk_id : Nat
  file_id : Nat
  owner : Name
  chunk_index : Nat
  chunk_data : Bytes
  chunk_size : Nat
  uploaded_at : Nat
  deriving DecidableEq, Repr

/-- Secondary key `byfileindex`: `(uint128_t{file_id} << 64) | chunk_index`. -/
def artchunk.by_file_index (c : artchunk) : Nat :=
  ((c.file_id <<< 64) % 2 ^ 128) ||| c.chunk_index

/-- Row of `usagequotas`; primary key `account`. -/
structure usagequota where
  account : Name
  tier : Nat
  daily_file_limit : Nat
  daily_size_limit : Nat
  weekly_file_limit : Nat
  weekly_size_limit : Nat
  daily_files_used : Nat
  daily_size_used : Nat
  daily_reset_at : Nat
  weekly_files_used : Nat
  weekly_size_used : Nat
  weekly_reset_at : Nat
  deriving DecidableEq, Repr

/-- Row of `adminkeys`; primary key `key_id`. -/
structure adminkey where
  key_id : Nat
  admin_account : Name
  public_key : Bytes
  description : Bytes
  added_at : Nat
  is_active : Bool
  deriving DecidableEq, Repr

/-- Row of `adminaccess`; primary key `log_id`. -/
structure adminaccesslog where
  log_id : Nat
  admin_account : Name
  file_id : Nat
  reason : Bytes
  accessed_at : Nat
  deriving DecidableEq, Repr

/-- The six tables of the contract. -/
structure Ledger where
  artworks : List artwork
  artfiles : List artfile
  artchunks : List artchunk
  quotas : List usagequota
  adminkeys : List adminkey
  logs : List adminaccesslog
  deriving DecidableEq, Repr

/-- The ledger before any action. -/
def Ledger.empty : Ledger := ⟨[], [], [], [], [], []⟩

/-- What the execution environment supplies to one transaction: the contract
account (`get_self()`), the accounts that authorised it, and the block time in
seconds (`current_block_time().to_time_point().sec_since_epoch()`). -/
structure Ctx where
  self : Name
  auth : List Name
  now : Nat
  deriving DecidableEq, Repr

/-! ## The record store -/

section Store
variable {α : Type}

/-- Point lookup by primary key (`table.find(k)`; `none` is `end()`). -/
def tfind (key : α → Nat) (t : List α) (k : Nat) : Option α :=
  t.find? (fun r => key r = k)

/-- In-place update of the row with primary key `k` (`table.modify`). -/
def tmodify (key : α → Nat) (t : List α) (k : Nat) (f : α → α) : List α :=
  t.map (fun r => if key r = k then f r else r)

/-- Removal of the row with primary key `k` (`table.erase`). -/
def terase (key : α → Nat) (t : List α) (k : Nat) : List α :=
  t.filter (fun r => key r ≠ k)

/-- Insertion of a new row (`table.emplace`); the store rejects a primary key
that is already present. -/
def templace (key : α → Nat) (t : List α) (row : α) : Except Err (List α) :=
  if (tfind key t (key row)).isSome then .error .primary_key_exists
  else .ok (t ++ [row])

end Store

/-- The statement `check(cond, msg)`. -/
def check (cond : Prop) [Decidable cond] (e : Err) : Except Err Unit :=
  if cond then .ok () else .error e

/-- The predicate `has_auth(n)`. -/
def Ctx.has_auth (c : Ctx) (n : Name) : Prop := n ∈ c.auth

instance (c : Ctx) (n : Name) : Decidable (c.has_auth n) := by
  unfold Ctx.has_auth; infer_instance

/-- The statement `require_auth(n)`. -/
def require_auth (c : Ctx) (n : Name) : Except Err Unit :=
  check (c.has_auth n) .missing_authority

/-! ## Private helpers (verarta.core.cpp, 527-653) -/

/-- Source function `verartatoken::calculate_next_monday`. -/
def calculate_next_monday (from_time : Nat) : Nat :=
  let days_since_epoch := from_time / 86400
  let day_of_week := u64 (days_since_epoch + 4) % 7
  let days_until_monday := if day_of_week = 0 then 7 else u64 (7 - day_of_week)
  let midnight_today := u64 ((from_time / 86400) * 86400)
  u64 (midnight_today + u64 (days_until_monday * 86400))

/-- Source function `verartatoken::get_active_admin_keys`. -/
def get_active_admin_keys (s : Ledger) : List Bytes :=
  (s.adminkeys.filter (fun k => k.is_active)).map (fun k => k.public_key)

/-- The next midnight, `(current_time / 86400) * 86400 + 86400`. -/
def next_midnight (current_time : Nat) : Nat :=
  u64 (u64 ((current_time / 86400) * 86400) + 86400)

/-- Source function `verartatoken::reset_quota_if_expired` (597-617): the row
after the lazy window resets, and whether a reset occurred. -/
def reset_quota_if_expired (quota : usagequota) (current_time : Nat) : usagequota × Bool :=
  -- Reset daily quota if expired
  let r1 : usagequota × Bool :=
    if current_time ≥ quota.daily_reset_at then
      ({ quota with
          daily_files_used := 0
          daily_size_used := 0
          daily_reset_at := next_midnight current_time }, true)
    else (quota, false)
  -- Reset weekly quota if expired
  if current_time ≥ r1.1.weekly_reset_at then
    ({ r1.1 with
        weekly_files_used := 0
        weekly_size_used := 0
        weekly_reset_at := calculate_next_monday current_time }, true)
  else r1

/-- Body of the `quotas.modify` lambda of `check_and_update_quota` (560-594),
applied to the stored row; an error is a failed `check` inside the lambda. -/
def quota_update (current_time file_size : Nat) (stored : usagequota) :
    Except Err usagequota := do
  -- Reset daily quota if expired
  let row1 : usagequota :=
    if current_time ≥ stored.daily_reset_at then
      { stored with
        daily_files_used := 0
        daily_size_used := 0
        daily_reset_at := next_midnight current_time }
    else stored
  -- Reset weekly quota if expired
  let row : usagequota :=
    if current_time ≥ row1.weekly_reset_at then
      { row1 with
        weekly_files_used := 0
        weekly_size_used := 0
        weekly_reset_at := calculate_next_monday current_time }
    else row1
  -- Check daily limits
  check (row.daily_files_used < row.daily_file_limit) .daily_file_count_exceeded
  check (u64 (row.daily_size_used + file_size) ≤ row.daily_size_limit) .daily_size_exceeded
  -- Check weekly limits
  check (row.weekly_files_used < row.weekly_file_limit) .weekly_file_count_exceeded
  check (u64 (row.weekly_size_used + file_size) ≤ row.weekly_size_limit) .weekly_size_exceeded
  -- Update usage counters
  pure { row with
    daily_files_used := u32 (row.daily_files_used + 1)
    daily_size_used := u64 (row.daily_size_used + file_size)
    weekly_files_used := u32 (row.weekly_files_used + 1)
    weekly_size_used := u64 (row.weekly_size_used + file_size) }

/-- Row written by `check_and_update_quota` for an account without one
(539-552): the free tier, already charged with this file. -/
def default_quota (current_time : Nat) (account : Name) (file_size : Nat) : usagequota :=
  { account := account
    tier := 0
    daily_file_limit := 10
    daily_size_limit := 26214400
    weekly_file_limit := 40
    weekly_size_limit := 104857600
    daily_files_used := 1
    daily_size_used := file_size
    daily_reset_at := next_midnight current_time
    weekly_files_used := 1
    weekly_size_used := file_size
    weekly_reset_at := calculate_next_monday current_time }

/-- Source function `verartatoken::check_and_update_quota`. -/
def check_and_update_quota (c : Ctx) (s : Ledger) (account : Name) (file_size : Nat) :
    Except Err Ledger :=
  match tfind usagequota.account s.quotas account with
  | none => do
    let quotas ← templace usagequota.account s.quotas (default_quota c.now account file_size)
    pure { s with quotas := quotas }
  | some stored => do
    let row ← quota_update c.now file_size stored
    pure { s with quotas := tmodify usagequota.account s.quotas account (fun _ => row) }

/-! ## Actions (verarta.core.cpp, 8-525) -/

/-- Source action `verartatoken::createart`. -/
def createart (c : Ctx) (s : Ledger) (artwork_id : Nat) (owner : Name)
    (title_encrypted description_encrypted metadata_encrypted creator_public_key : Bytes) :
    Except Err Ledger := do
  require_auth c owner
  check (artwork_id > 0) .artwork_id_not_positive
  check (title_encrypted.length > 0) .title_empty
  check (title_encrypted.length ≤ 1024) .title_too_long
  check (description_encrypted.length ≤ 10240) .description_too_long
  check (metadata_encrypted.length ≤ 10240) .metadata_too_long
  check (creator_public_key.length = 44) .invalid_public_key_length
  check ((tfind artwork.artwork_id s.artworks artwork_id).isNone) .artwork_id_exists
  let artworks ← templace artwork.artwork_id s.artworks
    { artwork_id := artwork_id
      owner := owner
      title_encrypted := title_encrypted
      description_encrypted := description_encrypted
      metadata_encrypted := metadata_encrypted
      creator_public_key := creator_public_key
      created_at := c.now
      file_count := 0 }
  pure { s with artworks := artworks }

/-- Source action `verartatoken::addfile`. -/
def addfile (c : Ctx) (s : Ledger) (file_id artwork_id : Nat) (owner : Name)
    (filename_encrypted mime_type : Bytes) (file_size file_hash : Nat)
    (encrypted_dek : Bytes) (admin_encrypted_deks : List Bytes) (iv auth_tag : Bytes)
    (is_thumbnail : Bool) : Except Err Ledger := do
  require_auth c owner
  check (file_id > 0) .file_id_not_positive
  check (artwork_id > 0) .artwork_id_not_positive
  check (filename_encrypted.length > 0) .filename_empty
  check (filename_encrypted.length ≤ 512) .filename_too_long
  check (mime_type.length > 0 ∧ mime_type.length ≤ 128) .invalid_mime_type
  check (file_size > 0) .file_size_not_positive
  check (file_size ≤ 104857600) .file_size_too_large
  check (encrypted_dek.length > 0) .encrypted_dek_empty
  check (iv.length > 0) .iv_empty
  check (auth_tag.length > 0) .auth_tag_empty
  -- Check quota before creating file
  let s1 ← check_and_update_quota c s owner file_size
  -- Verify artwork exists and owner matches
  let some art := tfind artwork.artwork_id s1.artworks artwork_id
    | throw .artwork_not_found
  check (art.owner = owner) .artwork_owner_mismatch
  -- Check if file_id already exists
  check ((tfind artfile.file_id s1.artfiles file_id).isNone) .file_id_exists
  -- Validate admin encrypted DEKs match active admin keys
  check (admin_encrypted_deks.length = (get_active_admin_keys s1).length)
    .admin_dek_count_mismatch
  let artfiles ← templace artfile.file_id s1.artfiles
    { file_id := file_id
      artwork_id := artwork_id
      owner := owner
      filename_encrypted := filename_encrypted
      mime_type := mime_type
      file_size := file_size
      file_hash := file_hash
      encrypted_dek := encrypted_dek
      admin_encrypted_deks := admin_encrypted_deks
      iv := iv
      auth_tag := auth_tag
      is_thumbnail := is_thumbnail
      total_chunks := 0
      uploaded_chunks := 0
      upload_complete := false
      created_at := c.now
      completed_at := 0 }
  -- Increment artwork file count
  pure { s1 with
    artfiles := artfiles
    artworks := tmodify artwork.artwork_id s1.artworks artwork_id
      (fun row => { row with file_count := u32 (row.file_count + 1) }) }

/-- Source action `verartatoken::uploadchunk`. -/
def uploadchunk (c : Ctx) (s : Ledger) (chunk_id file_id : Nat) (owner : Name)
    (chunk_index : Nat) (chunk_data : Bytes) (chunk_size : Nat) : Except Err Ledger := do
  check (c.has_auth owner ∨ c.has_auth c.self) .missing_authority
  check (chunk_id > 0) .chunk_id_not_positive
  check (file_id > 0) .file_id_not_positive
  check (chunk_data.length > 0) .chunk_data_empty
  check (chunk_data.length ≤ 350000) .chunk_data_too_large
  check (chunk_size > 0 ∧ chunk_size ≤ 262144) .invalid_chunk_size
  -- Verify file exists and owner matches
  let some file := tfind artfile.file_id s.artfiles file_id
    | throw .file_not_found
  check (file.owner = owner) .file_owner_mismatch
  check (¬ file.upload_complete) .upload_already_complete
  -- Check if chunk_id already exists
  check ((tfind artchunk.chunk_id s.artchunks chunk_id).isNone) .chunk_id_exists
  -- Check if chunk_index already uploaded for this file
  let file_index_key := ((file_id <<< 64) % 2 ^ 128) ||| chunk_index
  check ((s.artchunks.find? (fun r => r.by_file_index = file_index_key)).isNone)
    .chunk_index_exists
  let artchunks ← templace artchunk.chunk_id s.artchunks
    { chunk_id := chunk_id
      file_id := file_id
      owner := owner
      chunk_index := chunk_index
      chunk_data := chunk_data
      chunk_size := chunk_size
      uploaded_at := c.now }
  -- Increment uploaded_chunks counter
  pure { s with
    artchunks := artchunks
    artfiles := tmodify artfile.file_id s.artfiles file_id
      (fun row => { row with uploaded_chunks := u32 (row.uploaded_chunks + 1) }) }

/-- Source action `verartatoken::completefile`. -/
def completefile (c : Ctx) (s : Ledger) (file_id : Nat) (owner : Name) (total_chunks : Nat) :
    Except Err Ledger := do
  check (c.has_auth owner ∨ c.has_auth c.self) .missing_authority
  check (file_id > 0) .file_id_not_positive
  check (total_chunks > 0) .total_chunks_not_positive
  -- Verify file exists and owner matches
  let some file := tfind artfile.file_id s.artfiles file_id
    | throw .file_not_found
  check (file.owner = owner) .file_owner_mismatch
  check (¬ file.upload_complete) .already_marked_complete
  -- Verify all chunks uploaded
  check (file.uploaded_chunks = total_chunks) .not_all_chunks_uploaded
  pure { s with
    artfiles := tmodify artfile.file_id s.artfiles file_id
      (fun row => { row with
        total_chunks := total_chunks
        upload_complete := true
        completed_at := c.now }) }

/-- Source action `verartatoken::setquota`. -/
def setquota (c : Ctx) (s : Ledger) (account : Name) (tier daily_file_limit daily_size_limit
    weekly_file_limit weekly_size_limit : Nat) : Except Err Ledger := do
  require_auth c c.self
  check (tier ≤ 1) .invalid_tier
  check (daily_file_limit > 0) .daily_file_limit_not_positive
  check (daily_size_limit > 0) .daily_size_limit_not_positive
  check (weekly_file_limit > 0) .weekly_file_limit_not_positive
  check (weekly_size_limit > 0) .weekly_size_limit_not_positive
  check (weekly_file_limit ≥ daily_file_limit) .weekly_file_limit_below_daily
  check (weekly_size_limit ≥ daily_size_limit) .weekly_size_limit_below_daily
  let current_time := c.now
  let daily_reset := next_midnight current_time
  let weekly_reset := calculate_next_monday current_time
  match tfind usagequota.account s.quotas account with
  | none => do
    let quotas ← templace usagequota.account s.quotas
      { account := account
        tier := tier
        daily_file_limit := daily_file_limit
        daily_size_limit := daily_size_limit
        weekly_file_limit := weekly_file_limit
        weekly_size_limit := weekly_size_limit
        daily_files_used := 0
        daily_size_used := 0
        daily_reset_at := daily_reset
        weekly_files_used := 0
        weekly_size_used := 0
        weekly_reset_at := weekly_reset }
    pure { s with quotas := quotas }
  | some _ =>
    -- Update existing quota (preserve usage counters)
    pure { s with
      quotas := tmodify usagequota.account s.quotas account
        (fun row => { row with
          tier := tier
          daily_file_limit := daily_file_limit
          daily_size_limit := daily_size_limit
          weekly_file_limit := weekly_file_limit
          weekly_size_limit := weekly_size_limit }) }

/-- Iteration order of the `byadmin` index: by `admin_account`, then by the
primary key. -/
def by_admin_le (a b : adminkey) : Prop :=
  a.admin_account < b.admin_account ∨ (a.admin_account = b.admin_account ∧ a.key_id ≤ b.key_id)

instance : DecidableRel by_admin_le := fun a b => by
  unfold by_admin_le; infer_instance

/-- The scan `for (itr ...) if (itr->key_id >= key_id) key_id = itr->key_id + 1`
of `addadminkey` (275-281), over the `byadmin` index. -/
def next_key_id (keys : List adminkey) : Nat :=
  (keys.insertionSort by_admin_le).foldl
    (fun key_id k => if k.key_id ≥ key_id then u64 (k.key_id + 1) else key_id) 1

/-- Source action `verartatoken::addadminkey`. -/
def addadminkey (c : Ctx) (s : Ledger) (admin_account : Name) (public_key description : Bytes) :
    Except Err Ledger := do
  require_auth c c.self
  check (public_key.length = 44) .invalid_public_key_length
  check (description.length > 0 ∧ description.length ≤ 256) .invalid_description
  -- Find next key_id
  let key_id := next_key_id s.adminkeys
  -- Check if this public_key already exists
  check (∀ k ∈ s.adminkeys, k.public_key ≠ public_key) .public_key_exists
  let adminkeys ← templace adminkey.key_id s.adminkeys
    { key_id := key_id
      admin_account := admin_account
      public_key := public_key
      description := description
      added_at := c.now
      is_active := true }
  pure { s with adminkeys := adminkeys }

/-- Source action `verartatoken::rmadminkey`. -/
def rmadminkey (c : Ctx) (s : Ledger) (key_id : Nat) : Except Err Ledger := do
  require_auth c c.self
  check ((tfind adminkey.key_id s.adminkeys key_id).isSome) .admin_key_not_found
  -- Mark as inactive (don't delete to preserve audit trail)
  pure { s with
    adminkeys := tmodify adminkey.key_id s.adminkeys key_id
      (fun row => { row with is_active := false }) }

/-- The scan `for (itr ...) if (itr->log_id >= log_id) log_id = itr->log_id + 1`
of `logaccess` (347-352), in primary-key order. -/
def next_log_id (logs : List adminaccesslog) : Nat :=
  (logs.insertionSort (fun a b => a.log_id ≤ b.log_id)).foldl
    (fun log_id l => if l.log_id ≥ log_id then u64 (l.log_id + 1) else log_id) 1

/-- Source action `verartatoken::logaccess`. -/
def logaccess (c : Ctx) (s : Ledger) (admin_account : Name) (file_id : Nat) (reason : Bytes) :
    Except Err Ledger := do
  require_auth c admin_account
  check (file_id > 0) .file_id_not_positive
  check (reason.length > 0 ∧ reason.length ≤ 512) .invalid_reason
  -- Verify file exists
  check ((tfind artfile.file_id s.artfiles file_id).isSome) .file_not_found
  -- Verify admin has an active admin key
  let has_admin_key : Prop :=
    ∃ k ∈ s.adminkeys, k.admin_account = admin_account ∧ k.is_active = true
  check has_admin_key .no_active_admin_key
  -- Find next log_id
  let log_id := next_log_id s.logs
  let logs ← templace adminaccesslog.log_id s.logs
    { log_id := log_id
      admin_account := admin_account
      file_id := file_id
      reason := reason
      accessed_at := c.now }
  pure { s with logs := logs }

/-- The loop `while (chunk_itr != end && chunk_itr->file_id == file_id) erase`
over the `byfile` index: every chunk of the file goes. -/
def erase_chunks_of (chunks : List artchunk) (file_id : Nat) : List artchunk :=
  chunks.filter (fun ch => ch.file_id ≠ file_id)

/-- Source action `verartatoken::deletefile`. -/
def deletefile (c : Ctx) (s : Ledger) (file_id artwork_id : Nat) (owner : Name) :
    Except Err Ledger := do
  require_auth c c.self
  check (file_id > 0) .file_id_not_positive
  check (artwork_id > 0) .artwork_id_not_positive
  let some art := tfind artwork.artwork_id s.artworks artwork_id
    | throw .artwork_not_found
  check (art.owner = owner) .artwork_owner_mismatch
  let some file := tfind artfile.file_id s.artfiles file_id
    | throw .file_not_found
  check (file.artwork_id = artwork_id) .file_not_in_artwork
  check (file.owner = owner) .file_owner_mismatch
  pure { s with
    -- Delete all chunks for this file
    artchunks := erase_chunks_of s.artchunks file_id
    -- Decrement artwork file count
    artworks := tmodify artwork.artwork_id s.artworks artwork_id
      (fun row => if row.file_count > 0 then { row with file_count := row.file_count - 1 } else row)
    -- Delete the file record
    artfiles := terase artfile.file_id s.artfiles file_id }

/-- The outer loop of `deleteart` (422-435) over the files of the artwork in
the `byartwork` index: for each, its chunks are erased, then the file. -/
def deleteart_loop : List artfile → List artfile → List artchunk → List artfile × List artchunk
  | [], files, chunks => (files, chunks)
  | f :: rest, files, chunks =>
    deleteart_loop rest (terase artfile.file_id files f.file_id) (erase_chunks_of chunks f.file_id)

/-- Source action `verartatoken::deleteart`. -/
def deleteart (c : Ctx) (s : Ledger) (artwork_id : Nat) (owner : Name) : Except Err Ledger := do
  require_auth c owner
  -- Verify artwork exists and owner matches
  let some art := tfind artwork.artwork_id s.artworks artwork_id
    | throw .artwork_not_found
  check (art.owner = owner) .artwork_owner_mismatch
  -- Delete all files and their chunks
  let r := deleteart_loop (s.artfiles.filter (fun f => f.artwork_id = artwork_id))
    s.artfiles s.artchunks
  -- Delete artwork
  pure { s with
    artfiles := r.1
    artchunks := r.2
    artworks := terase artwork.artwork_id s.artworks artwork_id }

/-- The loop of `transferart` (465-476) from index `i` on: the three vectors
are consumed in step (their sizes were checked equal before the loop). -/
def transfer_loop (artwork_id : Nat) (sender recipient : Name) :
    List Nat → List Bytes → List Bytes → List artfile → Except Err (List artfile)
  | id :: ids, dek :: deks, tag :: tags, files => do
    let some file := tfind artfile.file_id files id
      | throw .file_not_found
    check (file.artwork_id = artwork_id) .file_not_in_artwork
    check (file.owner = sender) .file_owner_mismatch
    transfer_loop artwork_id sender recipient ids deks tags
      (tmodify artfile.file_id files id
        (fun row => { row with owner := recipient, encrypted_dek := dek, auth_tag := tag }))
  | _, _, _, files => pure files

/-- Source action `verartatoken::transferart` (`sender` and `recipient` are the parameters `from` and `to`). -/
def transferart (c : Ctx) (s : Ledger) (artwork_id : Nat) (sender recipient : Name)
    (file_ids : List Nat) (new_encrypted_deks new_auth_tags : List Bytes) (_memo : Bytes) :
    Except Err Ledger := do
  require_auth c sender
  check (sender ≠ recipient) .transfer_to_self
  check (file_ids.length = new_encrypted_deks.length) .dek_size_mismatch
  check (file_ids.length = new_auth_tags.length) .tag_size_mismatch
  -- Verify artwork exists and from is the owner
  let some art := tfind artwork.artwork_id s.artworks artwork_id
    | throw .artwork_not_found
  check (art.owner = sender) .artwork_owner_mismatch
  -- Update each file's owner and re-encrypted DEK
  let artfiles ← transfer_loop artwork_id sender recipient file_ids new_encrypted_deks new_auth_tags
    s.artfiles
  -- Transfer artwork ownership
  pure { s with
    artfiles := artfiles
    artworks := tmodify artwork.artwork_id s.artworks artwork_id
      (fun row => { row with owner := recipient }) }

/-- Source action `verartatoken::updateart`. -/
def updateart (c : Ctx) (s : Ledger) (artwork_id : Nat) (owner : Name)
    (description_encrypted metadata_encrypted : Bytes) : Except Err Ledger := do
  check (c.has_auth owner ∨ c.has_auth c.self) .missing_authority
  check (artwork_id > 0) .artwork_id_not_positive
  check (description_encrypted.length ≤ 10240) .description_too_long
  check (metadata_encrypted.length ≤ 10240) .metadata_too_long
  let some art := tfind artwork.artwork_id s.artworks artwork_id
    | throw .artwork_not_found
  check (art.owner = owner) .artwork_owner_mismatch
  pure { s with
    artworks := tmodify artwork.artwork_id s.artworks artwork_id
      (fun row => { row with
        description_encrypted := description_encrypted
        metadata_encrypted := metadata_encrypted }) }

/-- Source action `verartatoken::addadmindek`. -/
def addadmindek (c : Ctx) (s : Ledger) (file_id : Nat) (new_encrypted_dek : Bytes) :
    Except Err Ledger := do
  require_auth c c.self
  check (file_id > 0) .file_id_not_positive
  check (new_encrypted_dek.length > 0) .new_dek_empty
  let some file := tfind artfile.file_id s.artfiles file_id
    | throw .file_not_found
  check (file.admin_encrypted_deks.length < (get_active_admin_keys s).length)
    .all_admin_deks_present
  pure { s with
    artfiles := tmodify artfile.file_id s.artfiles file_id
      (fun row => { row with
        admin_encrypted_deks := row.admin_encrypted_deks ++ [new_encrypted_dek] }) }

/-! ## Transactions and reachable states -/

/-- The thirteen actions of `EOSIO_DISPATCH`, with their arguments. -/
inductive Action where
  | createart (artwork_id : Nat) (owner : Name)
      (title_encrypted description_encrypted metadata_encrypted creator_public_key : Bytes)
  | updateart (artwork_id : Nat) (owner : Name) (description_encrypted metadata_encrypted : Bytes)
  | addfile (file_id artwork_id : Nat) (owner : Name) (filename_encrypted mime_type : Bytes)
      (file_size file_hash : Nat) (encrypted_dek : Bytes) (admin_encrypted_deks : List Bytes)
      (iv auth_tag : Bytes) (is_thumbnail : Bool)
  | uploadchunk (chunk_id file_id : Nat) (owner : Name) (chunk_index : Nat) (chunk_data : Bytes)
      (chunk_size : Nat)
  | completefile (file_id : Nat) (owner : Name) (total_chunks : Nat)
  | setquota (account : Name) (tier daily_file_limit daily_size_limit weekly_file_limit
      weekly_size_limit : Nat)
  | addadminkey (admin_account : Name) (public_key description : Bytes)
  | rmadminkey (key_id : Nat)
  | addadmindek (file_id : Nat) (new_encrypted_dek : Bytes)
  | logaccess (admin_account : Name) (file_id : Nat) (reason : Bytes)
  | deleteart (artwork_id : Nat) (owner : Name)
  | deletefile (file_id artwork_id : Nat) (owner : Name)
  | transferart (artwork_id : Nat) (sender recipient : Name) (file_ids : List Nat)
      (new_encrypted_deks new_auth_tags : List Bytes) (memo : Bytes)
  deriving DecidableEq, Repr

/-- One transaction: the action is run on the stored ledger. -/
def dispatch (c : Ctx) (s : Ledger) : Action → Except Err Ledger
  | .createart a o t d m k => createart c s a o t d m k
  | .updateart a o d m => updateart c s a o d m
  | .addfile f a o fn mt sz h dek adeks iv tag th =>
    addfile c s f a o fn mt sz h dek adeks iv tag th
  | .uploadchunk ch f o i data sz => uploadchunk c s ch f o i data sz
  | .completefile f o n => completefile c s f o n
  | .setquota acc t dfl dsl wfl wsl => setquota c s acc t dfl dsl wfl wsl
  | .addadminkey acc pk d => addadminkey c s acc pk d
  | .rmadminkey k => rmadminkey c s k
  | .addadmindek f dek => addadmindek c s f dek
  | .logaccess acc f r => logaccess c s acc f r
  | .deleteart a o => deleteart c s a o
  | .deletefile f a o => deletefile c s f a o
  | .transferart a fr t ids deks tags memo => transferart c s a fr t ids deks tags memo

/-- The stored ledger after a transaction: the new ledger when the action
succeeds, the old one when it aborts. -/
def exec (c : Ctx) (s : Ledger) (a : Action) : Ledger :=
  match dispatch c s a with
  | .ok s1 => s1
  | .error _ => s

/-- A sequence of successful transactions, each with its own environment. -/
def run : Ledger → List (Ctx × Action) → Except Err Ledger
  | s, [] => .ok s
  | s, (c, a) :: rest => do
    let s1 ← dispatch c s a
    run s1 rest

/-- States reachable from the empty ledger by successful transactions whose
(state, action) pairs all satisfy `P`. -/
inductive ReachableBy (P : Ledger → Action → Prop) : Ledger → Prop where
  | init : ReachableBy P Ledger.empty
  | next {s s1 : Ledger} (c : Ctx) (a : Action) :
      ReachableBy P s → P s a → dispatch c s a = .ok s1 → ReachableBy P s1

/-- States reachable from the empty ledger by any successful transactions. -/
def Reachable (s : Ledger) : Prop := ReachableBy (fun _ _ => True) s


/-! ## Vocabulary of the statements -/

/-- The file row that `addfile` emplaces (93-112). -/
def new_file (c : Ctx) (file_id artwork_id : Nat) (owner : Name)
    (filename_encrypted mime_type : Bytes) (file_size file_hash : Nat)
    (encrypted_dek : Bytes) (admin_encrypted_deks : List Bytes) (iv auth_tag : Bytes)
    (is_thumbnail : Bool) : artfile :=
  { file_id := file_id
    artwork_id := artwork_id
    owner := owner
    filename_encrypted := filename_encrypted
    mime_type := mime_type
    file_size := file_size
    file_hash := file_hash
    encrypted_dek := encrypted_dek
    admin_encrypted_deks := admin_encrypted_deks
    iv := iv
    auth_tag := auth_tag
    is_thumbnail := is_thumbnail
    total_chunks := 0
    uploaded_chunks := 0
    upload_complete := false
    created_at := c.now
    completed_at := 0 }

/-- The argument checks of `addfile` (62-71). -/
def addfile_fields_valid (file_id artwork_id : Nat) (filename_encrypted mime_type : Bytes)
    (file_size : Nat) (encrypted_dek iv auth_tag : Bytes) : Prop :=
  file_id > 0 ∧ artwork_id > 0 ∧ filename_encrypted.length > 0 ∧
  filename_encrypted.length ≤ 512 ∧ (mime_type.length > 0 ∧ mime_type.length ≤ 128) ∧
  file_size > 0 ∧ file_size ≤ 104857600 ∧ encrypted_dek.length > 0 ∧ iv.length > 0 ∧
  auth_tag.length > 0

/-- Number of admin key records whose `is_active` is true. -/
def active_key_count (s : Ledger) : Nat :=
  s.adminkeys.countP (fun k => k.is_active)

/-- The four ceiling checks of `check_and_update_quota` (577-587), read as
inequalities between numbers. -/
def within_ceilings (row : usagequota) (file_size : Nat) : Prop :=
  row.daily_files_used < row.daily_file_limit ∧
  row.daily_size_used + file_size ≤ row.daily_size_limit ∧
  row.weekly_files_used < row.weekly_file_limit ∧
  row.weekly_size_used + file_size ≤ row.weekly_size_limit

/-- The limits of a quota row fit their field types (`uint32_t` file counts,
`uint64_t` sizes). -/
def limits_typed (row : usagequota) : Prop :=
  row.daily_file_limit < 2 ^ 32 ∧ row.daily_size_limit < 2 ^ 64 ∧
  row.weekly_file_limit < 2 ^ 32 ∧ row.weekly_size_limit < 2 ^ 64

/-- A quota row after `files` more files of `bytes` bytes in all, in both windows. -/
def charged (row : usagequota) (files bytes : Nat) : usagequota :=
  { row with
    daily_files_used := row.daily_files_used + files
    daily_size_used := row.daily_size_used + bytes
    weekly_files_used := row.weekly_files_used + files
    weekly_size_used := row.weekly_size_used + bytes }

/-- The four checks of `check_and_update_quota` (577-587) as the code
evaluates them, the sums in `uint64_t`. -/
def checks_pass (row : usagequota) (file_size : Nat) : Prop :=
  row.daily_files_used < row.daily_file_limit ∧
  u64 (row.daily_size_used + file_size) ≤ row.daily_size_limit ∧
  row.weekly_files_used < row.weekly_file_limit ∧
  u64 (row.weekly_size_used + file_size) ≤ row.weekly_size_limit

/-- The four errors of the quota checks. -/
def quota_errors : List Err :=
  [.daily_file_count_exceeded, .daily_size_exceeded, .weekly_file_count_exceeded,
    .weekly_size_exceeded]

/-- Every transaction of a trace, run from `s`, satisfies `P` in the state it
meets. -/
def trace_satisfies (P : Ledger → Action → Prop) : Ledger → List (Ctx × Action) → Prop
  | _, [] => True
  | s, (c, a) :: rest => P s a ∧ trace_satisfies P (exec c s a) rest

/-! ## Invariants of the statements -/

/-- File ids are pairwise distinct: `artfiles` has one row per primary key. -/
def file_ids_unique (s : Ledger) : Prop :=
  (s.artfiles.map artfile.file_id).Nodup

/-- Every file's `artwork_id` is the id of a stored artwork. -/
def parent_artwork_exists (s : Ledger) : Prop :=
  ∀ f ∈ s.artfiles, ∃ a ∈ s.artworks, a.artwork_id = f.artwork_id

/-- Ownership coupling: every file's `artwork_id` is the id of a stored
artwork whose owner is the file's owner. -/
def ownership_coupled (s : Ledger) : Prop :=
  ∀ f ∈ s.artfiles, ∃ a ∈ s.artworks, a.artwork_id = f.artwork_id ∧ a.owner = f.owner

/-- A `transferart` that lists every file of the artwork it transfers (true
of every other action). -/
def lists_all_files : Ledger → Action → Prop
  | s, .transferart artwork_id _ _ file_ids _ _ _ =>
    ∀ f ∈ s.artfiles, f.artwork_id = artwork_id → f.file_id ∈ file_ids
  | _, _ => True

/-- Any action but `rmadminkey`. -/
def not_rmadminkey : Ledger → Action → Prop
  | _, .rmadminkey _ => False
  | _, _ => True

/-- Escrow size bound: no file carries more admin DEKs than there are active
admin keys. -/
def escrow_within_active (s : Ledger) : Prop :=
  ∀ f ∈ s.artfiles, f.admin_encrypted_deks.length ≤ active_key_count s

/-- No file carries more admin DEKs than there are admin key records, active
or not. -/
def escrow_within_issued (s : Ledger) : Prop :=
  ∀ f ∈ s.artfiles, f.admin_encrypted_deks.length ≤ s.adminkeys.length

/-- Every file has a stored parent artwork whose owner is related by `P` to
the file's owner (`P` is equality for ownership coupling, and always true for
mere existence of the parent). -/
def linked (P : Name → Name → Prop) (s : Ledger) : Prop :=
  ∀ f ∈ s.artfiles, ∃ a ∈ s.artworks, a.artwork_id = f.artwork_id ∧ P a.owner f.owner

/-- No file carries more admin DEKs than `m` counts among the admin key
records. -/
def escrow_within (m : List adminkey → Nat) (s : Ledger) : Prop :=
  ∀ f ∈ s.artfiles, f.admin_encrypted_deks.length ≤ m s.adminkeys

/-! ## Concrete ledgers used to instantiate the statements -/

/-- Environment of the examples: contract account 1, transaction signed by
account 7, block time 2024-01-03 12:00:00 UTC. -/
def demo_ctx : Ctx := ⟨1, [7], 1704283200⟩

/-- A free-tier quota row of account 7 in the middle of its windows (2 files
and 5000 bytes today, 3 files and 9000 bytes this week). -/
def demo_quota : usagequota :=
  { account := 7
    tier := 0
    daily_file_limit := 10
    daily_size_limit := 26214400
    weekly_file_limit := 40
    weekly_size_limit := 104857600
    daily_files_used := 2
    daily_size_used := 5000
    daily_reset_at := 1704326400
    weekly_files_used := 3
    weekly_size_used := 9000
    weekly_reset_at := 1704585600 }

/-- A ledger holding only `demo_quota`. -/
def demo_quota_ledger : Ledger := { Ledger.empty with quotas := [demo_quota] }

/-- The row `demo_quota` with a daily window that ends exactly at the block
time of `demo_ctx`, its daily counters stale. -/
def stale_quota : usagequota := { demo_quota with daily_reset_at := 1704283200 }

/-- A ledger holding only `stale_quota`. -/
def stale_quota_ledger : Ledger := { Ledger.empty with quotas := [stale_quota] }

/-- The ledger `stale_quota_ledger` after 1000 bytes are charged at 12:00:00. -/
def stale_quota_after : Ledger :=
  { Ledger.empty with
    quotas := [{ demo_quota with
      daily_files_used := 1
      daily_size_used := 1000
      daily_reset_at := 1704326400
      weekly_files_used := 4
      weekly_size_used := 10000 }] }

/-- A ledger with artwork 1 of account 7, three active admin keys and no file. -/
def three_key_ledger : Ledger :=
  { Ledger.empty with
    artworks := [⟨1, 7, [1], [], [], List.replicate 44 0, 1704200000, 0⟩]
    adminkeys := [⟨1, 1, List.replicate 44 1, [1], 1704200000, true⟩,
      ⟨2, 1, List.replicate 44 2, [1], 1704200000, true⟩,
      ⟨3, 1, List.replicate 44 3, [1], 1704200000, true⟩] }

/-- A ledger with two active admin keys and file 1 of artwork 1 (account 7)
carrying one admin DEK. -/
def catch_up_ledger : Ledger :=
  { Ledger.empty with
    artworks := [⟨1, 7, [1], [], [], List.replicate 44 0, 1704200000, 1⟩]
    artfiles := [new_file demo_ctx 1 1 7 [1] [1] 1000 0 [1] [[5]] [1] [1] false]
    adminkeys := [⟨1, 1, List.replicate 44 1, [1], 1704200000, true⟩,
      ⟨2, 1, List.replicate 44 2, [1], 1704200000, true⟩] }

/-- A trace of four transactions signed by account 7: artwork 1 is created,
files 1 and 2 are added to it, and the artwork is transferred to account 8
with only file 1 listed. -/
def partial_transfer_trace : List (Ctx × Action) :=
  [(demo_ctx, .createart 1 7 [1] [] [] (List.replicate 44 0)),
   (demo_ctx, .addfile 1 1 7 [1] [1] 1000 0 [1] [] [1] [1] false),
   (demo_ctx, .addfile 2 1 7 [1] [1] 1000 0 [1] [] [1] [1] false),
   (demo_ctx, .transferart 1 7 8 [1] [[2]] [[3]] [])]

/-- The ledger after `partial_transfer_trace`: artwork 1 and file 1 belong to
account 8, file 2 still to account 7. -/
def partial_transfer_ledger : Ledger :=
  { Ledger.empty with
    artworks := [⟨1, 8, [1], [], [], List.replicate 44 0, 1704283200, 2⟩]
    artfiles := [
      { new_file demo_ctx 1 1 7 [1] [1] 1000 0 [1] [] [1] [1] false with
        owner := 8, encrypted_dek := [2], auth_tag := [3] },
      new_file demo_ctx 2 1 7 [1] [1] 1000 0 [1] [] [1] [1] false]
    quotas := [{ default_quota 1704283200 7 1000 with
      daily_files_used := 2, daily_size_used := 2000
      weekly_files_used := 2, weekly_size_used := 2000 }] }

/-- The same trace with both files listed in the transfer. -/
def full_transfer_trace : List (Ctx × Action) :=
  [(demo_ctx, .createart 1 7 [1] [] [] (List.replicate 44 0)),
   (demo_ctx, .addfile 1 1 7 [1] [1] 1000 0 [1] [] [1] [1] false),
   (demo_ctx, .addfile 2 1 7 [1] [1] 1000 0 [1] [] [1] [1] false),
   (demo_ctx, .transferart 1 7 8 [1, 2] [[2], [4]] [[3], [5]] [])]

/-- The ledger after `full_transfer_trace`: the artwork and both files belong
to account 8. -/
def full_transfer_ledger : Ledger :=
  { partial_transfer_ledger with
    artfiles := [
      { new_file demo_ctx 1 1 7 [1] [1] 1000 0 [1] [] [1] [1] false with
        owner := 8, encrypted_dek := [2], auth_tag := [3] },
      { new_file demo_ctx 2 1 7 [1] [1] 1000 0 [1] [] [1] [1] false with
        owner := 8, encrypted_dek := [4], auth_tag := [5] }] }

/-- A trace without `rmadminkey`: the contract account 1 adds an admin key,
account 7 creates artwork 1 and adds file 1 with one admin DEK. -/
def escrowed_trace : List (Ctx × Action) :=
  [(⟨1, [1], 1704283200⟩, .addadminkey 1 (List.replicate 44 1) [1]),
   (demo_ctx, .createart 1 7 [1] [] [] (List.replicate 44 0)),
   (demo_ctx, .addfile 1 1 7 [1] [1] 1000 0 [1] [[9]] [1] [1] false)]

/-- The ledger after `escrowed_trace`. -/
def escrowed_ledger : Ledger :=
  { Ledger.empty with
    artworks := [⟨1, 7, [1], [], [], List.replicate 44 0, 1704283200, 1⟩]
    artfiles := [new_file demo_ctx 1 1 7 [1] [1] 1000 0 [1] [[9]] [1] [1] false]
    quotas := [default_quota 1704283200 7 1000]
    adminkeys := [⟨1, 1, List.replicate 44 1, [1], 1704283200, true⟩] }

/-- The trace `escrowed_trace` followed by the removal of admin key 1. -/
def removed_key_trace : List (Ctx × Action) :=
  escrowed_trace ++ [(⟨1, [1], 1704283200⟩, .rmadminkey 1)]

/-- The ledger after `removed_key_trace`: file 1 still carries one admin DEK,
and no admin key is active. -/
def removed_key_ledger : Ledger :=
  { escrowed_ledger with
    adminkeys := [⟨1, 1, List.replicate 44 1, [1], 1704283200, false⟩] }

/-- A trace of four transactions signed by account 7: artwork 1 is created,
file 1 is added to it, and chunks 1 and 2 are uploaded at indices 0 and 1. -/
def two_chunk_trace : List (Ctx × Action) :=
  [(demo_ctx, .createart 1 7 [1] [] [] (List.replicate 44 0)),
   (demo_ctx, .addfile 1 1 7 [1] [1] 1000 0 [1] [] [1] [1] false),
   (demo_ctx, .uploadchunk 1 1 7 0 [1] 1),
   (demo_ctx, .uploadchunk 2 1 7 1 [1] 1)]

/-- The ledger after `two_chunk_trace`: file 1 of artwork 1 (account 7) holds
two uploaded chunks, its upload not yet completed. -/
def two_chunk_ledger : Ledger :=
  { Ledger.empty with
    artworks := [⟨1, 7, [1], [], [], List.replicate 44 0, 1704283200, 1⟩]
    artfiles := [{ new_file demo_ctx 1 1 7 [1] [1] 1000 0 [1] [] [1] [1] false with
      uploaded_chunks := 2 }]
    artchunks := [⟨1, 1, 7, 0, [1], 1, 1704283200⟩, ⟨2, 1, 7, 1, [1], 1, 1704283200⟩]
    quotas := [default_quota 1704283200 7 1000] }

/-- A ledger with artwork 1 of account 7, its files 1 and 2 (as after the first
three transactions of `partial_transfer_trace`). -/
def two_file_ledger : Ledger :=
  { partial_transfer_ledger with
    artworks := [⟨1, 7, [1], [], [], List.replicate 44 0, 1704283200, 2⟩]
    artfiles := [new_file demo_ctx 1 1 7 [1] [1] 1000 0 [1] [] [1] [1] false,
      new_file demo_ctx 2 1 7 [1] [1] 1000 0 [1] [] [1] [1] false] }

/-- The first three transactions of `partial_transfer_trace`: account 7
creates artwork 1 and adds files 1 and 2; `two_file_ledger` is the result. -/
def two_file_trace : List (Ctx × Action) :=
  [(demo_ctx, .createart 1 7 [1] [] [] (List.replicate 44 0)),
   (demo_ctx, .addfile 1 1 7 [1] [1] 1000 0 [1] [] [1] [1] false),
   (demo_ctx, .addfile 2 1 7 [1] [1] 1000 0 [1] [] [1] [1] false)]

/-- Every chunk's `file_id` is the id of a stored file. -/
def chunk_parent_exists (s : Ledger) : Prop :=
  ∀ ch ∈ s.artchunks, ∃ f ∈ s.artfiles, f.file_id = ch.file_id

/-- A ledger with artwork 1 (file 1, chunks 1 and 2) and artwork 2 (file 2,
chunk 3), both of account 7. -/
def two_artwork_ledger : Ledger :=
  { Ledger.empty with
    artworks := [⟨1, 7, [1], [], [], List.replicate 44 0, 1704283200, 1⟩,
      ⟨2, 7, [2], [], [], List.replicate 44 0, 1704283200, 1⟩]
    artfiles := [
      { new_file demo_ctx 1 1 7 [1] [1] 1000 0 [1] [] [1] [1] false with uploaded_chunks := 2 },
      { new_file demo_ctx 2 2 7 [1] [1] 1000 0 [1] [] [1] [1] false with uploaded_chunks := 1 }]
    artchunks := [⟨1, 1, 7, 0, [1], 1, 1704283200⟩, ⟨2, 1, 7, 1, [1], 1, 1704283200⟩,
      ⟨3, 2, 7, 0, [1], 1, 1704283200⟩]
    quotas := [{ default_quota 1704283200 7 1000 with
      daily_files_used := 2, daily_size_used := 2000
      weekly_files_used := 2, weekly_size_used := 2000 }] }

/-- Every completed file has as many uploaded chunks as its declared total. -/
def completed_consistent (s : Ledger) : Prop :=
  ∀ g ∈ s.artfiles, g.upload_complete = true → g.uploaded_chunks = g.total_chunks

/-- The ledger `two_chunk_ledger` after `completefile(1, 7, 2)`: file 1 is
completed with two chunks. -/
def completed_ledger : Ledger :=
  { two_chunk_ledger with
    artfiles := [{ new_file demo_ctx 1 1 7 [1] [1] 1000 0 [1] [] [1] [1] false with
      uploaded_chunks := 2, total_chunks := 2, upload_complete := true,
      completed_at := 1704283200 }] }

/-- The errors of `uploadchunk` that the specification classes as `Conflict`:
upload already complete, `chunk_id` taken, chunk index taken. -/
def upload_conflict_errors : List Err :=
  [.upload_already_complete, .chunk_id_exists, .chunk_index_exists]

/-- No two stored chunks share a `(file_id, chunk_index)` pair. -/
def chunk_positions_unique (s : Ledger) : Prop :=
  (s.artchunks.map (fun ch => (ch.file_id, ch.chunk_index))).Nodup

/-- The `file_count` invariant: every artwork's `file_count` is the number of
files whose `artwork_id` is its id. -/
def file_count_matches (s : Ledger) : Prop :=
  ∀ a ∈ s.artworks, a.file_count = s.artfiles.countP (fun f => f.artwork_id = a.artwork_id)

/-- An `addfile` to an artwork that holds fewer than `2^32 - 1` files (true of
every other action). -/
def room_for_file : Ledger → Action → Prop
  | s, .addfile _ artwork_id _ _ _ _ _ _ _ _ _ _ =>
    s.artfiles.countP (fun f => f.artwork_id = artwork_id) + 1 < 2 ^ 32
  | _, _ => True

/-- The one-byte files 1 to `n` of artwork 1, added by account 7 at the block
time of `demo_ctx`. -/
def bulk_files : Nat → List artfile
  | 0 => []
  | n + 1 => bulk_files n ++ [new_file demo_ctx (n + 1) 1 7 [1] [1] 1 0 [1] [] [1] [1] false]

/-- The quota row of account 7 set by `setquota(7, 1, 2^32-1, 2^40, 2^32-1, 2^40)`
at the block time of `demo_ctx`, after `n` one-byte files. -/
def bulk_quota (n : Nat) : usagequota :=
  { account := 7
    tier := 1
    daily_file_limit := 4294967295
    daily_size_limit := 1099511627776
    weekly_file_limit := 4294967295
    weekly_size_limit := 1099511627776
    daily_files_used := n
    daily_size_used := n
    daily_reset_at := 1704326400
    weekly_files_used := n
    weekly_size_used := n
    weekly_reset_at := 1704585600 }

/-- The ledger after that `setquota`, `createart(1, 7, ...)` and `n` calls
`addfile(k, 1, 7, ...)` for `k = 1 .. n`, all on the same day, `n < 2^32`. -/
def bulk_ledger (n : Nat) : Ledger :=
  { artworks := [⟨1, 7, [1], [], [], List.replicate 44 0, 1704283200, n⟩]
    artfiles := bulk_files n
    artchunks := []
    quotas := [bulk_quota n]
    adminkeys := []
    logs := [] }

/-- Environment of a transaction of account 7 eight days later
(2024-01-11 12:00:00 UTC), after both quota windows have ended. -/
def later_ctx : Ctx := ⟨1, [7], 1704974400⟩

/-- The ledger `bulk_ledger (2^32 - 1)` after account 7 adds file `2^32` to
artwork 1 at the block time of `later_ctx`: the artwork has `2^32` files and
its 32-bit `file_count` is back to 0. -/
def wrapped_ledger : Ledger :=
  { artworks := [⟨1, 7, [1], [], [], List.replicate 44 0, 1704283200, 0⟩]
    artfiles := bulk_files 4294967295 ++
      [new_file later_ctx 4294967296 1 7 [1] [1] 1 0 [1] [] [1] [1] false]
    artchunks := []
    quotas := [{ bulk_quota 1 with
      daily_reset_at := 1705017600
      weekly_reset_at := calculate_next_monday 1704974400 }]
    adminkeys := []
    logs := [] }

/-- Account 7 creates artwork 1 and adds files 1 and 2 to it; the contract
account then deletes file 1. -/
def delete_file_trace : List (Ctx × Action) :=
  [(demo_ctx, .createart 1 7 [1] [] [] (List.replicate 44 0)),
   (demo_ctx, .addfile 1 1 7 [1] [1] 1000 0 [1] [] [1] [1] false),
   (demo_ctx, .addfile 2 1 7 [1] [1] 1000 0 [1] [] [1] [1] false),
   (⟨1, [1], 1704283200⟩, .deletefile 1 1 7)]

/-- The ledger after `delete_file_trace`: artwork 1 with file 2 only. -/
def delete_file_ledger : Ledger :=
  { two_file_ledger with
    artworks := [⟨1, 7, [1], [], [], List.replicate 44 0, 1704283200, 1⟩]
    artfiles := [new_file demo_ctx 2 1 7 [1] [1] 1000 0 [1] [] [1] [1] false] }

/-- Public keys of the admin key records are pairwise distinct. -/
def public_keys_unique (s : Ledger) : Prop :=
  (s.adminkeys.map adminkey.public_key).Nodup

/-- A key record `k1` that continues the record `k`: the same `key_id`,
`admin_account`, `public_key`, `description` and `added_at`, and `is_active`
either as before or gone from true to false. -/
def continues (k k1 : adminkey) : Prop :=
  k1.key_id = k.key_id ∧ k1.admin_account = k.admin_account ∧ k1.public_key = k.public_key ∧
  k1.description = k.description ∧ k1.added_at = k.added_at ∧
  (k1.is_active = k.is_active ∨ (k.is_active = true ∧ k1.is_active = false))

/-- Every quota row has its weekly limits at least its daily limits. -/
def limits_ordered (s : Ledger) : Prop :=
  ∀ q ∈ s.quotas, q.weekly_file_limit ≥ q.daily_file_limit ∧
    q.weekly_size_limit ≥ q.daily_size_limit

/-- Environment of a transaction signed by the contract account 1 at the
block time of `demo_ctx`. -/
def service_ctx : Ctx := ⟨1, [1], 1704283200⟩

/-- The argument checks of `setquota` (217-223). -/
def setquota_args_valid (tier daily_file_limit daily_size_limit weekly_file_limit
    weekly_size_limit : Nat) : Prop :=
  tier ≤ 1 ∧ daily_file_limit > 0 ∧ daily_size_limit > 0 ∧ weekly_file_limit > 0 ∧
  weekly_size_limit > 0 ∧ weekly_file_limit ≥ daily_file_limit ∧
  weekly_size_limit ≥ daily_size_limit

/-- The ledger `demo_quota_ledger` after `setquota(7, 1, 100, 1000000000, 500,
5000000000)`: the premium tier and the new limits, the usage of `demo_quota`. -/
def upgraded_quota_ledger : Ledger :=
  { Ledger.empty with
    quotas := [{ demo_quota with
      tier := 1
      daily_file_limit := 100
      daily_size_limit := 1000000000
      weekly_file_limit := 500
      weekly_size_limit := 5000000000 }] }

/-- The four usage counters of a quota row are within its four limits. -/
def usage_within_limits (q : usagequota) : Prop :=
  q.daily_files_used ≤ q.daily_file_limit ∧ q.daily_size_used ≤ q.daily_size_limit ∧
  q.weekly_files_used ≤ q.weekly_file_limit ∧ q.weekly_size_used ≤ q.weekly_size_limit

/-- Account 7, without a quota record, creates artwork 1 and adds a first file
of 100 MiB (104857600 bytes, the largest `addfile` accepts). -/
def large_first_file_trace : List (Ctx × Action) :=
  [(demo_ctx, .createart 1 7 [1] [] [] (List.replicate 44 0)),
   (demo_ctx, .addfile 1 1 7 [1] [1] 104857600 0 [1] [] [1] [1] false)]

/-- The ledger after `large_first_file_trace`: the free-tier record of account
7 holds 104857600 bytes used today against a daily limit of 26214400. -/
def large_first_file_ledger : Ledger :=
  { Ledger.empty with
    artworks := [⟨1, 7, [1], [], [], List.replicate 44 0, 1704283200, 1⟩]
    artfiles := [new_file demo_ctx 1 1 7 [1] [1] 104857600 0 [1] [] [1] [1] false]
    quotas := [default_quota 1704283200 7 104857600] }

/-- Every file carries a non-empty `encrypted_dek`, `iv` and `auth_tag`. -/
def key_material_present (s : Ledger) : Prop :=
  ∀ f ∈ s.artfiles, f.encrypted_dek.length > 0 ∧ f.iv.length > 0 ∧ f.auth_tag.length > 0

/-- A `transferart` whose new DEKs and new tags are all non-empty (true of
every other action). -/
def nonempty_transfer : Ledger → Action → Prop
  | _, .transferart _ _ _ _ new_encrypted_deks new_auth_tags _ =>
    (∀ d ∈ new_encrypted_deks, d.length > 0) ∧ (∀ t ∈ new_auth_tags, t.length > 0)
  | _, _ => True

/-- Account 7 creates artwork 1, adds file 1 and transfers the artwork to
account 8 with an empty new DEK and an empty new tag for file 1. -/
def blank_transfer_trace : List (Ctx × Action) :=
  [(demo_ctx, .createart 1 7 [1] [] [] (List.replicate 44 0)),
   (demo_ctx, .addfile 1 1 7 [1] [1] 1000 0 [1] [] [1] [1] false),
   (demo_ctx, .transferart 1 7 8 [1] [[]] [[]] [])]

/-- The ledger after `blank_transfer_trace`: file 1 belongs to account 8 and
its `encrypted_dek` and `auth_tag` are empty. -/
def blank_transfer_ledger : Ledger :=
  { Ledger.empty with
    artworks := [⟨1, 8, [1], [], [], List.replicate 44 0, 1704283200, 1⟩]
    artfiles := [
      { new_file demo_ctx 1 1 7 [1] [1] 1000 0 [1] [] [1] [1] false with
        owner := 8, encrypted_dek := [], auth_tag := [] }]
    quotas := [default_quota 1704283200 7 1000] }

/-- The chunk counter invariant: every file's `uploaded_chunks` is the number
of chunks whose `file_id` is its id. -/
def chunk_count_matches (s : Ledger) : Prop :=
  ∀ f ∈ s.artfiles, f.uploaded_chunks = s.artchunks.countP (fun ch => ch.file_id = f.file_id)

/-- An `uploadchunk` to a file that holds fewer than `2^32 - 1` chunks (true
of every other action). -/
def room_for_chunk : Ledger → Action → Prop
  | s, .uploadchunk _ file_id _ _ _ _ =>
    s.artchunks.countP (fun ch => ch.file_id = file_id) + 1 < 2 ^ 32
  | _, _ => True

/-- The one-byte chunks 1 to `n` of file 1, at the indices 0 to `n - 1`,
uploaded by account 7 at the block time of `demo_ctx`. -/
def bulk_chunks : Nat → List artchunk
  | 0 => []
  | n + 1 => bulk_chunks n ++ [⟨n + 1, 1, 7, n, [1], 1, 1704283200⟩]

/-- The ledger after `createart(1, 7, ...)`, `addfile(1, 1, 7, ...)` and `n`
calls `uploadchunk(k + 1, 1, 7, k, ...)` for `k = 0 .. n - 1`, `n < 2^32`. -/
def chunked_ledger (n : Nat) : Ledger :=
  { artworks := [⟨1, 7, [1], [], [], List.replicate 44 0, 1704283200, 1⟩]
    artfiles := [{ new_file demo_ctx 1 1 7 [1] [1] 1000 0 [1] [] [1] [1] false with
      uploaded_chunks := n }]
    artchunks := bulk_chunks n
    quotas := [default_quota 1704283200 7 1000]
    adminkeys := []
    logs := [] }

/-- The ledger `chunked_ledger (2^32 - 1)` after account 7 uploads chunk `2^32`
of file 1 at the last index `2^32 - 1`: the file has `2^32` chunks and its
32-bit `uploaded_chunks` is back to 0. -/
def chunk_wrapped_ledger : Ledger :=
  { chunked_ledger 0 with
    artchunks := bulk_chunks 4294967295 ++
      [⟨4294967296, 1, 7, 4294967295, [1], 1, 1704283200⟩] }

/-- Key ids are pairwise distinct: `adminkeys` has one row per primary key. -/
def key_ids_unique (s : Ledger) : Prop :=
  (s.adminkeys.map adminkey.key_id).Nodup

/-- The account holds at least one admin key record with `is_active` true. -/
def holds_active_key (s : Ledger) (admin_account : Name) : Prop :=
  ∃ k ∈ s.adminkeys, k.admin_account = admin_account ∧ k.is_active = true

/-- The contract account adds three admin keys of account 1 and account 7
creates artwork 1, all at 2024-01-02 12:53:20 UTC. -/
def three_key_trace : List (Ctx × Action) :=
  [(⟨1, [1], 1704200000⟩, .addadminkey 1 (List.replicate 44 1) [1]),
   (⟨1, [1], 1704200000⟩, .addadminkey 1 (List.replicate 44 2) [1]),
   (⟨1, [1], 1704200000⟩, .addadminkey 1 (List.replicate 44 3) [1]),
   (⟨1, [7], 1704200000⟩, .createart 1 7 [1] [] [] (List.replicate 44 0))]

/-- The contract account gives account 7 a quota of one file a day and a
week; account 7 creates artwork 1 and adds file 1, its one file. -/
def spent_quota_trace : List (Ctx × Action) :=
  [(service_ctx, .setquota 7 0 1 1000000 1 1000000),
   (demo_ctx, .createart 1 7 [1] [] [] (List.replicate 44 0)),
   (demo_ctx, .addfile 1 1 7 [1] [1] 1000 0 [1] [] [1] [1] false)]

/-- The ledger after `spent_quota_trace`: the quota record of account 7 has
one file used out of one, today and this week. -/
def spent_quota_ledger : Ledger :=
  { Ledger.empty with
    artworks := [⟨1, 7, [1], [], [], List.replicate 44 0, 1704283200, 1⟩]
    artfiles := [new_file demo_ctx 1 1 7 [1] [1] 1000 0 [1] [] [1] [1] false]
    quotas := [⟨7, 0, 1, 1000000, 1, 1000000, 1, 1000, 1704326400, 1, 1000, 1704585600⟩] }

/-! ## The code against the store, write by write

The actions above return no ledger when a `check` fails.  The definitions of
this section follow the same source lines as state transformers that keep
every write in the order the code makes it, so that the store at the moment
of a failure can be read off. -/

/-- Code run against the store: from the store it meets, the store as the code
has written it when it stops, and either a value or the failure that stopped
it. -/
def Run (α : Type) : Type := Ledger → Ledger × Except Err α

instance : Monad Run where
  pure a := fun s => (s, .ok a)
  bind m f := fun s =>
    match (m s).2 with
    | .ok a => f a (m s).1
    | .error e => ((m s).1, .error e)

/-- A statement that writes nothing: a `check`, `require_auth`, or a value
computed from what was read. -/
def Run.lift {α : Type} (x : Except Err α) : Run α := fun s => (s, x)

/-- The tables as they are stored at this point of the code. -/
def Run.read : Run Ledger := fun s => (s, .ok s)

/-- A write to the store (`emplace`, `modify`, `erase`). -/
def Run.write (f : Ledger → Ledger) : Run Unit := fun s => (f s, .ok ())

/-- Source action `verartatoken::createart`, write by write. -/
def createart_run (c : Ctx) (artwork_id : Nat) (owner : Name)
    (title_encrypted description_encrypted metadata_encrypted creator_public_key : Bytes) :
    Run Unit := do
  Run.lift (require_auth c owner)
  Run.lift (check (artwork_id > 0) .artwork_id_not_positive)
  Run.lift (check (title_encrypted.length > 0) .title_empty)
  Run.lift (check (title_encrypted.length ≤ 1024) .title_too_long)
  Run.lift (check (description_encrypted.length ≤ 10240) .description_too_long)
  Run.lift (check (metadata_encrypted.length ≤ 10240) .metadata_too_long)
  Run.lift (check (creator_public_key.length = 44) .invalid_public_key_length)
  let s ← Run.read
  Run.lift (check ((tfind artwork.artwork_id s.artworks artwork_id).isNone) .artwork_id_exists)
  let artworks ← Run.lift (templace artwork.artwork_id s.artworks
    { artwork_id := artwork_id
      owner := owner
      title_encrypted := title_encrypted
      description_encrypted := description_encrypted
      metadata_encrypted := metadata_encrypted
      creator_public_key := creator_public_key
      created_at := c.now
      file_count := 0 })
  Run.write (fun s => { s with artworks := artworks })

/-- Source function `verartatoken::check_and_update_quota`, write by write.
The lambda of `quotas.modify` (560-594) works on the row in memory; the row is
stored when the lambda returns. -/
def check_and_update_quota_run (c : Ctx) (account : Name) (file_size : Nat) : Run Unit := do
  let s ← Run.read
  match tfind usagequota.account s.quotas account with
  | none => do
    let quotas ← Run.lift
      (templace usagequota.account s.quotas (default_quota c.now account file_size))
    Run.write (fun s => { s with quotas := quotas })
  | some stored => do
    let row ← Run.lift (quota_update c.now file_size stored)
    Run.write (fun s => { s with
      quotas := tmodify usagequota.account s.quotas account (fun _ => row) })

/-- Source action `verartatoken::addfile`, write by write: the quota row is
written (74) before the artwork and the file id are looked up (80-86). -/
def addfile_run (c : Ctx) (file_id artwork_id : Nat) (owner : Name)
    (filename_encrypted mime_type : Bytes) (file_size file_hash : Nat)
    (encrypted_dek : Bytes) (admin_encrypted_deks : List Bytes) (iv auth_tag : Bytes)
    (is_thumbnail : Bool) : Run Unit := do
  Run.lift (require_auth c owner)
  Run.lift (check (file_id > 0) .file_id_not_positive)
  Run.lift (check (artwork_id > 0) .artwork_id_not_positive)
  Run.lift (check (filename_encrypted.length > 0) .filename_empty)
  Run.lift (check (filename_encrypted.length ≤ 512) .filename_too_long)
  Run.lift (check (mime_type.length > 0 ∧ mime_type.length ≤ 128) .invalid_mime_type)
  Run.lift (check (file_size > 0) .file_size_not_positive)
  Run.lift (check (file_size ≤ 104857600) .file_size_too_large)
  Run.lift (check (encrypted_dek.length > 0) .encrypted_dek_empty)
  Run.lift (check (iv.length > 0) .iv_empty)
  Run.lift (check (auth_tag.length > 0) .auth_tag_empty)
  -- Check quota before creating file
  check_and_update_quota_run c owner file_size
  -- Verify artwork exists and owner matches
  let s1 ← Run.read
  let some art := tfind artwork.artwork_id s1.artworks artwork_id
    | Run.lift (throw .artwork_not_found)
  Run.lift (check (art.owner = owner) .artwork_owner_mismatch)
  -- Check if file_id already exists
  Run.lift (check ((tfind artfile.file_id s1.artfiles file_id).isNone) .file_id_exists)
  -- Validate admin encrypted DEKs match active admin keys
  Run.lift (check (admin_encrypted_deks.length = (get_active_admin_keys s1).length)
    .admin_dek_count_mismatch)
  let artfiles ← Run.lift (templace artfile.file_id s1.artfiles
    (new_file c file_id artwork_id owner filename_encrypted mime_type file_size file_hash
      encrypted_dek admin_encrypted_deks iv auth_tag is_thumbnail))
  Run.write (fun s => { s with artfiles := artfiles })
  -- Increment artwork file count
  Run.write (fun s => { s with
    artworks := tmodify artwork.artwork_id s.artworks artwork_id
      (fun row => { row with file_count := u32 (row.file_count + 1) }) })

/-- Source action `verartatoken::uploadchunk`, write by write. -/
def uploadchunk_run (c : Ctx) (chunk_id file_id : Nat) (owner : Name) (chunk_index : Nat)
    (chunk_data : Bytes) (chunk_size : Nat) : Run Unit := do
  Run.lift (check (c.has_auth owner ∨ c.has_auth c.self) .missing_authority)
  Run.lift (check (chunk_id > 0) .chunk_id_not_positive)
  Run.lift (check (file_id > 0) .file_id_not_positive)
  Run.lift (check (chunk_data.length > 0) .chunk_data_empty)
  Run.lift (check (chunk_data.length ≤ 350000) .chunk_data_too_large)
  Run.lift (check (chunk_size > 0 ∧ chunk_size ≤ 262144) .invalid_chunk_size)
  -- Verify file exists and owner matches
  let s ← Run.read
  let some file := tfind artfile.file_id s.artfiles file_id
    | Run.lift (throw .file_not_found)
  Run.lift (check (file.owner = owner) .file_owner_mismatch)
  Run.lift (check (¬ file.upload_complete) .upload_already_complete)
  -- Check if chunk_id already exists
  Run.lift (check ((tfind artchunk.chunk_id s.artchunks chunk_id).isNone) .chunk_id_exists)
  -- Check if chunk_index already uploaded for this file
  let file_index_key := ((file_id <<< 64) % 2 ^ 128) ||| chunk_index
  Run.lift (check ((s.artchunks.find? (fun r => r.by_file_index = file_index_key)).isNone)
    .chunk_index_exists)
  let artchunks ← Run.lift (templace artchunk.chunk_id s.artchunks
    { chunk_id := chunk_id
      file_id := file_id
      owner := owner
      chunk_index := chunk_index
      chunk_data := chunk_data
      chunk_size := chunk_size
      uploaded_at := c.now })
  Run.write (fun s => { s with artchunks := artchunks })
  -- Increment uploaded_chunks counter
  Run.write (fun s => { s with
    artfiles := tmodify artfile.file_id s.artfiles file_id
      (fun row => { row with uploaded_chunks := u32 (row.uploaded_chunks + 1) }) })

/-- Source action `verartatoken::completefile`, write by write. -/
def completefile_run (c : Ctx) (file_id : Nat) (owner : Name) (total_chunks : Nat) :
    Run Unit := do
  Run.lift (check (c.has_auth owner ∨ c.has_auth c.self) .missing_authority)
  Run.lift (check (file_id > 0) .file_id_not_positive)
  Run.lift (check (total_chunks > 0) .total_chunks_not_positive)
  -- Verify file exists and owner matches
  let s ← Run.read
  let some file := tfind artfile.file_id s.artfiles file_id
    | Run.lift (throw .file_not_found)
  Run.lift (check (file.owner = owner) .file_owner_mismatch)
  Run.lift (check (¬ file.upload_complete) .already_marked_complete)
  -- Verify all chunks uploaded
  Run.lift (check (file.uploaded_chunks = total_chunks) .not_all_chunks_uploaded)
  Run.write (fun s => { s with
    artfiles := tmodify artfile.file_id s.artfiles file_id
      (fun row => { row with
        total_chunks := total_chunks
        upload_complete := true
        completed_at := c.now }) })

/-- Source action `verartatoken::setquota`, write by write. -/
def setquota_run (c : Ctx) (account : Name) (tier daily_file_limit daily_size_limit
    weekly_file_limit weekly_size_limit : Nat) : Run Unit := do
  Run.lift (require_auth c c.self)
  Run.lift (check (tier ≤ 1) .invalid_tier)
  Run.lift (check (daily_file_limit > 0) .daily_file_limit_not_positive)
  Run.lift (check (daily_size_limit > 0) .daily_size_limit_not_positive)
  Run.lift (check (weekly_file_limit > 0) .weekly_file_limit_not_positive)
  Run.lift (check (weekly_size_limit > 0) .weekly_size_limit_not_positive)
  Run.lift (check (weekly_file_limit ≥ daily_file_limit) .weekly_file_limit_below_daily)
  Run.lift (check (weekly_size_limit ≥ daily_size_limit) .weekly_size_limit_below_daily)
  let s ← Run.read
  match tfind usagequota.account s.quotas account with
  | none => do
    let quotas ← Run.lift (templace usagequota.account s.quotas
      { account := account
        tier := tier
        daily_file_limit := daily_file_limit
        daily_size_limit := daily_size_limit
        weekly_file_limit := weekly_file_limit
        weekly_size_limit := weekly_size_limit
        daily_files_used := 0
        daily_size_used := 0
        daily_reset_at := next_midnight c.now
        weekly_files_used := 0
        weekly_size_used := 0
        weekly_reset_at := calculate_next_monday c.now })
    Run.write (fun s => { s with quotas := quotas })
  | some _ =>
    -- Update existing quota (preserve usage counters)
    Run.write (fun s => { s with
      quotas := tmodify usagequota.account s.quotas account
        (fun row => { row with
          tier := tier
          daily_file_limit := daily_file_limit
          daily_size_limit := daily_size_limit
          weekly_file_limit := weekly_file_limit
          weekly_size_limit := weekly_size_limit }) })

/-- Source action `verartatoken::addadminkey`, write by write. -/
def addadminkey_run (c : Ctx) (admin_account : Name) (public_key description : Bytes) :
    Run Unit := do
  Run.lift (require_auth c c.self)
  Run.lift (check (public_key.length = 44) .invalid_public_key_length)
  Run.lift (check (description.length > 0 ∧ description.length ≤ 256) .invalid_description)
  let s ← Run.read
  -- Find next key_id
  let key_id := next_key_id s.adminkeys
  -- Check if this public_key already exists
  Run.lift (check (∀ k ∈ s.adminkeys, k.public_key ≠ public_key) .public_key_exists)
  let adminkeys ← Run.lift (templace adminkey.key_id s.adminkeys
    { key_id := key_id
      admin_account := admin_account
      public_key := public_key
      description := description
      added_at := c.now
      is_active := true })
  Run.write (fun s => { s with adminkeys := adminkeys })

/-- Source action `verartatoken::rmadminkey`, write by write. -/
def rmadminkey_run (c : Ctx) (key_id : Nat) : Run Unit := do
  Run.lift (require_auth c c.self)
  let s ← Run.read
  Run.lift (check ((tfind adminkey.key_id s.adminkeys key_id).isSome) .admin_key_not_found)
  -- Mark as inactive (don't delete to preserve audit trail)
  Run.write (fun s => { s with
    adminkeys := tmodify adminkey.key_id s.adminkeys key_id
      (fun row => { row with is_active := false }) })

/-- Source action `verartatoken::logaccess`, write by write. -/
def logaccess_run (c : Ctx) (admin_account : Name) (file_id : Nat) (reason : Bytes) :
    Run Unit := do
  Run.lift (require_auth c admin_account)
  Run.lift (check (file_id > 0) .file_id_not_positive)
  Run.lift (check (reason.length > 0 ∧ reason.length ≤ 512) .invalid_reason)
  -- Verify file exists
  let s ← Run.read
  Run.lift (check ((tfind artfile.file_id s.artfiles file_id).isSome) .file_not_found)
  -- Verify admin has an active admin key
  let has_admin_key : Prop :=
    ∃ k ∈ s.adminkeys, k.admin_account = admin_account ∧ k.is_active = true
  Run.lift (check has_admin_key .no_active_admin_key)
  -- Find next log_id
  let log_id := next_log_id s.logs
  let logs ← Run.lift (templace adminaccesslog.log_id s.logs
    { log_id := log_id
      admin_account := admin_account
      file_id := file_id
      reason := reason
      accessed_at := c.now })
  Run.write (fun s => { s with logs := logs })

/-- Source action `verartatoken::deletefile`, write by write. -/
def deletefile_run (c : Ctx) (file_id artwork_id : Nat) (owner : Name) : Run Unit := do
  Run.lift (require_auth c c.self)
  Run.lift (check (file_id > 0) .file_id_not_positive)
  Run.lift (check (artwork_id > 0) .artwork_id_not_positive)
  let s ← Run.read
  let some art := tfind artwork.artwork_id s.artworks artwork_id
    | Run.lift (throw .artwork_not_found)
  Run.lift (check (art.owner = owner) .artwork_owner_mismatch)
  let some file := tfind artfile.file_id s.artfiles file_id
    | Run.lift (throw .file_not_found)
  Run.lift (check (file.artwork_id = artwork_id) .file_not_in_artwork)
  Run.lift (check (file.owner = owner) .file_owner_mismatch)
  -- Delete all chunks for this file
  Run.write (fun s => { s with artchunks := erase_chunks_of s.artchunks file_id })
  -- Decrement artwork file count
  Run.write (fun s => { s with
    artworks := tmodify artwork.artwork_id s.artworks artwork_id
      (fun row => if row.file_count > 0 then { row with file_count := row.file_count - 1 } else row) })
  -- Delete the file record
  Run.write (fun s => { s with artfiles := terase artfile.file_id s.artfiles file_id })

/-- Source action `verartatoken::deleteart`, write by write; the loop (418-435)
erases and checks nothing. -/
def deleteart_run (c : Ctx) (artwork_id : Nat) (owner : Name) : Run Unit := do
  Run.lift (require_auth c owner)
  -- Verify artwork exists and owner matches
  let s ← Run.read
  let some art := tfind artwork.artwork_id s.artworks artwork_id
    | Run.lift (throw .artwork_not_found)
  Run.lift (check (art.owner = owner) .artwork_owner_mismatch)
  -- Delete all files and their chunks
  Run.write (fun s => { s with
    artfiles := (deleteart_loop (s.artfiles.filter (fun f => f.artwork_id = artwork_id))
      s.artfiles s.artchunks).1
    artchunks := (deleteart_loop (s.artfiles.filter (fun f => f.artwork_id = artwork_id))
      s.artfiles s.artchunks).2 })
  -- Delete artwork
  Run.write (fun s => { s with artworks := terase artwork.artwork_id s.artworks artwork_id })

/-- The loop of `transferart` (465-476), write by write: each listed file is
looked up, checked and modified in turn. -/
def transfer_loop_run (artwork_id : Nat) (sender recipient : Name) :
    List Nat → List Bytes → List Bytes → Run Unit
  | id :: ids, dek :: deks, tag :: tags => do
    let s ← Run.read
    let some file := tfind artfile.file_id s.artfiles id
      | Run.lift (throw .file_not_found)
    Run.lift (check (file.artwork_id = artwork_id) .file_not_in_artwork)
    Run.lift (check (file.owner = sender) .file_owner_mismatch)
    Run.write (fun s => { s with
      artfiles := tmodify artfile.file_id s.artfiles id
        (fun row => { row with owner := recipient, encrypted_dek := dek, auth_tag := tag }) })
    transfer_loop_run artwork_id sender recipient ids deks tags
  | _, _, _ => pure ()

/-- Source action `verartatoken::transferart`, write by write. -/
def transferart_run (c : Ctx) (artwork_id : Nat) (sender recipient : Name)
    (file_ids : List Nat) (new_encrypted_deks new_auth_tags : List Bytes) (_memo : Bytes) :
    Run Unit := do
  Run.lift (require_auth c sender)
  Run.lift (check (sender ≠ recipient) .transfer_to_self)
  Run.lift (check (file_ids.length = new_encrypted_deks.length) .dek_size_mismatch)
  Run.lift (check (file_ids.length = new_auth_tags.length) .tag_size_mismatch)
  -- Verify artwork exists and from is the owner
  let s ← Run.read
  let some art := tfind artwork.artwork_id s.artworks artwork_id
    | Run.lift (throw .artwork_not_found)
  Run.lift (check (art.owner = sender) .artwork_owner_mismatch)
  -- Update each file's owner and re-encrypted DEK
  transfer_loop_run artwork_id sender recipient file_ids new_encrypted_deks new_auth_tags
  -- Transfer artwork ownership
  Run.write (fun s => { s with
    artworks := tmodify artwork.artwork_id s.artworks artwork_id
      (fun row => { row with owner := recipient }) })

/-- Source action `verartatoken::updateart`, write by write. -/
def updateart_run (c : Ctx) (artwork_id : Nat) (owner : Name)
    (description_encrypted metadata_encrypted : Bytes) : Run Unit := do
  Run.lift (check (c.has_auth owner ∨ c.has_auth c.self) .missing_authority)
  Run.lift (check (artwork_id > 0) .artwork_id_not_positive)
  Run.lift (check (description_encrypted.length ≤ 10240) .description_too_long)
  Run.lift (check (metadata_encrypted.length ≤ 10240) .metadata_too_long)
  let s ← Run.read
  let some art := tfind artwork.artwork_id s.artworks artwork_id
    | Run.lift (throw .artwork_not_found)
  Run.lift (check (art.owner = owner) .artwork_owner_mismatch)
  Run.write (fun s => { s with
    artworks := tmodify artwork.artwork_id s.artworks artwork_id
      (fun row => { row with
        description_encrypted := description_encrypted
        metadata_encrypted := metadata_encrypted }) })

/-- Source action `verartatoken::addadmindek`, write by write. -/
def addadmindek_run (c : Ctx) (file_id : Nat) (new_encrypted_dek : Bytes) : Run Unit := do
  Run.lift (require_auth c c.self)
  Run.lift (check (file_id > 0) .file_id_not_positive)
  Run.lift (check (new_encrypted_dek.length > 0) .new_dek_empty)
  let s ← Run.read
  let some file := tfind artfile.file_id s.artfiles file_id
    | Run.lift (throw .file_not_found)
  Run.lift (check (file.admin_encrypted_deks.length < (get_active_admin_keys s).length)
    .all_admin_deks_present)
  Run.write (fun s => { s with
    artfiles := tmodify artfile.file_id s.artfiles file_id
      (fun row => { row with
        admin_encrypted_deks := row.admin_encrypted_deks ++ [new_encrypted_dek] }) })

/-- One transaction, write by write. -/
def dispatch_run (c : Ctx) : Action → Run Unit
  | .createart a o t d m k => createart_run c a o t d m k
  | .updateart a o d m => updateart_run c a o d m
  | .addfile f a o fn mt sz h dek adeks iv tag th =>
    addfile_run c f a o fn mt sz h dek adeks iv tag th
  | .uploadchunk ch f o i data sz => uploadchunk_run c ch f o i data sz
  | .completefile f o n => completefile_run c f o n
  | .setquota acc t dfl dsl wfl wsl => setquota_run c acc t dfl dsl wfl wsl
  | .addadminkey acc pk d => addadminkey_run c acc pk d
  | .rmadminkey k => rmadminkey_run c k
  | .addadmindek f dek => addadmindek_run c f dek
  | .logaccess acc f r => logaccess_run c acc f r
  | .deleteart a o => deleteart_run c a o
  | .deletefile f a o => deletefile_run c f a o
  | .transferart a fr t ids deks tags memo => transferart_run c a fr t ids deks tags memo

/-- Modelled from the spec: the all-or-nothing commit of the execution
environment, which is no code of the contract (the spec lists "the execution
environment that authenticates callers and supplies atomic, serialized
transaction execution" as an external collaborator, and says "a failed
precondition aborts the entire operation with no partial effect (all-or-nothing
commit)").  In the code a failed `check` ends the transaction; the store after
the transaction is the one the code wrote when the action succeeded and the
one before the transaction when it failed. -/
def settle (s : Ledger) (r : Ledger × Except Err Unit) : Ledger :=
  match r.2 with
  | .ok _ => r.1
  | .error _ => s

/-- What a run that writes only when it succeeds leaves: the new ledger, or
the old one and the failure. -/
def outcome (s : Ledger) (r : Except Err Ledger) : Ledger × Except Err Unit :=
  match r with
  | .ok s1 => (s1, .ok ())
  | .error e => (s, .error e)


/-- The actions whose every `check` comes before their first write: all but
`addfile` (quota row written at 74, checks at 81-91) and `transferart` (files
modified at 471-475 inside the checking loop). -/
def checks_before_writes : Action → Prop
  | .addfile _ _ _ _ _ _ _ _ _ _ _ _ => False
  | .transferart _ _ _ _ _ _ _ => False
  | _ => True

/-- The limits passed to `setquota` fit the types of its parameters
(`uint32_t` file counts, `uint64_t` sizes); every other action is unrestricted. -/
def limits_fit : Ledger → Action → Prop
  | _, .setquota _ _ dfl dsl wfl wsl => dfl < 2 ^ 32 ∧ dsl < 2 ^ 64 ∧ wfl < 2 ^ 32 ∧ wsl < 2 ^ 64
  | _, _ => True

/-- A quota row whose file limits and file counters fit `uint32_t` and whose
byte counters hold at most 104857600 bytes (the largest `file_size` that
`addfile` passes on, 67-68) for each file counted. -/
def usage_bounded (q : usagequota) : Prop :=
  q.daily_file_limit < 2 ^ 32 ∧ q.weekly_file_limit < 2 ^ 32 ∧
  q.daily_files_used < 2 ^ 32 ∧ q.weekly_files_used < 2 ^ 32 ∧
  q.daily_size_used ≤ q.daily_files_used * 104857600 ∧
  q.weekly_size_used ≤ q.weekly_files_used * 104857600
/-! ## Theorems -/

theorem u64_of_lt {n : Nat} (h : n < 2 ^ 64) : u64 n = n :=
  Nat.mod_eq_of_lt h

theorem u32_of_lt {n : Nat} (h : n < 2 ^ 32) : u32 n = n :=
  Nat.mod_eq_of_lt h

/-- Away from the 64-bit limit no truncation in `calculate_next_monday` bites. -/
theorem calculate_next_monday_eq (now : Nat) (h : now + 7 * 86400 < 2 ^ 64) :
    calculate_next_monday now =
      now / 86400 * 86400 + (if (now / 86400 + 4) % 7 = 0 then 7 else 7 - (now / 86400 + 4) % 7) * 86400 := by
  have hd : now / 86400 * 86400 ≤ now := Nat.div_mul_le_self _ _
  have hm : (now / 86400 + 4) % 7 < 7 := Nat.mod_lt _ (by decide)
  have h1 : u64 (now / 86400 + 4) = now / 86400 + 4 := u64_of_lt (by omega)
  have h2 : u64 (7 - (now / 86400 + 4) % 7) = 7 - (now / 86400 + 4) % 7 := u64_of_lt (by omega)
  have h3 : u64 (now / 86400 * 86400) = now / 86400 * 86400 := u64_of_lt (by omega)
  simp only [calculate_next_monday, h1, h2, h3]
  split
  · have h4 : u64 (7 * 86400) = 7 * 86400 := u64_of_lt (by norm_num)
    rw [h4, u64_of_lt (by omega)]
  · have h4 : u64 ((7 - (now / 86400 + 4) % 7) * 86400) = (7 - (now / 86400 + 4) % 7) * 86400 :=
      u64_of_lt (by omega)
    rw [h4, u64_of_lt (by omega)]

/-- C10. Weekly-boundary bounds: for a timestamp `now` with
`now + 7*86400 < 2^64`, `calculate_next_monday now` is a multiple of 86400,
strictly above `floor(now/86400)*86400` and at most seven days above it. -/
theorem calculate_next_monday_bounds (now : Nat) (h : now + 7 * 86400 < 2 ^ 64) :
    calculate_next_monday now % 86400 = 0 ∧
    calculate_next_monday now > now / 86400 * 86400 ∧
    calculate_next_monday now ≤ now / 86400 * 86400 + 7 * 86400 := by
  rw [calculate_next_monday_eq now h]
  have hm : (now / 86400 + 4) % 7 < 7 := Nat.mod_lt _ (by decide)
  split <;> omega

/-- C10 at a concrete time (2024-01-03 12:00:00 UTC). -/
theorem calculate_next_monday_bounds_witness :
    1704283200 + 7 * 86400 < 2 ^ 64 ∧
    calculate_next_monday 1704283200 % 86400 = 0 ∧
    calculate_next_monday 1704283200 > 1704283200 / 86400 * 86400 ∧
    calculate_next_monday 1704283200 ≤ 1704283200 / 86400 * 86400 + 7 * 86400 :=
  ⟨by norm_num, calculate_next_monday_bounds 1704283200 (by norm_num)⟩

/-! ### Reading a successful action off its definition -/

theorem bind_ok_iff {α β : Type} (m : Except Err α) (f : α → Except Err β) (x : β) :
    (m >>= f) = .ok x ↔ ∃ a, m = .ok a ∧ f a = .ok x := by
  cases m <;> simp [bind, Except.bind]

theorem pure_ok_iff {α : Type} (a b : α) : (pure a : Except Err α) = .ok b ↔ a = b := by
  simp [pure, Except.pure]

theorem throw_ne_ok {α : Type} (e : Err) (b : α) : (throw e : Except Err α) = .ok b ↔ False := by
  simp [throw, throwThe, MonadExceptOf.throw]

theorem check_bind_ok {α : Type} (p : Prop) [Decidable p] (e : Err) (f : Unit → Except Err α)
    (x : α) : (check p e >>= f) = .ok x ↔ p ∧ f () = .ok x := by
  unfold check
  by_cases hp : p <;> simp [hp, bind, Except.bind]

theorem require_auth_bind_ok {α : Type} (c : Ctx) (n : Name) (f : Unit → Except Err α) (x : α) :
    (require_auth c n >>= f) = .ok x ↔ c.has_auth n ∧ f () = .ok x := by
  unfold require_auth; exact check_bind_ok _ _ _ _

theorem templace_bind_ok {α β : Type} (key : α → Nat) (t : List α) (row : α)
    (f : List α → Except Err β) (x : β) :
    (templace key t row >>= f) = .ok x ↔
      tfind key t (key row) = none ∧ f (t ++ [row]) = .ok x := by
  unfold templace
  cases h : tfind key t (key row) <;> simp [bind, Except.bind]

theorem templace_ok_iff {α : Type} (key : α → Nat) (t t1 : List α) (row : α) :
    templace key t row = .ok t1 ↔ tfind key t (key row) = none ∧ t1 = t ++ [row] := by
  unfold templace
  cases h : tfind key t (key row) <;> simp [eq_comm]

theorem map_ok_iff {α β : Type} (m : Except Err α) (f : α → β) (x : β) :
    (f <$> m) = .ok x ↔ ∃ a, m = .ok a ∧ f a = x := by
  cases m <;> simp [Functor.map, Except.map]

theorem check_and_update_quota_ok {c : Ctx} {s s1 : Ledger} {account : Name} {file_size : Nat} :
    check_and_update_quota c s account file_size = .ok s1 ↔
      (tfind usagequota.account s.quotas account = none ∧
        s1 = { s with quotas := s.quotas ++ [default_quota c.now account file_size] }) ∨
      (∃ stored row, tfind usagequota.account s.quotas account = some stored ∧
        quota_update c.now file_size stored = .ok row ∧
        s1 = { s with quotas := tmodify usagequota.account s.quotas account (fun _ => row) }) := by
  unfold check_and_update_quota
  cases h : tfind usagequota.account s.quotas account with
  | none =>
    simp only [templace_bind_ok, pure_ok_iff]
    simp [default_quota, h, eq_comm]
  | some stored =>
    simp only [bind_ok_iff, pure_ok_iff]
    simp [eq_comm]

theorem createart_ok {c : Ctx} {s s1 : Ledger} {a : Nat} {o : Name} {t d m k : Bytes} :
    createart c s a o t d m k = .ok s1 ↔
      (c.has_auth o ∧ a > 0 ∧ t.length > 0 ∧ t.length ≤ 1024 ∧ d.length ≤ 10240 ∧
        m.length ≤ 10240 ∧ k.length = 44 ∧ tfind artwork.artwork_id s.artworks a = none) ∧
      s1 = { s with artworks := s.artworks ++ [⟨a, o, t, d, m, k, c.now, 0⟩] } := by
  unfold createart
  simp only [check_bind_ok, require_auth_bind_ok, templace_bind_ok, pure_ok_iff]
  constructor
  · rintro ⟨h1, h2, h3, h4, h5, h6, h7, -, h8, h9⟩
    exact ⟨⟨h1, h2, h3, h4, h5, h6, h7, h8⟩, h9.symm⟩
  · rintro ⟨⟨h1, h2, h3, h4, h5, h6, h7, h8⟩, h9⟩
    exact ⟨h1, h2, h3, h4, h5, h6, h7, by simp [h8], h8, h9.symm⟩

theorem get_active_admin_keys_length (s : Ledger) :
    (get_active_admin_keys s).length = active_key_count s := by
  simp [get_active_admin_keys, active_key_count, List.countP_eq_length_filter]

theorem addfile_ok {c : Ctx} {s s2 : Ledger} {f a : Nat} {o : Name} {fn mt : Bytes}
    {sz hh : Nat} {dek : Bytes} {adeks : List Bytes} {iv tag : Bytes} {th : Bool} :
    addfile c s f a o fn mt sz hh dek adeks iv tag th = .ok s2 ↔
      c.has_auth o ∧ addfile_fields_valid f a fn mt sz dek iv tag ∧
      ∃ s1 art, check_and_update_quota c s o sz = .ok s1 ∧
        tfind artwork.artwork_id s1.artworks a = some art ∧ art.owner = o ∧
        tfind artfile.file_id s1.artfiles f = none ∧
        adeks.length = (get_active_admin_keys s1).length ∧
        s2 = { s1 with
          artfiles := s1.artfiles ++ [new_file c f a o fn mt sz hh dek adeks iv tag th]
          artworks := tmodify artwork.artwork_id s1.artworks a
            (fun row => { row with file_count := u32 (row.file_count + 1) }) } := by
  unfold addfile addfile_fields_valid
  simp only [check_bind_ok, require_auth_bind_ok]
  simp only [bind_ok_iff]
  constructor
  · rintro ⟨h1, h2, h3, h4, h5, h6, h7, h8, h9, h10, h11, s1, hq, h⟩
    refine ⟨h1, ⟨h2, h3, h4, h5, h6, h7, h8, h9, h10, h11⟩, s1, ?_⟩
    cases hart : tfind artwork.artwork_id s1.artworks a with
    | none => simp [hart, throw_ne_ok] at h
    | some art =>
      simp only [hart, check_bind_ok, templace_bind_ok, pure_ok_iff] at h
      obtain ⟨h12, h13, h14, h15, h16⟩ := h
      exact ⟨art, hq, rfl, h12, h15, h14, h16.symm⟩
  · rintro ⟨h1, ⟨h2, h3, h4, h5, h6, h7, h8, h9, h10, h11⟩, s1, art, hq, hart, h12, h13, h14, h15⟩
    refine ⟨h1, h2, h3, h4, h5, h6, h7, h8, h9, h10, h11, s1, hq, ?_⟩
    simp only [hart, check_bind_ok, templace_bind_ok, pure_ok_iff]
    exact ⟨h12, by simp [h13], h14, h13, h15.symm⟩

theorem uploadchunk_ok {c : Ctx} {s s1 : Ledger} {ch f : Nat} {o : Name} {i : Nat}
    {data : Bytes} {sz : Nat} :
    uploadchunk c s ch f o i data sz = .ok s1 ↔
      (c.has_auth o ∨ c.has_auth c.self) ∧ ch > 0 ∧ f > 0 ∧ data.length > 0 ∧
      data.length ≤ 350000 ∧ (sz > 0 ∧ sz ≤ 262144) ∧
      ∃ file, tfind artfile.file_id s.artfiles f = some file ∧ file.owner = o ∧
        file.upload_complete = false ∧
        tfind artchunk.chunk_id s.artchunks ch = none ∧
        s.artchunks.find? (fun r => r.by_file_index = ((f <<< 64) % 2 ^ 128) ||| i) = none ∧
        s1 = { s with
          artchunks := s.artchunks ++ [⟨ch, f, o, i, data, sz, c.now⟩]
          artfiles := tmodify artfile.file_id s.artfiles f
            (fun row => { row with uploaded_chunks := u32 (row.uploaded_chunks + 1) }) } := by
  unfold uploadchunk
  simp only [check_bind_ok]
  cases hf : tfind artfile.file_id s.artfiles f with
  | none => simp [throw_ne_ok]
  | some file =>
    simp only [check_bind_ok, templace_bind_ok, pure_ok_iff, map_ok_iff, templace_ok_iff]
    constructor
    · rintro ⟨h1, h2, h3, h4, h5, h6, h7, h8, h9, h10, h11, h12⟩
      exact ⟨h1, h2, h3, h4, h5, h6, file, rfl, h7, by simpa using h8, h11,
        Option.isNone_iff_eq_none.mp h10, h12.symm⟩
    · rintro ⟨h1, h2, h3, h4, h5, h6, file1, hf1, h7, h8, h9, h10, h11⟩
      cases hf1
      exact ⟨h1, h2, h3, h4, h5, h6, h7, by simp [h8], by simp [h9],
        Option.isNone_iff_eq_none.mpr h10, h9, h11.symm⟩

theorem completefile_ok {c : Ctx} {s s1 : Ledger} {f : Nat} {o : Name} {n : Nat} :
    completefile c s f o n = .ok s1 ↔
      (c.has_auth o ∨ c.has_auth c.self) ∧ f > 0 ∧ n > 0 ∧
      ∃ file, tfind artfile.file_id s.artfiles f = some file ∧ file.owner = o ∧
        file.upload_complete = false ∧ file.uploaded_chunks = n ∧
        s1 = { s with
          artfiles := tmodify artfile.file_id s.artfiles f
            (fun row => { row with
              total_chunks := n, upload_complete := true, completed_at := c.now }) } := by
  unfold completefile
  simp only [check_bind_ok]
  cases hf : tfind artfile.file_id s.artfiles f with
  | none => simp [throw_ne_ok]
  | some file =>
    simp only [check_bind_ok, pure_ok_iff]
    constructor
    · rintro ⟨h1, h2, h3, h4, h5, h6, h7⟩
      exact ⟨h1, h2, h3, file, rfl, h4, by simpa using h5, h6, h7.symm⟩
    · rintro ⟨h1, h2, h3, file1, hf1, h4, h5, h6, h7⟩
      cases hf1
      exact ⟨h1, h2, h3, h4, by simp [h5], h6, h7.symm⟩

theorem setquota_ok {c : Ctx} {s s1 : Ledger} {acc : Name} {t dfl dsl wfl wsl : Nat} :
    setquota c s acc t dfl dsl wfl wsl = .ok s1 ↔
      (c.has_auth c.self ∧ t ≤ 1 ∧ dfl > 0 ∧ dsl > 0 ∧ wfl > 0 ∧ wsl > 0 ∧ wfl ≥ dfl ∧
        wsl ≥ dsl) ∧
      ((tfind usagequota.account s.quotas acc = none ∧
        s1 = { s with
          quotas := s.quotas ++
            [⟨acc, t, dfl, dsl, wfl, wsl, 0, 0, next_midnight c.now, 0, 0,
              calculate_next_monday c.now⟩] }) ∨
       ((tfind usagequota.account s.quotas acc).isSome ∧
        s1 = { s with
          quotas := tmodify usagequota.account s.quotas acc
            (fun row => { row with
              tier := t, daily_file_limit := dfl, daily_size_limit := dsl,
              weekly_file_limit := wfl, weekly_size_limit := wsl }) })) := by
  unfold setquota
  simp only [check_bind_ok, require_auth_bind_ok]
  cases hq : tfind usagequota.account s.quotas acc with
  | none =>
    simp only [templace_bind_ok, pure_ok_iff, map_ok_iff, templace_ok_iff]
    simp [hq, eq_comm]
    tauto
  | some q =>
    simp only [pure_ok_iff]
    simp [eq_comm]
    tauto

theorem addadminkey_ok {c : Ctx} {s s1 : Ledger} {acc : Name} {pk d : Bytes} :
    addadminkey c s acc pk d = .ok s1 ↔
      c.has_auth c.self ∧ pk.length = 44 ∧ (d.length > 0 ∧ d.length ≤ 256) ∧
      (∀ k ∈ s.adminkeys, k.public_key ≠ pk) ∧
      tfind adminkey.key_id s.adminkeys (next_key_id s.adminkeys) = none ∧
      s1 = { s with
        adminkeys := s.adminkeys ++ [⟨next_key_id s.adminkeys, acc, pk, d, c.now, true⟩] } := by
  unfold addadminkey
  simp only [check_bind_ok, require_auth_bind_ok, templace_bind_ok, pure_ok_iff, map_ok_iff,
    templace_ok_iff]
  simp [eq_comm]

theorem rmadminkey_ok {c : Ctx} {s s1 : Ledger} {k : Nat} :
    rmadminkey c s k = .ok s1 ↔
      c.has_auth c.self ∧ (tfind adminkey.key_id s.adminkeys k).isSome ∧
      s1 = { s with
        adminkeys := tmodify adminkey.key_id s.adminkeys k
          (fun row => { row with is_active := false }) } := by
  unfold rmadminkey
  simp only [check_bind_ok, require_auth_bind_ok, pure_ok_iff]
  constructor <;> (rintro ⟨h1, h2, h3⟩; exact ⟨h1, h2, h3.symm⟩)

theorem logaccess_ok {c : Ctx} {s s1 : Ledger} {acc : Name} {f : Nat} {r : Bytes} :
    logaccess c s acc f r = .ok s1 ↔
      c.has_auth acc ∧ f > 0 ∧ (r.length > 0 ∧ r.length ≤ 512) ∧
      (tfind artfile.file_id s.artfiles f).isSome ∧
      (∃ k ∈ s.adminkeys, k.admin_account = acc ∧ k.is_active = true) ∧
      tfind adminaccesslog.log_id s.logs (next_log_id s.logs) = none ∧
      s1 = { s with logs := s.logs ++ [⟨next_log_id s.logs, acc, f, r, c.now⟩] } := by
  unfold logaccess
  simp only [check_bind_ok, require_auth_bind_ok, templace_bind_ok, pure_ok_iff, map_ok_iff,
    templace_ok_iff]
  constructor <;> (rintro ⟨h1, h2, h3, h4, h5, h6, h7⟩; exact ⟨h1, h2, h3, h4, h5, h6, h7.symm⟩)

theorem updateart_ok {c : Ctx} {s s1 : Ledger} {a : Nat} {o : Name} {d m : Bytes} :
    updateart c s a o d m = .ok s1 ↔
      (c.has_auth o ∨ c.has_auth c.self) ∧ a > 0 ∧ d.length ≤ 10240 ∧ m.length ≤ 10240 ∧
      ∃ art, tfind artwork.artwork_id s.artworks a = some art ∧ art.owner = o ∧
        s1 = { s with
          artworks := tmodify artwork.artwork_id s.artworks a
            (fun row => { row with description_encrypted := d, metadata_encrypted := m }) } := by
  unfold updateart
  simp only [check_bind_ok]
  cases ha : tfind artwork.artwork_id s.artworks a with
  | none => simp [throw_ne_ok]
  | some art =>
    simp only [check_bind_ok, pure_ok_iff]
    simp [eq_comm]

theorem addadmindek_ok {c : Ctx} {s s1 : Ledger} {f : Nat} {d : Bytes} :
    addadmindek c s f d = .ok s1 ↔
      c.has_auth c.self ∧ f > 0 ∧ d.length > 0 ∧
      ∃ file, tfind artfile.file_id s.artfiles f = some file ∧
        file.admin_encrypted_deks.length < (get_active_admin_keys s).length ∧
        s1 = { s with
          artfiles := tmodify artfile.file_id s.artfiles f
            (fun row => { row with admin_encrypted_deks := row.admin_encrypted_deks ++ [d] }) } := by
  unfold addadmindek
  simp only [check_bind_ok, require_auth_bind_ok]
  cases hf : tfind artfile.file_id s.artfiles f with
  | none => simp [throw_ne_ok]
  | some file =>
    simp only [check_bind_ok, pure_ok_iff]
    simp [eq_comm]

theorem deletefile_ok {c : Ctx} {s s1 : Ledger} {f a : Nat} {o : Name} :
    deletefile c s f a o = .ok s1 ↔
      c.has_auth c.self ∧ f > 0 ∧ a > 0 ∧
      ∃ art file, tfind artwork.artwork_id s.artworks a = some art ∧ art.owner = o ∧
        tfind artfile.file_id s.artfiles f = some file ∧ file.artwork_id = a ∧
        file.owner = o ∧
        s1 = { s with
          artchunks := erase_chunks_of s.artchunks f
          artworks := tmodify artwork.artwork_id s.artworks a
            (fun row =>
              if row.file_count > 0 then { row with file_count := row.file_count - 1 } else row)
          artfiles := terase artfile.file_id s.artfiles f } := by
  unfold deletefile
  simp only [check_bind_ok, require_auth_bind_ok]
  cases ha : tfind artwork.artwork_id s.artworks a with
  | none => simp [throw_ne_ok]
  | some art =>
    simp only [check_bind_ok]
    cases hf : tfind artfile.file_id s.artfiles f with
    | none => simp [throw_ne_ok]
    | some file =>
      simp only [check_bind_ok, pure_ok_iff]
      simp [eq_comm]

theorem deleteart_ok {c : Ctx} {s s1 : Ledger} {a : Nat} {o : Name} :
    deleteart c s a o = .ok s1 ↔
      c.has_auth o ∧
      ∃ art, tfind artwork.artwork_id s.artworks a = some art ∧ art.owner = o ∧
        s1 = { s with
          artfiles := (deleteart_loop (s.artfiles.filter (fun f => f.artwork_id = a))
            s.artfiles s.artchunks).1
          artchunks := (deleteart_loop (s.artfiles.filter (fun f => f.artwork_id = a))
            s.artfiles s.artchunks).2
          artworks := terase artwork.artwork_id s.artworks a } := by
  unfold deleteart
  simp only [check_bind_ok, require_auth_bind_ok]
  cases ha : tfind artwork.artwork_id s.artworks a with
  | none => simp [throw_ne_ok]
  | some art =>
    simp only [check_bind_ok, pure_ok_iff]
    simp [eq_comm]

theorem transferart_ok {c : Ctx} {s s1 : Ledger} {a : Nat} {fr rc : Name} {ids : List Nat}
    {deks tags : List Bytes} {memo : Bytes} :
    transferart c s a fr rc ids deks tags memo = .ok s1 ↔
      c.has_auth fr ∧ fr ≠ rc ∧ ids.length = deks.length ∧ ids.length = tags.length ∧
      ∃ art files, tfind artwork.artwork_id s.artworks a = some art ∧ art.owner = fr ∧
        transfer_loop a fr rc ids deks tags s.artfiles = .ok files ∧
        s1 = { s with
          artfiles := files
          artworks := tmodify artwork.artwork_id s.artworks a
            (fun row => { row with owner := rc }) } := by
  unfold transferart
  simp only [check_bind_ok, require_auth_bind_ok]
  cases ha : tfind artwork.artwork_id s.artworks a with
  | none => simp [throw_ne_ok]
  | some art =>
    simp only [check_bind_ok]
    simp only [pure_ok_iff, map_ok_iff, bind_ok_iff]
    simp [eq_comm]

/-! ### The record store -/

theorem tfind_some {α : Type} {key : α → Nat} {t : List α} {k : Nat} {r : α}
    (h : tfind key t k = some r) : r ∈ t ∧ key r = k := by
  unfold tfind at h
  exact ⟨List.mem_of_find?_eq_some h, by simpa using List.find?_some h⟩

theorem tfind_none {α : Type} {key : α → Nat} {t : List α} {k : Nat} :
    tfind key t k = none ↔ ∀ r ∈ t, key r ≠ k := by
  unfold tfind
  simp [List.find?_eq_none]

theorem tfind_tmodify_self {α : Type} {key : α → Nat} {t : List α} {k : Nat} {r : α}
    (f : α → α) (h : tfind key t k = some r) (hk : key (f r) = k) :
    tfind key (tmodify key t k f) k = some (f r) := by
  unfold tfind tmodify at *
  induction t with
  | nil => simp at h
  | cons x xs ih =>
    by_cases hx : key x = k
    · have hxr : x = r := by simpa [List.find?, hx] using h
      subst hxr
      simp [List.find?, hx, hk]
    · have h1 : List.find? (fun r => decide (key r = k)) xs = some r := by
        simpa [List.find?, hx] using h
      simp [List.find?, hx, ih h1]

/-! ### Quota admission (C6-C8) -/

theorem next_midnight_eq (now : Nat) (h : now + 86400 < 2 ^ 64) :
    next_midnight now = now / 86400 * 86400 + 86400 := by
  have hd : now / 86400 * 86400 ≤ now := Nat.div_mul_le_self _ _
  unfold next_midnight
  rw [u64_of_lt (show now / 86400 * 86400 < 2 ^ 64 by omega), u64_of_lt (by omega)]

/-- Inside both windows and within the ceilings, the lambda of
`check_and_update_quota` charges the row by one file of `file_size` bytes. -/
theorem quota_update_within (now file_size : Nat) (q : usagequota)
    (hd : now < q.daily_reset_at) (hw : now < q.weekly_reset_at)
    (ht : limits_typed q) (hc : within_ceilings q file_size) :
    quota_update now file_size q = .ok (charged q 1 file_size) := by
  obtain ⟨t1, t2, t3, t4⟩ := ht
  obtain ⟨c1, c2, c3, c4⟩ := hc
  have e1 : u64 (q.daily_size_used + file_size) = q.daily_size_used + file_size :=
    u64_of_lt (by omega)
  have e2 : u64 (q.weekly_size_used + file_size) = q.weekly_size_used + file_size :=
    u64_of_lt (by omega)
  have e3 : u32 (q.daily_files_used + 1) = q.daily_files_used + 1 := u32_of_lt (by omega)
  have e4 : u32 (q.weekly_files_used + 1) = q.weekly_files_used + 1 := u32_of_lt (by omega)
  unfold quota_update
  simp only [ge_iff_le, Nat.not_le.mpr hd, Nat.not_le.mpr hw, if_false, e1, e2, e3, e4]
  simp only [check_bind_ok, pure_ok_iff]
  exact ⟨c1, c2, c3, c4, rfl⟩

/-- C8. First admission creates and admits in one step: for an account without
a quota record, `check_and_update_quota` succeeds and appends the free-tier
row (limits 10 / 26214400 / 40 / 104857600) already charged with this one file,
with `daily_reset_at` the next midnight and `weekly_reset_at =
calculate_next_monday now`.  The block time is a count of seconds far below
the 64-bit limit (`now + 86400 < 2^64`). -/
theorem first_admission_creates_and_admits (c : Ctx) (s : Ledger) (account : Name)
    (file_size : Nat) (hnone : tfind usagequota.account s.quotas account = none)
    (hnow : c.now + 86400 < 2 ^ 64) :
    check_and_update_quota c s account file_size = .ok { s with
      quotas := s.quotas ++ [
        { account := account
          tier := 0
          daily_file_limit := 10
          daily_size_limit := 26214400
          weekly_file_limit := 40
          weekly_size_limit := 104857600
          daily_files_used := 1
          daily_size_used := file_size
          daily_reset_at := c.now / 86400 * 86400 + 86400
          weekly_files_used := 1
          weekly_size_used := file_size
          weekly_reset_at := calculate_next_monday c.now }] } := by
  rw [check_and_update_quota_ok]
  left
  refine ⟨hnone, ?_⟩
  simp [default_quota, next_midnight_eq c.now hnow]

/-- C8 on the empty ledger at 2024-01-03 12:00:00 UTC, account 7, 1000 bytes. -/
theorem first_admission_creates_and_admits_witness :
    check_and_update_quota ⟨1, [7], 1704283200⟩ Ledger.empty 7 1000 = .ok { Ledger.empty with
      quotas := [⟨7, 0, 10, 26214400, 40, 104857600, 1, 1000, 1704326400, 1, 1000,
        calculate_next_monday 1704283200⟩] } :=
  first_admission_creates_and_admits ⟨1, [7], 1704283200⟩ Ledger.empty 7 1000 rfl (by norm_num)

/-- The lambda of `check_and_update_quota` is: the resets of
`reset_quota_if_expired`, the four checks, the four increments. -/
theorem quota_update_ok_iff (now file_size : Nat) (q row : usagequota) :
    quota_update now file_size q = .ok row ↔
      checks_pass (reset_quota_if_expired q now).1 file_size ∧
      row = { (reset_quota_if_expired q now).1 with
        daily_files_used := u32 ((reset_quota_if_expired q now).1.daily_files_used + 1)
        daily_size_used := u64 ((reset_quota_if_expired q now).1.daily_size_used + file_size)
        weekly_files_used := u32 ((reset_quota_if_expired q now).1.weekly_files_used + 1)
        weekly_size_used :=
          u64 ((reset_quota_if_expired q now).1.weekly_size_used + file_size) } := by
  unfold quota_update reset_quota_if_expired checks_pass
  simp only [check_bind_ok, pure_ok_iff]
  by_cases hd : now ≥ q.daily_reset_at <;> by_cases hw : now ≥ q.weekly_reset_at <;>
    simp only [hd, hw, if_true, if_false] <;>
    exact ⟨fun ⟨h1, h2, h3, h4, h5⟩ => ⟨⟨h1, h2, h3, h4⟩, h5.symm⟩,
      fun ⟨⟨h1, h2, h3, h4⟩, h5⟩ => ⟨h1, h2, h3, h4, h5.symm⟩⟩

theorem quota_update_error (now file_size : Nat) (q : usagequota)
    (h : ¬ checks_pass (reset_quota_if_expired q now).1 file_size) :
    ∃ e, quota_update now file_size q = .error e ∧ e ∈ quota_errors := by
  cases hr : quota_update now file_size q with
  | ok row => exact absurd ((quota_update_ok_iff now file_size q row).mp hr).1 h
  | error e =>
    refine ⟨e, rfl, ?_⟩
    unfold quota_update at hr
    simp only [check, bind, Except.bind, pure, Except.pure, quota_errors] at hr ⊢
    split_ifs at hr <;> simp_all

/-- C6. Quota accumulation within a window: for a stored quota row `q` with
`now` before both reset times and all four ceilings respected by `file_size`,
`check_and_update_quota` succeeds and the stored row becomes `q` with both
file counters plus one and both byte counters plus `file_size`, every other
field as before; a second call admitted at the same time with `size2` leaves
the counters at plus two and plus `file_size + size2`. -/
theorem quota_accumulates_within_window (c : Ctx) (s : Ledger) (account : Name)
    (file_size : Nat) (q : usagequota)
    (hq : tfind usagequota.account s.quotas account = some q) (ht : limits_typed q)
    (hd : c.now < q.daily_reset_at) (hw : c.now < q.weekly_reset_at)
    (hc : within_ceilings q file_size) :
    ∃ s1, check_and_update_quota c s account file_size = .ok s1 ∧
      s1 = { s with
        quotas := tmodify usagequota.account s.quotas account
          (fun _ => charged q 1 file_size) } ∧
      tfind usagequota.account s1.quotas account = some (charged q 1 file_size) ∧
      ∀ size2, within_ceilings (charged q 1 file_size) size2 →
        ∃ s2, check_and_update_quota c s1 account size2 = .ok s2 ∧
          tfind usagequota.account s2.quotas account =
            some (charged q 2 (file_size + size2)) := by
  have hacc : q.account = account := (tfind_some hq).2
  have h1 : tfind usagequota.account
      (tmodify usagequota.account s.quotas account (fun _ => charged q 1 file_size)) account =
      some (charged q 1 file_size) :=
    tfind_tmodify_self (fun _ => charged q 1 file_size) hq hacc
  refine ⟨_, check_and_update_quota_ok.mpr (Or.inr ⟨q, _, hq,
    quota_update_within c.now file_size q hd hw ht hc, rfl⟩), rfl, h1, ?_⟩
  intro size2 hc2
  have hu := quota_update_within c.now size2 (charged q 1 file_size) hd hw ht hc2
  have hch : charged (charged q 1 file_size) 1 size2 = charged q 2 (file_size + size2) := by
    simp [charged, Nat.add_assoc]
  rw [hch] at hu
  refine ⟨_, check_and_update_quota_ok.mpr (Or.inr ⟨_, _, h1, hu, rfl⟩), ?_⟩
  exact tfind_tmodify_self (fun _ => charged q 2 (file_size + size2)) h1 hacc

/-- C6 on `demo_quota_ledger`: 1000 bytes are admitted at 12:00. -/
theorem quota_accumulates_within_window_witness :
    ∃ s1, check_and_update_quota demo_ctx demo_quota_ledger 7 1000 = .ok s1 ∧
      s1 = { demo_quota_ledger with
        quotas := tmodify usagequota.account demo_quota_ledger.quotas 7
          (fun _ => charged demo_quota 1 1000) } ∧
      tfind usagequota.account s1.quotas 7 = some (charged demo_quota 1 1000) ∧
      ∀ size2, within_ceilings (charged demo_quota 1 1000) size2 →
        ∃ s2, check_and_update_quota demo_ctx s1 7 size2 = .ok s2 ∧
          tfind usagequota.account s2.quotas 7 = some (charged demo_quota 2 (1000 + size2)) :=
  quota_accumulates_within_window demo_ctx demo_quota_ledger 7 1000 demo_quota rfl
    (by unfold limits_typed; decide) (by decide) (by decide) (by unfold within_ceilings; decide)

theorem reset_quota_account (q : usagequota) (now : Nat) :
    (reset_quota_if_expired q now).1.account = q.account := by
  unfold reset_quota_if_expired
  by_cases hd : now ≥ q.daily_reset_at <;> by_cases hw : now ≥ q.weekly_reset_at <;>
    simp [hd, hw]

theorem quota_update_account {now file_size : Nat} {q row : usagequota}
    (h : quota_update now file_size q = .ok row) : row.account = q.account := by
  rw [((quota_update_ok_iff now file_size q row).mp h).2]
  exact reset_quota_account q now

/-- C7. Rolling daily reset at the boundary: for a stored quota row `q` and an
admitted call at `now ≥ q.daily_reset_at`, the stored row ends with
`daily_files_used = 1`, `daily_size_used = file_size` and `daily_reset_at =
floor(now/86400)*86400 + 86400`; its weekly counters are 1 and `file_size`
when `now ≥ q.weekly_reset_at`, and otherwise the previous values plus one and
plus `file_size` (the byte sum in `uint64_t`).  `file_size` is a `uint64_t`
and the block time is far below the 64-bit limit. -/
theorem daily_reset_at_boundary (c : Ctx) (s s1 : Ledger) (account : Name) (file_size : Nat)
    (q : usagequota) (hq : tfind usagequota.account s.quotas account = some q)
    (hT : c.now ≥ q.daily_reset_at) (hnow : c.now + 86400 < 2 ^ 64)
    (hsize : file_size < 2 ^ 64) (ht : limits_typed q)
    (hadm : check_and_update_quota c s account file_size = .ok s1) :
    ∃ q1, tfind usagequota.account s1.quotas account = some q1 ∧
      q1.daily_files_used = 1 ∧ q1.daily_size_used = file_size ∧
      q1.daily_reset_at = c.now / 86400 * 86400 + 86400 ∧
      (c.now ≥ q.weekly_reset_at → q1.weekly_files_used = 1 ∧ q1.weekly_size_used = file_size) ∧
      (c.now < q.weekly_reset_at →
        q1.weekly_files_used = q.weekly_files_used + 1 ∧
        q1.weekly_size_used = u64 (q.weekly_size_used + file_size)) := by
  rcases check_and_update_quota_ok.mp hadm with ⟨hn, -⟩ | ⟨stored, row, hst, hrow, hs1⟩
  · rw [hn] at hq; cases hq
  · rw [hq] at hst; cases hst
    have hacc : q.account = account := (tfind_some hq).2
    obtain ⟨hpass, hr⟩ := (quota_update_ok_iff c.now file_size q row).mp hrow
    have hfind : tfind usagequota.account s1.quotas account = some row := by
      rw [hs1]
      exact tfind_tmodify_self (fun _ => row) hq ((quota_update_account hrow).trans hacc)
    have e0 : u64 file_size = file_size := u64_of_lt hsize
    have e1 : u32 1 = 1 := by decide
    refine ⟨row, hfind, ?_⟩
    by_cases hw : c.now ≥ q.weekly_reset_at
    · simp only [reset_quota_if_expired, hT, hw, if_true] at hr
      subst hr
      simp [e0, e1, next_midnight_eq c.now hnow, hw]
    · simp only [reset_quota_if_expired, checks_pass, hT, hw, if_true, if_false] at hr hpass
      have e2 : u32 (q.weekly_files_used + 1) = q.weekly_files_used + 1 :=
        u32_of_lt (by have := ht.2.2.1; omega)
      subst hr
      simp [e0, e1, e2, next_midnight_eq c.now hnow, hw, Nat.lt_of_not_ge hw]

/-- C7 on `stale_quota_ledger`: the daily window ends at 12:00:00 and the call
comes at 12:00:00. -/
theorem daily_reset_at_boundary_witness :
    check_and_update_quota demo_ctx stale_quota_ledger 7 1000 = .ok stale_quota_after ∧
    ∃ q1, tfind usagequota.account stale_quota_after.quotas 7 = some q1 ∧
      q1.daily_files_used = 1 ∧ q1.daily_size_used = 1000 ∧
      q1.daily_reset_at = 1704283200 / 86400 * 86400 + 86400 ∧
      (1704283200 ≥ stale_quota.weekly_reset_at →
        q1.weekly_files_used = 1 ∧ q1.weekly_size_used = 1000) ∧
      (1704283200 < stale_quota.weekly_reset_at →
        q1.weekly_files_used = stale_quota.weekly_files_used + 1 ∧
        q1.weekly_size_used = u64 (stale_quota.weekly_size_used + 1000)) :=
  ⟨rfl, daily_reset_at_boundary demo_ctx stale_quota_ledger stale_quota_after 7 1000 stale_quota
    rfl (by decide) (by decide) (by decide) (by unfold limits_typed; decide) rfl⟩

theorem exec_of_error {c : Ctx} {s : Ledger} {a : Action} {e : Err}
    (h : dispatch c s a = .error e) : exec c s a = s := by
  unfold exec; rw [h]

theorem exec_of_ok {c : Ctx} {s s1 : Ledger} {a : Action}
    (h : dispatch c s a = .ok s1) : exec c s a = s1 := by
  unfold exec; rw [h]

theorem exec_of_not_ok {c : Ctx} {s : Ledger} {a : Action}
    (h : ∀ s1, dispatch c s a ≠ .ok s1) : exec c s a = s := by
  unfold exec
  cases hd : dispatch c s a with
  | ok s1 => exact absurd hd (h s1)
  | error e => rfl

/-! ### Key escrow (C3, C4) -/

theorem check_and_update_quota_frame {c : Ctx} {s s1 : Ledger} {account : Name}
    {file_size : Nat} (h : check_and_update_quota c s account file_size = .ok s1) :
    s1 = { s with quotas := s1.quotas } := by
  rcases check_and_update_quota_ok.mp h with ⟨-, hs⟩ | ⟨_, _, -, -, hs⟩ <;> rw [hs]

/-- C3. Escrow parity at creation: for an `addfile` call by the owner with
valid fields, admitted by the quota check, on an existing artwork of the
caller and with an unused `file_id`, the call succeeds if and only if
`admin_encrypted_deks.length` equals the number of active admin keys (and then
creates the file); with any other length it fails with the escrow-count error
and the stored ledger is unchanged. -/
theorem addfile_escrow_parity (c : Ctx) (s s1 : Ledger) (file_id artwork_id : Nat)
    (owner : Name) (filename mime : Bytes) (file_size file_hash : Nat) (dek : Bytes)
    (admin_deks : List Bytes) (iv tag : Bytes) (thumb : Bool) (art : artwork)
    (hauth : c.has_auth owner)
    (hvalid : addfile_fields_valid file_id artwork_id filename mime file_size dek iv tag)
    (hquota : check_and_update_quota c s owner file_size = .ok s1)
    (hart : tfind artwork.artwork_id s.artworks artwork_id = some art)
    (hown : art.owner = owner)
    (hfree : tfind artfile.file_id s.artfiles file_id = none) :
    ((∃ s2, addfile c s file_id artwork_id owner filename mime file_size file_hash dek
        admin_deks iv tag thumb = .ok s2) ↔ admin_deks.length = active_key_count s) ∧
    (admin_deks.length = active_key_count s →
      addfile c s file_id artwork_id owner filename mime file_size file_hash dek
        admin_deks iv tag thumb = .ok { s1 with
          artfiles := s.artfiles ++ [new_file c file_id artwork_id owner filename mime
            file_size file_hash dek admin_deks iv tag thumb]
          artworks := tmodify artwork.artwork_id s.artworks artwork_id
            (fun row => { row with file_count := u32 (row.file_count + 1) }) }) ∧
    (admin_deks.length ≠ active_key_count s →
      addfile c s file_id artwork_id owner filename mime file_size file_hash dek
        admin_deks iv tag thumb = .error .admin_dek_count_mismatch ∧
      exec c s (.addfile file_id artwork_id owner filename mime file_size file_hash dek
        admin_deks iv tag thumb) = s) := by
  have hfr := check_and_update_quota_frame hquota
  have hA : s1.artworks = s.artworks := by rw [hfr]
  have hF : s1.artfiles = s.artfiles := by rw [hfr]
  have hK : active_key_count s1 = active_key_count s := by rw [hfr]; rfl
  have hsucc : admin_deks.length = active_key_count s →
      addfile c s file_id artwork_id owner filename mime file_size file_hash dek
        admin_deks iv tag thumb = .ok { s1 with
          artfiles := s.artfiles ++ [new_file c file_id artwork_id owner filename mime
            file_size file_hash dek admin_deks iv tag thumb]
          artworks := tmodify artwork.artwork_id s.artworks artwork_id
            (fun row => { row with file_count := u32 (row.file_count + 1) }) } := by
    intro hlen
    rw [addfile_ok]
    refine ⟨hauth, hvalid, s1, art, hquota, by rw [hA]; exact hart, hown, by rw [hF]; exact hfree,
      by rw [get_active_admin_keys_length, hK]; exact hlen, by rw [hA, hF]⟩
  have hfail : admin_deks.length ≠ active_key_count s →
      addfile c s file_id artwork_id owner filename mime file_size file_hash dek
        admin_deks iv tag thumb = .error .admin_dek_count_mismatch := by
    intro hne
    obtain ⟨v1, v2, v3, v4, v5, v6, v7, v8, v9, v10⟩ := hvalid
    have hne1 : ¬ admin_deks.length = (get_active_admin_keys s1).length := by
      rw [get_active_admin_keys_length, hK]; exact hne
    unfold addfile
    simp only [require_auth, check, hauth, v1, v2, v3, v4, v5, v6, v7, v8, v9, v10, hquota,
      hA, hF, hart, hown, hfree, hne1, if_true, if_false, bind, Except.bind, and_self,
      Option.isNone_none]
  refine ⟨⟨?_, fun h => ⟨_, hsucc h⟩⟩, hsucc, fun hne => ⟨hfail hne, exec_of_error (hfail hne)⟩⟩
  rintro ⟨s2, h2⟩
  by_contra hne
  rw [hfail hne] at h2
  cases h2

/-- C3 on `three_key_ledger`: three admin DEKs against three active keys. -/
theorem addfile_escrow_parity_witness :
    ((∃ s2, addfile demo_ctx three_key_ledger 1 1 7 [1] [1] 1000 0 [1] [[1], [2], [3]] [1] [1]
        false = .ok s2) ↔ [[1], [2], [3]].length = active_key_count three_key_ledger) ∧
    ([[1], [2], [3]].length = active_key_count three_key_ledger →
      addfile demo_ctx three_key_ledger 1 1 7 [1] [1] 1000 0 [1] [[1], [2], [3]] [1] [1] false =
        .ok { { three_key_ledger with quotas := [default_quota 1704283200 7 1000] } with
          artfiles := three_key_ledger.artfiles ++
            [new_file demo_ctx 1 1 7 [1] [1] 1000 0 [1] [[1], [2], [3]] [1] [1] false]
          artworks := tmodify artwork.artwork_id three_key_ledger.artworks 1
            (fun row => { row with file_count := u32 (row.file_count + 1) }) }) ∧
    ([[1], [2], [3]].length ≠ active_key_count three_key_ledger →
      addfile demo_ctx three_key_ledger 1 1 7 [1] [1] 1000 0 [1] [[1], [2], [3]] [1] [1] false =
        .error .admin_dek_count_mismatch ∧
      exec demo_ctx three_key_ledger
        (.addfile 1 1 7 [1] [1] 1000 0 [1] [[1], [2], [3]] [1] [1] false) = three_key_ledger) :=
  addfile_escrow_parity demo_ctx three_key_ledger
    { three_key_ledger with quotas := [default_quota 1704283200 7 1000] }
    1 1 7 [1] [1] 1000 0 [1] [[1], [2], [3]] [1] [1] false
    ⟨1, 7, [1], [], [], List.replicate 44 0, 1704200000, 0⟩
    (by decide) (by unfold addfile_fields_valid; decide) rfl rfl rfl rfl

theorem mem_tmodify_of_ne {α : Type} {key : α → Nat} {t : List α} {k : Nat} {f : α → α} {r : α}
    (hr : r ∈ t) (hk : key r ≠ k) : r ∈ tmodify key t k f := by
  unfold tmodify
  exact List.mem_map.mpr ⟨r, hr, by simp [hk]⟩

/-- C4. Catch-up primitive: for an existing file `f` (`file_id > 0`) and a
non-empty ciphertext `d`, `addadmindek` called by the contract account
succeeds exactly when `f.admin_encrypted_deks.length` is below the number of
active admin keys and fails with the all-DEKs-present error otherwise; on
success the ledger is the old one with the file table's row `file_id`
carrying `d` appended to its list: the row is `f` with only that field
changed, rows with another primary key and all other tables are unchanged. -/
theorem addadmindek_catch_up (c : Ctx) (s : Ledger) (file_id : Nat) (d : Bytes) (f : artfile)
    (hauth : c.has_auth c.self) (hpos : file_id > 0) (hd : d.length > 0)
    (hf : tfind artfile.file_id s.artfiles file_id = some f) :
    ((∃ s1, addadmindek c s file_id d = .ok s1) ↔
      f.admin_encrypted_deks.length < active_key_count s) ∧
    (f.admin_encrypted_deks.length ≥ active_key_count s →
      addadmindek c s file_id d = .error .all_admin_deks_present) ∧
    (∀ s1, addadmindek c s file_id d = .ok s1 →
      s1 = { s with
        artfiles := s.artfiles.map (fun r =>
          if r.file_id = file_id then
            { r with admin_encrypted_deks := r.admin_encrypted_deks ++ [d] }
          else r) } ∧
      tfind artfile.file_id s1.artfiles file_id =
        some { f with admin_encrypted_deks := f.admin_encrypted_deks ++ [d] } ∧
      (∀ r ∈ s.artfiles, r.file_id ≠ file_id → r ∈ s1.artfiles) ∧
      s1.artfiles.length = s.artfiles.length) := by
  have hiff : ∀ s1, addadmindek c s file_id d = .ok s1 ↔
      f.admin_encrypted_deks.length < active_key_count s ∧
      s1 = { s with
        artfiles := tmodify artfile.file_id s.artfiles file_id
          (fun row => { row with admin_encrypted_deks := row.admin_encrypted_deks ++ [d] }) } := by
    intro s1
    rw [addadmindek_ok, get_active_admin_keys_length]
    constructor
    · rintro ⟨-, -, -, file, hfile, hlt, hs1⟩
      rw [hf] at hfile; cases hfile
      exact ⟨hlt, hs1⟩
    · rintro ⟨hlt, hs1⟩
      exact ⟨hauth, hpos, hd, f, hf, hlt, hs1⟩
  refine ⟨⟨fun ⟨s1, h1⟩ => ((hiff s1).mp h1).1, fun hlt => ⟨_, (hiff _).mpr ⟨hlt, rfl⟩⟩⟩, ?_, ?_⟩
  · intro hge
    have hge1 : ¬ f.admin_encrypted_deks.length < (get_active_admin_keys s).length := by
      rw [get_active_admin_keys_length]; omega
    unfold addadmindek
    simp only [require_auth, check, hauth, hpos, hd, hf, hge1, if_true, if_false, bind,
      Except.bind]
  · intro s1 h1
    obtain ⟨-, hs1⟩ := (hiff s1).mp h1
    refine ⟨hs1, ?_, ?_, ?_⟩
    · rw [hs1]
      exact tfind_tmodify_self _ hf (tfind_some hf).2
    · intro r hr hne
      rw [hs1]
      exact mem_tmodify_of_ne hr hne
    · rw [hs1]; simp [tmodify]

/-- C4 on `catch_up_ledger`: file 1 carries one admin DEK, two keys are active. -/
theorem addadmindek_catch_up_witness :
    ((∃ s1, addadmindek ⟨1, [1], 1704283200⟩ catch_up_ledger 1 [6] = .ok s1) ↔
      (new_file demo_ctx 1 1 7 [1] [1] 1000 0 [1] [[5]] [1] [1]
        false).admin_encrypted_deks.length < active_key_count catch_up_ledger) ∧
    ((new_file demo_ctx 1 1 7 [1] [1] 1000 0 [1] [[5]] [1] [1]
        false).admin_encrypted_deks.length ≥ active_key_count catch_up_ledger →
      addadmindek ⟨1, [1], 1704283200⟩ catch_up_ledger 1 [6] = .error .all_admin_deks_present) ∧
    (∀ s1, addadmindek ⟨1, [1], 1704283200⟩ catch_up_ledger 1 [6] = .ok s1 →
      s1 = { catch_up_ledger with
        artfiles := catch_up_ledger.artfiles.map (fun r =>
          if r.file_id = 1 then
            { r with admin_encrypted_deks := r.admin_encrypted_deks ++ [[6]] }
          else r) } ∧
      tfind artfile.file_id s1.artfiles 1 =
        some { new_file demo_ctx 1 1 7 [1] [1] 1000 0 [1] [[5]] [1] [1] false with
          admin_encrypted_deks := [[5]] ++ [[6]] } ∧
      (∀ r ∈ catch_up_ledger.artfiles, r.file_id ≠ 1 → r ∈ s1.artfiles) ∧
      s1.artfiles.length = catch_up_ledger.artfiles.length) :=
  addadmindek_catch_up ⟨1, [1], 1704283200⟩ catch_up_ledger 1 [6]
    (new_file demo_ctx 1 1 7 [1] [1] 1000 0 [1] [[5]] [1] [1] false)
    (by decide) (by decide) (by decide) rfl


/-- For every timestamp away from the 64-bit limit the day returned by
`calculate_next_monday` has day number 3 modulo 7: a Sunday, day 0 being
Thursday 1 January 1970. -/
theorem calculate_next_monday_day (now : Nat) (h : now + 7 * 86400 < 2 ^ 64) :
    calculate_next_monday now / 86400 % 7 = 3 := by
  rw [calculate_next_monday_eq now h]
  have hm : (now / 86400 + 4) % 7 < 7 := Nat.mod_lt _ (by decide)
  split
  · have e : now / 86400 * 86400 + 7 * 86400 = (now / 86400 + 7) * 86400 := by ring
    rw [e, Nat.mul_div_cancel _ (by decide : 0 < 86400)]
    omega
  · have e : now / 86400 * 86400 + (7 - (now / 86400 + 4) % 7) * 86400 =
        (now / 86400 + (7 - (now / 86400 + 4) % 7)) * 86400 := by ring
    rw [e, Nat.mul_div_cancel _ (by decide : 0 < 86400)]
    omega

/-- C9. The code at Monday 2024-01-01 00:00:00 UTC (`now = 1704067200`, day
19723, and 19723 mod 7 = 4): `calculate_next_monday` returns 1704585600, the
midnight of day 19729 with 19729 mod 7 = 3, a Sunday, and not
`now + 7*86400`; at `now = 0` (Thursday 1 January 1970) it returns day 3,
Sunday 4 January 1970. -/
theorem calculate_next_monday_returns_sunday :
    1704067200 % 86400 = 0 ∧ 1704067200 / 86400 % 7 = 4 ∧
    calculate_next_monday 1704067200 = 1704585600 ∧
    calculate_next_monday 1704067200 / 86400 % 7 = 3 ∧
    calculate_next_monday 1704067200 ≠ 1704067200 + 7 * 86400 ∧
    calculate_next_monday 0 = 259200 ∧ calculate_next_monday 0 / 86400 % 7 = 3 := by
  decide

/-! ### Reachable states -/

theorem mem_tmodify {α : Type} {key : α → Nat} {t : List α} {k : Nat} {f : α → α} {r1 : α} :
    r1 ∈ tmodify key t k f ↔ ∃ r ∈ t, r1 = if key r = k then f r else r := by
  unfold tmodify
  simp [List.mem_map, eq_comm]

theorem mem_terase {α : Type} {key : α → Nat} {t : List α} {k : Nat} {r : α} :
    r ∈ terase key t k ↔ r ∈ t ∧ key r ≠ k := by
  unfold terase
  simp [List.mem_filter]

theorem mem_erase_chunks_of {chunks : List artchunk} {file_id : Nat} {ch : artchunk} :
    ch ∈ erase_chunks_of chunks file_id ↔ ch ∈ chunks ∧ ch.file_id ≠ file_id := by
  unfold erase_chunks_of
  simp [List.mem_filter]

theorem map_key_tmodify {α : Type} {key : α → Nat} (t : List α) (k : Nat) (f : α → α)
    (hf : ∀ r, key (f r) = key r) : (tmodify key t k f).map key = t.map key := by
  unfold tmodify
  rw [List.map_map]
  apply List.map_congr_left
  intro r _
  by_cases h : key r = k <;> simp [h, hf]

/-- The loop of `deleteart` removes exactly the rows whose `file_id` is that of
a listed file, and the chunks of those files. -/
theorem deleteart_loop_eq (doomed files : List artfile) (chunks : List artchunk) :
    deleteart_loop doomed files chunks =
      (files.filter (fun f => f.file_id ∉ doomed.map artfile.file_id),
       chunks.filter (fun ch => ch.file_id ∉ doomed.map artfile.file_id)) := by
  induction doomed generalizing files chunks with
  | nil => simp [deleteart_loop]
  | cons d ds ih =>
    rw [deleteart_loop, ih]
    simp only [terase, erase_chunks_of, List.filter_filter, List.map_cons, List.mem_cons,
      not_or]
    congr 1 <;> (apply List.filter_congr; intro x _; simp [Bool.and_comm])

/-- What a successful run of the `transferart` loop does to the file table:
every row keeps all fields but `owner`, `encrypted_dek` and `auth_tag`; rows
whose id is not listed are untouched; rows whose id is listed end with the
recipient as owner; and every listed id names a row of the artwork. -/
theorem transfer_loop_ok (a : Nat) (fr rc : Name) :
    ∀ (ids : List Nat) (deks tags : List Bytes) (files files1 : List artfile),
      ids.length = deks.length → ids.length = tags.length →
      transfer_loop a fr rc ids deks tags files = .ok files1 →
      ∃ g : artfile → artfile, files1 = files.map g ∧
        (∀ f, g f = { f with
          owner := (g f).owner, encrypted_dek := (g f).encrypted_dek,
          auth_tag := (g f).auth_tag }) ∧
        (∀ f, f.file_id ∉ ids → g f = f) ∧
        (∀ f, f.file_id ∈ ids → (g f).owner = rc) ∧
        (∀ id ∈ ids, ∃ f ∈ files, f.file_id = id ∧ f.artwork_id = a) := by
  intro ids
  induction ids with
  | nil =>
    intro deks tags files files1 _ _ h
    have h1 : files = files1 := by
      cases deks <;> cases tags <;> simpa [transfer_loop, pure_ok_iff] using h
    exact ⟨id, by simp [h1], fun f => rfl, fun f _ => rfl, by simp, by simp⟩
  | cons i ids ih =>
    intro deks tags files files1 hd ht h
    cases deks with
    | nil => simp at hd
    | cons dek deks =>
      cases tags with
      | nil => simp at ht
      | cons tag tags =>
        rw [transfer_loop] at h
        cases hfind : tfind artfile.file_id files i with
        | none => simp [hfind, throw_ne_ok] at h
        | some file =>
          simp only [hfind, check_bind_ok] at h
          obtain ⟨hart, -, hrest⟩ := h
          obtain ⟨g, hmap, hfields, hout, hin, hall⟩ :=
            ih deks tags _ files1 (by simpa using hd) (by simpa using ht) hrest
          let m : artfile → artfile := fun r =>
            if r.file_id = i then { r with owner := rc, encrypted_dek := dek, auth_tag := tag }
            else r
          have hm_id : ∀ r, (m r).file_id = r.file_id := by
            intro r; by_cases hr : r.file_id = i <;> simp [m, hr]
          have hm_art : ∀ r, (m r).artwork_id = r.artwork_id := by
            intro r; by_cases hr : r.file_id = i <;> simp [m, hr]
          refine ⟨g ∘ m, by rw [hmap]; simp [tmodify, m, List.map_map], ?_, ?_, ?_, ?_⟩
          · intro f
            have h1 := hfields (m f)
            by_cases hf : f.file_id = i
            · simp only [Function.comp, m, hf, if_true] at h1 ⊢
              rw [h1]
            · simp only [Function.comp, m, hf, if_false] at h1 ⊢
              exact h1
          · intro f hf
            simp only [List.mem_cons, not_or] at hf
            have : m f = f := by simp [m, hf.1]
            simp only [Function.comp, this]
            exact hout f hf.2
          · intro f hf
            by_cases hmem : f.file_id ∈ ids
            · exact hin (m f) (by rw [hm_id]; exact hmem)
            · have hi : f.file_id = i := by
                rcases List.mem_cons.mp hf with h1 | h1
                · exact h1
                · exact absurd h1 hmem
              have h2 := hout (m f) (by rw [hm_id]; exact hmem)
              simp only [Function.comp, h2]
              simp [m, hi]
          · intro id hid
            rcases List.mem_cons.mp hid with h1 | h1
            · subst h1
              exact ⟨file, (tfind_some hfind).1, (tfind_some hfind).2, hart⟩
            · obtain ⟨f1, hf1, hid1, ha1⟩ := hall id h1
              obtain ⟨f, hf, hfe⟩ := mem_tmodify.mp hf1
              refine ⟨f, hf, ?_, ?_⟩
              · have := hm_id f
                simp only [m] at this
                rw [← hid1, hfe]; exact this.symm
              · have := hm_art f
                simp only [m] at this
                rw [← ha1, hfe]; exact this.symm

theorem reachable_of_reachableBy {P : Ledger → Action → Prop} {s : Ledger}
    (h : ReachableBy P s) : Reachable s := by
  induction h with
  | init => exact ReachableBy.init
  | next c a _ _ hd ih => exact ReachableBy.next c a ih trivial hd

theorem reachable_of_run {tr : List (Ctx × Action)} {s s1 : Ledger} (hs : Reachable s)
    (h : run s tr = .ok s1) : Reachable s1 := by
  induction tr generalizing s with
  | nil => simp only [run, Except.ok.injEq] at h; exact h ▸ hs
  | cons x rest ih =>
    obtain ⟨c, a⟩ := x
    rw [run, bind_ok_iff] at h
    obtain ⟨s2, h2, h3⟩ := h
    exact ih (ReachableBy.next c a hs trivial h2) h3

theorem filter_map_nodup {α : Type} {key : α → Nat} {t : List α} (p : α → Bool)
    (h : (t.map key).Nodup) : ((t.filter p).map key).Nodup :=
  h.sublist ((List.filter_sublist t).map key)

theorem nodup_map_tmodify {α : Type} {key : α → Nat} {t : List α} {k : Nat} {f : α → α}
    (hf : ∀ r, key (f r) = key r) (h : (t.map key).Nodup) :
    ((tmodify key t k f).map key).Nodup := by
  rw [map_key_tmodify t k f hf]; exact h

/-- Every successful action keeps file ids pairwise distinct. -/
theorem dispatch_file_ids_unique {c : Ctx} {s s1 : Ledger} {a : Action}
    (h : file_ids_unique s) (hd : dispatch c s a = .ok s1) : file_ids_unique s1 := by
  unfold file_ids_unique at *
  cases a with
  | createart a o t d m k =>
    obtain ⟨-, rfl⟩ := createart_ok.mp hd; exact h
  | updateart a o d m =>
    obtain ⟨-, -, -, -, art, -, -, rfl⟩ := updateart_ok.mp hd; exact h
  | addfile f a o fn mt sz hh dek adeks iv tag th =>
    obtain ⟨-, -, s0, art, hq, -, -, hfree, -, rfl⟩ := addfile_ok.mp hd
    have hF : s0.artfiles = s.artfiles := by rw [check_and_update_quota_frame hq]
    rw [hF] at hfree
    simp only [hF, List.map_append, List.map_cons, List.map_nil]
    refine List.Nodup.append h (List.nodup_singleton _) ?_
    intro x hx hy
    simp only [List.mem_singleton] at hy
    obtain ⟨r, hr, hrx⟩ := List.mem_map.mp hx
    exact tfind_none.mp hfree r hr (by rw [hrx, hy]; rfl)
  | uploadchunk ch f o i data sz =>
    obtain ⟨-, -, -, -, -, -, file, -, -, -, -, -, rfl⟩ := uploadchunk_ok.mp hd
    exact nodup_map_tmodify (fun _ => rfl) h
  | completefile f o n =>
    obtain ⟨-, -, -, file, -, -, -, -, rfl⟩ := completefile_ok.mp hd
    exact nodup_map_tmodify (fun _ => rfl) h
  | setquota acc t dfl dsl wfl wsl =>
    obtain ⟨-, ⟨-, rfl⟩ | ⟨-, rfl⟩⟩ := setquota_ok.mp hd <;> exact h
  | addadminkey acc pk d =>
    obtain ⟨-, -, -, -, -, rfl⟩ := addadminkey_ok.mp hd; exact h
  | rmadminkey k =>
    obtain ⟨-, -, rfl⟩ := rmadminkey_ok.mp hd; exact h
  | addadmindek f d =>
    obtain ⟨-, -, -, file, -, -, rfl⟩ := addadmindek_ok.mp hd
    exact nodup_map_tmodify (fun _ => rfl) h
  | logaccess acc f r =>
    obtain ⟨-, -, -, -, -, -, rfl⟩ := logaccess_ok.mp hd; exact h
  | deleteart a o =>
    obtain ⟨-, art, -, -, rfl⟩ := deleteart_ok.mp hd
    simp only [deleteart_loop_eq]
    exact filter_map_nodup _ h
  | deletefile f a o =>
    obtain ⟨-, -, -, art, file, -, -, -, -, -, rfl⟩ := deletefile_ok.mp hd
    exact filter_map_nodup _ h
  | transferart a fr rc ids deks tags memo =>
    have hd1 : transferart c s a fr rc ids deks tags memo = .ok s1 := hd
    obtain ⟨-, -, hl1, hl2, art, files, -, -, hloop, rfl⟩ := transferart_ok.mp hd1
    obtain ⟨g, hmap, hfields, -, -, -⟩ := transfer_loop_ok a fr rc ids deks tags _ _ hl1 hl2 hloop
    simp only [hmap, List.map_map]
    have : (artfile.file_id ∘ g) = artfile.file_id := by
      funext f
      simp only [Function.comp]
      rw [hfields f]
    rw [this]; exact h

theorem reachableBy_file_ids_unique {P : Ledger → Action → Prop} {s : Ledger}
    (h : ReachableBy P s) : file_ids_unique s := by
  induction h with
  | init => exact List.nodup_nil
  | next c a _ _ hd ih => exact dispatch_file_ids_unique ih hd

/-! ### Ownership coupling (C1) -/

theorem linked_mono {P : Name → Name → Prop} (s s1 : Ledger)
    (hA : ∀ a ∈ s.artworks, ∃ a1 ∈ s1.artworks,
      a1.artwork_id = a.artwork_id ∧ a1.owner = a.owner)
    (hF : ∀ f1 ∈ s1.artfiles, ∃ f ∈ s.artfiles,
      f.artwork_id = f1.artwork_id ∧ f.owner = f1.owner)
    (h : linked P s) : linked P s1 := by
  intro f1 hf1
  obtain ⟨f, hf, e1, e2⟩ := hF f1 hf1
  obtain ⟨a, ha, e3, e4⟩ := h f hf
  obtain ⟨a1, ha1, e5, e6⟩ := hA a ha
  exact ⟨a1, ha1, by rw [e5, e3, e1], by rw [e6, ← e2]; exact e4⟩

theorem artworks_kept_tmodify {t : List artwork} {k : Nat} {F : artwork → artwork}
    (hF : ∀ r, (F r).artwork_id = r.artwork_id ∧ (F r).owner = r.owner) :
    ∀ a ∈ t, ∃ a1 ∈ tmodify artwork.artwork_id t k F,
      a1.artwork_id = a.artwork_id ∧ a1.owner = a.owner := by
  intro a ha
  refine ⟨_, mem_tmodify.mpr ⟨a, ha, rfl⟩, ?_⟩
  by_cases h : a.artwork_id = k
  · simp [h, hF]
  · simp [h]

theorem files_from_tmodify {t : List artfile} {k : Nat} {F : artfile → artfile}
    (hF : ∀ r, (F r).artwork_id = r.artwork_id ∧ (F r).owner = r.owner) :
    ∀ f1 ∈ tmodify artfile.file_id t k F, ∃ f ∈ t,
      f.artwork_id = f1.artwork_id ∧ f.owner = f1.owner := by
  intro f1 hf1
  obtain ⟨f, hf, e⟩ := mem_tmodify.mp hf1
  refine ⟨f, hf, ?_⟩
  by_cases h : f.file_id = k
  · simp [e, h, hF]
  · simp [e, h]

/-- Every successful action other than `transferart` keeps every file linked
to a parent artwork, for any reflexive relation between the owners. -/
theorem dispatch_linked {P : Name → Name → Prop} (hP : ∀ n, P n n) {c : Ctx} {s s1 : Ledger}
    {a : Action} (h : linked P s) (hd : dispatch c s a = .ok s1)
    (hnt : ∀ x fr rc ids deks tags memo, a ≠ .transferart x fr rc ids deks tags memo) :
    linked P s1 := by
  have self_art : ∀ a ∈ s.artworks, ∃ a1 ∈ s.artworks,
      a1.artwork_id = a.artwork_id ∧ a1.owner = a.owner := fun a ha => ⟨a, ha, rfl, rfl⟩
  have self_file : ∀ f1 ∈ s.artfiles, ∃ f ∈ s.artfiles,
      f.artwork_id = f1.artwork_id ∧ f.owner = f1.owner := fun f hf => ⟨f, hf, rfl, rfl⟩
  cases a with
  | createart a o t d m k =>
    obtain ⟨-, rfl⟩ := createart_ok.mp hd
    exact linked_mono s _ (fun a ha => ⟨a, List.mem_append_left _ ha, rfl, rfl⟩) self_file h
  | updateart a o d m =>
    obtain ⟨-, -, -, -, art, -, -, rfl⟩ := updateart_ok.mp hd
    exact linked_mono s _ (artworks_kept_tmodify (fun _ => ⟨rfl, rfl⟩)) self_file h
  | addfile f a o fn mt sz hh dek adeks iv tag th =>
    obtain ⟨-, -, s0, art, hq, hart, hown, -, -, rfl⟩ := addfile_ok.mp hd
    have hfr := check_and_update_quota_frame hq
    have hA : s0.artworks = s.artworks := by rw [hfr]
    have hF : s0.artfiles = s.artfiles := by rw [hfr]
    have h0 : linked P { s0 with
        artfiles := s0.artfiles ++ [new_file c f a o fn mt sz hh dek adeks iv tag th] } := by
      intro f1 hf1
      rcases List.mem_append.mp hf1 with h1 | h1
      · rw [hF] at h1
        obtain ⟨a0, ha0, e⟩ := h f1 h1
        exact ⟨a0, by rw [hA]; exact ha0, e⟩
      · rw [List.mem_singleton.mp h1]
        exact ⟨art, (tfind_some hart).1, (tfind_some hart).2, by rw [hown]; exact hP o⟩
    exact linked_mono { s0 with
        artfiles := s0.artfiles ++ [new_file c f a o fn mt sz hh dek adeks iv tag th] } _
      (artworks_kept_tmodify (fun _ => ⟨rfl, rfl⟩)) (fun f1 hf1 => ⟨f1, hf1, rfl, rfl⟩) h0
  | uploadchunk ch f o i data sz =>
    obtain ⟨-, -, -, -, -, -, file, -, -, -, -, -, rfl⟩ := uploadchunk_ok.mp hd
    exact linked_mono s _ self_art (files_from_tmodify (fun _ => ⟨rfl, rfl⟩)) h
  | completefile f o n =>
    obtain ⟨-, -, -, file, -, -, -, -, rfl⟩ := completefile_ok.mp hd
    exact linked_mono s _ self_art (files_from_tmodify (fun _ => ⟨rfl, rfl⟩)) h
  | setquota acc t dfl dsl wfl wsl =>
    obtain ⟨-, ⟨-, rfl⟩ | ⟨-, rfl⟩⟩ := setquota_ok.mp hd <;> exact h
  | addadminkey acc pk d =>
    obtain ⟨-, -, -, -, -, rfl⟩ := addadminkey_ok.mp hd; exact h
  | rmadminkey k =>
    obtain ⟨-, -, rfl⟩ := rmadminkey_ok.mp hd; exact h
  | addadmindek f d =>
    obtain ⟨-, -, -, file, -, -, rfl⟩ := addadmindek_ok.mp hd
    exact linked_mono s _ self_art (files_from_tmodify (fun _ => ⟨rfl, rfl⟩)) h
  | logaccess acc f r =>
    obtain ⟨-, -, -, -, -, -, rfl⟩ := logaccess_ok.mp hd; exact h
  | deleteart a o =>
    obtain ⟨-, art, -, -, rfl⟩ := deleteart_ok.mp hd
    intro f1 hf1
    simp only [deleteart_loop_eq, List.mem_filter, decide_eq_true_eq] at hf1
    obtain ⟨hf1, hnot⟩ := hf1
    have hne : f1.artwork_id ≠ a := by
      intro he
      exact hnot (List.mem_map.mpr ⟨f1, List.mem_filter.mpr ⟨hf1, by simpa using he⟩, rfl⟩)
    obtain ⟨a0, ha0, e1, e2⟩ := h f1 hf1
    exact ⟨a0, mem_terase.mpr ⟨ha0, by rw [e1]; exact hne⟩, e1, e2⟩
  | deletefile f a o =>
    obtain ⟨-, -, -, art, file, -, -, -, -, -, rfl⟩ := deletefile_ok.mp hd
    refine linked_mono s _ (artworks_kept_tmodify (fun r => ?_))
      (fun f1 hf1 => ⟨f1, (mem_terase.mp hf1).1, rfl, rfl⟩) h
    by_cases hr : r.file_count > 0 <;> simp [hr]
  | transferart x fr rc ids deks tags memo => exact absurd rfl (hnt x fr rc ids deks tags memo)

theorem reachableBy_of_run {P : Ledger → Action → Prop} {tr : List (Ctx × Action)}
    {s s1 : Ledger} (hs : ReachableBy P s) (h : run s tr = .ok s1)
    (hp : trace_satisfies P s tr) : ReachableBy P s1 := by
  induction tr generalizing s with
  | nil => simp only [run, Except.ok.injEq] at h; exact h ▸ hs
  | cons x rest ih =>
    obtain ⟨c, a⟩ := x
    rw [run, bind_ok_iff] at h
    obtain ⟨s2, h2, h3⟩ := h
    obtain ⟨hp1, hp2⟩ := hp
    rw [exec_of_ok h2] at hp2
    exact ih (ReachableBy.next c a hs hp1 h2) h3 hp2

theorem transferred_artwork_mem {t : List artwork} {a0 : artwork} (k : Nat) (rc : Name)
    (h : a0 ∈ t) :
    ∃ a1 ∈ tmodify artwork.artwork_id t k (fun row => { row with owner := rc }),
      a1.artwork_id = a0.artwork_id ∧
      (a0.artwork_id = k → a1.owner = rc) ∧ (a0.artwork_id ≠ k → a1.owner = a0.owner) := by
  refine ⟨_, mem_tmodify.mpr ⟨a0, h, rfl⟩, ?_⟩
  by_cases hk : a0.artwork_id = k <;> simp [hk]

/-- A successful `transferart` keeps every file's parent artwork stored. -/
theorem transferart_parent_exists {c : Ctx} {s s1 : Ledger} {a : Nat} {fr rc : Name}
    {ids : List Nat} {deks tags : List Bytes} (memo : Bytes)
    (h : parent_artwork_exists s)
    (hd : transferart c s a fr rc ids deks tags memo = .ok s1) : parent_artwork_exists s1 := by
  obtain ⟨-, -, hl1, hl2, art, files, -, -, hloop, rfl⟩ := transferart_ok.mp hd
  obtain ⟨g, hmap, hfields, -, -, -⟩ := transfer_loop_ok a fr rc ids deks tags _ _ hl1 hl2 hloop
  intro f1 hf1
  simp only [hmap, List.mem_map] at hf1
  obtain ⟨f, hf, rfl⟩ := hf1
  obtain ⟨a0, ha0, e⟩ := h f hf
  obtain ⟨a1, ha1, e1, -, -⟩ := transferred_artwork_mem a rc ha0
  refine ⟨a1, ha1, ?_⟩
  rw [e1, e, hfields f]

/-- A successful `transferart` that lists every file of the artwork keeps
ownership coupled. -/
theorem transferart_ownership_coupled {c : Ctx} {s s1 : Ledger} {a : Nat} {fr rc : Name}
    {ids : List Nat} {deks tags : List Bytes} (memo : Bytes)
    (hu : file_ids_unique s) (h : ownership_coupled s)
    (hall : ∀ f ∈ s.artfiles, f.artwork_id = a → f.file_id ∈ ids)
    (hd : transferart c s a fr rc ids deks tags memo = .ok s1) : ownership_coupled s1 := by
  obtain ⟨-, -, hl1, hl2, art, files, -, -, hloop, rfl⟩ := transferart_ok.mp hd
  obtain ⟨g, hmap, hfields, hout, hin, hlisted⟩ :=
    transfer_loop_ok a fr rc ids deks tags _ _ hl1 hl2 hloop
  intro f1 hf1
  simp only [hmap, List.mem_map] at hf1
  obtain ⟨f, hf, rfl⟩ := hf1
  obtain ⟨a0, ha0, e, eo⟩ := h f hf
  obtain ⟨a1, ha1, e1, hyes, hno⟩ := transferred_artwork_mem a rc ha0
  have hga : (g f).artwork_id = f.artwork_id := by rw [hfields f]
  refine ⟨a1, ha1, by rw [e1, e, hga], ?_⟩
  by_cases hfa : f.artwork_id = a
  · rw [hyes (by rw [e, hfa]), hin f (hall f hf hfa)]
  · have hnot : f.file_id ∉ ids := by
      intro hmem
      obtain ⟨f2, hf2, hid, ha2⟩ := hlisted _ hmem
      have : f2 = f := List.inj_on_of_nodup_map hu hf2 hf hid
      exact hfa (this ▸ ha2)
    rw [hno (by rw [e]; exact hfa), hout f hnot, eo]

theorem parent_artwork_exists_iff (s : Ledger) :
    parent_artwork_exists s ↔ linked (fun _ _ => True) s := by
  unfold parent_artwork_exists linked
  simp

theorem dispatch_parent_artwork_exists {c : Ctx} {s s1 : Ledger} {a : Action}
    (h : parent_artwork_exists s) (hd : dispatch c s a = .ok s1) :
    parent_artwork_exists s1 := by
  by_cases ht : ∃ x fr rc ids deks tags memo, a = .transferart x fr rc ids deks tags memo
  · obtain ⟨x, fr, rc, ids, deks, tags, memo, rfl⟩ := ht
    exact transferart_parent_exists memo h hd
  · rw [parent_artwork_exists_iff] at h ⊢
    exact dispatch_linked (fun _ => trivial) h hd
      (fun x fr rc ids deks tags memo he => ht ⟨x, fr, rc, ids, deks, tags, memo, he⟩)

theorem dispatch_ownership_coupled {c : Ctx} {s s1 : Ledger} {a : Action}
    (hu : file_ids_unique s) (h : ownership_coupled s) (hl : lists_all_files s a)
    (hd : dispatch c s a = .ok s1) : ownership_coupled s1 := by
  by_cases ht : ∃ x fr rc ids deks tags memo, a = .transferart x fr rc ids deks tags memo
  · obtain ⟨x, fr, rc, ids, deks, tags, memo, rfl⟩ := ht
    exact transferart_ownership_coupled memo hu h hl hd
  · exact dispatch_linked (fun _ => rfl) h hd
      (fun x fr rc ids deks tags memo he => ht ⟨x, fr, rc, ids, deks, tags, memo, he⟩)

/-- C1, as stated, fails: after `partial_transfer_trace` (a reachable state)
artwork 1 belongs to account 8 and its file 2 still to account 7. -/
theorem partial_transfer_breaks_coupling :
    run Ledger.empty partial_transfer_trace = .ok partial_transfer_ledger ∧
    Reachable partial_transfer_ledger ∧ ¬ ownership_coupled partial_transfer_ledger := by
  have hrun : run Ledger.empty partial_transfer_trace = .ok partial_transfer_ledger := rfl
  refine ⟨hrun, reachable_of_run ReachableBy.init hrun, ?_⟩
  intro h
  obtain ⟨a, ha, -, ho⟩ :=
    h (new_file demo_ctx 2 1 7 [1] [1] 1000 0 [1] [] [1] [1] false)
      (by simp [partial_transfer_ledger])
  simp only [partial_transfer_ledger, Ledger.empty, List.mem_singleton] at ha
  rw [ha] at ho
  exact absurd ho (by decide)

/-- C1 (amended). In every state reachable from the empty ledger by successful
operations every file's `artwork_id` refers to a stored artwork; and when every
`transferart` on the way listed all files of the artwork it transferred, the
owner of that artwork equals the file's owner. -/
theorem ownership_coupled_of_full_transfers (s : Ledger) (h : Reachable s) :
    parent_artwork_exists s ∧ (ReachableBy lists_all_files s → ownership_coupled s) := by
  constructor
  · unfold Reachable at h
    induction h with
    | init => intro f hf; cases hf
    | next c a _ _ hd ih => exact dispatch_parent_artwork_exists ih hd
  · intro hb
    clear h
    induction hb with
    | init => intro f hf; cases hf
    | next c a hs hp hd ih =>
      exact dispatch_ownership_coupled (reachableBy_file_ids_unique hs) ih hp hd

/-- C1 (amended) on `full_transfer_ledger`, reached by a transfer that lists
both files of the artwork. -/
theorem ownership_coupled_of_full_transfers_witness :
    parent_artwork_exists full_transfer_ledger ∧ ownership_coupled full_transfer_ledger :=
  have hrun : run Ledger.empty full_transfer_trace = .ok full_transfer_ledger := rfl
  have hr : Reachable full_transfer_ledger := reachable_of_run ReachableBy.init hrun
  ⟨(ownership_coupled_of_full_transfers full_transfer_ledger hr).1,
    (ownership_coupled_of_full_transfers full_transfer_ledger hr).2
      (reachableBy_of_run ReachableBy.init hrun
        (by simp [trace_satisfies, full_transfer_trace, lists_all_files, exec, dispatch];
            decide))⟩

/-! ### Escrow size bound (C2) -/

theorem files_deks_from_tmodify {t : List artfile} {k : Nat} {F : artfile → artfile}
    (hF : ∀ r, (F r).admin_encrypted_deks = r.admin_encrypted_deks) :
    ∀ f1 ∈ tmodify artfile.file_id t k F, ∃ f ∈ t,
      f.admin_encrypted_deks = f1.admin_encrypted_deks := by
  intro f1 hf1
  obtain ⟨f, hf, e⟩ := mem_tmodify.mp hf1
  refine ⟨f, hf, ?_⟩
  by_cases h : f.file_id = k
  · simp [e, h, hF]
  · simp [e, h]

theorem escrow_within_mono {m : List adminkey → Nat} (s s1 : Ledger)
    (hK : m s.adminkeys ≤ m s1.adminkeys)
    (hF : ∀ f1 ∈ s1.artfiles, ∃ f ∈ s.artfiles,
      f.admin_encrypted_deks = f1.admin_encrypted_deks)
    (h : escrow_within m s) : escrow_within m s1 := by
  intro f1 hf1
  obtain ⟨f, hf, e⟩ := hF f1 hf1
  rw [← e]
  exact Nat.le_trans (h f hf) hK

/-- Every successful action other than `rmadminkey` keeps the escrow lists
within any count `m` of the key records that is at least the number of active
keys and does not drop when a key is appended. -/
theorem dispatch_escrow_within (m : List adminkey → Nat)
    (hact : ∀ keys, keys.countP (fun k => k.is_active) ≤ m keys)
    (happ : ∀ keys k, m keys ≤ m (keys ++ [k]))
    {c : Ctx} {s s1 : Ledger} {a : Action} (hu : file_ids_unique s)
    (h : escrow_within m s) (hd : dispatch c s a = .ok s1) (hnr : ∀ k, a ≠ .rmadminkey k) :
    escrow_within m s1 := by
  have self_file : ∀ f1 ∈ s.artfiles, ∃ f ∈ s.artfiles,
      f.admin_encrypted_deks = f1.admin_encrypted_deks := fun f hf => ⟨f, hf, rfl⟩
  cases a with
  | createart a o t d md k =>
    obtain ⟨-, rfl⟩ := createart_ok.mp hd; exact h
  | updateart a o d md =>
    obtain ⟨-, -, -, -, art, -, -, rfl⟩ := updateart_ok.mp hd; exact h
  | addfile f a o fn mt sz hh dek adeks iv tag th =>
    obtain ⟨-, -, s0, art, hq, -, -, -, hlen, rfl⟩ := addfile_ok.mp hd
    have hfr := check_and_update_quota_frame hq
    have hK : s0.adminkeys = s.adminkeys := by rw [hfr]
    have hF : s0.artfiles = s.artfiles := by rw [hfr]
    intro f1 hf1
    simp only [hK] at hf1 ⊢
    rcases List.mem_append.mp hf1 with h1 | h1
    · rw [hF] at h1; exact h f1 h1
    · rw [List.mem_singleton.mp h1]
      rw [get_active_admin_keys_length] at hlen
      show adeks.length ≤ _
      rw [hlen]
      unfold active_key_count
      rw [hK]
      exact hact _
  | uploadchunk ch f o i data sz =>
    obtain ⟨-, -, -, -, -, -, file, -, -, -, -, -, rfl⟩ := uploadchunk_ok.mp hd
    exact escrow_within_mono s _ (Nat.le_refl _) (files_deks_from_tmodify (fun _ => rfl)) h
  | completefile f o n =>
    obtain ⟨-, -, -, file, -, -, -, -, rfl⟩ := completefile_ok.mp hd
    exact escrow_within_mono s _ (Nat.le_refl _) (files_deks_from_tmodify (fun _ => rfl)) h
  | setquota acc t dfl dsl wfl wsl =>
    obtain ⟨-, ⟨-, rfl⟩ | ⟨-, rfl⟩⟩ := setquota_ok.mp hd <;> exact h
  | addadminkey acc pk d =>
    obtain ⟨-, -, -, -, -, rfl⟩ := addadminkey_ok.mp hd
    exact escrow_within_mono s _ (happ _ _) self_file h
  | rmadminkey k => exact absurd rfl (hnr k)
  | addadmindek f d =>
    obtain ⟨-, -, -, file, hfile, hlt, rfl⟩ := addadmindek_ok.mp hd
    intro f1 hf1
    obtain ⟨r, hr, e⟩ := mem_tmodify.mp hf1
    by_cases hk : r.file_id = f
    · have hrf : r = file :=
        List.inj_on_of_nodup_map hu hr (tfind_some hfile).1 (hk.trans (tfind_some hfile).2.symm)
      simp only [hk, if_true] at e
      rw [e, hrf]
      simp only [List.length_append, List.length_singleton]
      rw [get_active_admin_keys_length] at hlt
      exact Nat.le_trans hlt (hact _)
    · simp only [hk, if_false] at e
      rw [e]; exact h r hr
  | logaccess acc f r =>
    obtain ⟨-, -, -, -, -, -, rfl⟩ := logaccess_ok.mp hd; exact h
  | deleteart a o =>
    obtain ⟨-, art, -, -, rfl⟩ := deleteart_ok.mp hd
    refine escrow_within_mono s _ (Nat.le_refl _) (fun f1 hf1 => ⟨f1, ?_, rfl⟩) h
    simp only [deleteart_loop_eq] at hf1
    exact (List.mem_filter.mp hf1).1
  | deletefile f a o =>
    obtain ⟨-, -, -, art, file, -, -, -, -, -, rfl⟩ := deletefile_ok.mp hd
    exact escrow_within_mono s _ (Nat.le_refl _)
      (fun f1 hf1 => ⟨f1, (mem_terase.mp hf1).1, rfl⟩) h
  | transferart a fr rc ids deks tags memo =>
    have hd1 : transferart c s a fr rc ids deks tags memo = .ok s1 := hd
    obtain ⟨-, -, hl1, hl2, art, files, -, -, hloop, rfl⟩ := transferart_ok.mp hd1
    obtain ⟨g, hmap, hfields, -, -, -⟩ := transfer_loop_ok a fr rc ids deks tags _ _ hl1 hl2 hloop
    refine escrow_within_mono s _ (Nat.le_refl _) (fun f1 hf1 => ?_) h
    simp only [hmap, List.mem_map] at hf1
    obtain ⟨f, hf, rfl⟩ := hf1
    exact ⟨f, hf, by rw [hfields f]⟩

/-- C2, as stated, fails: after `removed_key_trace` (a reachable state) file 1
carries one admin DEK while no admin key is active. -/
theorem removed_key_breaks_escrow_bound :
    run Ledger.empty removed_key_trace = .ok removed_key_ledger ∧
    Reachable removed_key_ledger ∧ ¬ escrow_within_active removed_key_ledger := by
  have hrun : run Ledger.empty removed_key_trace = .ok removed_key_ledger := rfl
  refine ⟨hrun, reachable_of_run ReachableBy.init hrun, ?_⟩
  intro h
  have := h (new_file demo_ctx 1 1 7 [1] [1] 1000 0 [1] [[9]] [1] [1] false)
    (by simp [removed_key_ledger, escrowed_ledger])
  revert this
  decide

/-- C2 (amended). In every state reachable from the empty ledger by successful
operations no file carries more admin DEKs than there are admin key records,
active or deactivated; and in every state reached without `rmadminkey` no file
carries more admin DEKs than there are active admin keys. -/
theorem escrow_bound_of_no_removal (s : Ledger) (h : Reachable s) :
    escrow_within_issued s ∧ (ReachableBy not_rmadminkey s → escrow_within_active s) := by
  constructor
  · unfold Reachable at h
    induction h with
    | init => intro f hf; cases hf
    | next c a hs _ hd ih =>
      by_cases hr : ∃ k, a = .rmadminkey k
      · obtain ⟨k, rfl⟩ := hr
        obtain ⟨-, -, rfl⟩ := rmadminkey_ok.mp hd
        intro f hf
        have := ih f hf
        simpa [tmodify] using this
      · exact dispatch_escrow_within List.length (fun _ => List.countP_le_length _)
          (fun _ _ => by simp) (reachableBy_file_ids_unique hs) ih hd
          (fun k hk => hr ⟨k, hk⟩)
  · intro hb
    clear h
    induction hb with
    | init => intro f hf; cases hf
    | next c a hs hp hd ih =>
      exact dispatch_escrow_within (List.countP (fun k => k.is_active))
        (fun _ => Nat.le_refl _) (fun _ _ => by simp [List.countP_append])
        (reachableBy_file_ids_unique hs) ih hd (fun k hk => by subst hk; exact hp)

/-- C2 (amended) on `escrowed_ledger`, reached without `rmadminkey`. -/
theorem escrow_bound_of_no_removal_witness :
    escrow_within_issued escrowed_ledger ∧ escrow_within_active escrowed_ledger :=
  have hrun : run Ledger.empty escrowed_trace = .ok escrowed_ledger := rfl
  have hr : Reachable escrowed_ledger := reachable_of_run ReachableBy.init hrun
  ⟨(escrow_bound_of_no_removal escrowed_ledger hr).1,
    (escrow_bound_of_no_removal escrowed_ledger hr).2
      (reachableBy_of_run ReachableBy.init hrun
        (by simp [trace_satisfies, escrowed_trace, not_rmadminkey]))⟩

/-! ### Completion (C11, C12) -/

/-- C11, as stated, fails on a freshly created file: after `escrowed_trace`
file 1 of account 7 is incomplete with `uploaded_chunks = 0`, and
`completefile` with the equal count 0 is rejected by the positivity guard. -/
theorem completefile_zero_chunks_rejected :
    run Ledger.empty escrowed_trace = .ok escrowed_ledger ∧
    tfind artfile.file_id escrowed_ledger.artfiles 1 =
      some (new_file demo_ctx 1 1 7 [1] [1] 1000 0 [1] [[9]] [1] [1] false) ∧
    (new_file demo_ctx 1 1 7 [1] [1] 1000 0 [1] [[9]] [1] [1] false).upload_complete = false ∧
    (new_file demo_ctx 1 1 7 [1] [1] 1000 0 [1] [[9]] [1] [1] false).uploaded_chunks = 0 ∧
    completefile demo_ctx escrowed_ledger 1 7 0 = .error .total_chunks_not_positive :=
  ⟨rfl, rfl, rfl, rfl, rfl⟩

/-- C11 (amended). Completion with equal, positive counts succeeds: for an
existing file `f` (`file_id > 0`) of owner `o` with `upload_complete = false`
and `uploaded_chunks > 0`, `completefile(file_id, o, f.uploaded_chunks)`
called with the authority of `o` or of the contract account succeeds; the row
`file_id` becomes `f` with `total_chunks` the declared count,
`upload_complete = true` and `completed_at = now`, rows with another primary
key and all other tables are unchanged; and the same call repeated on the
resulting ledger fails with the already-complete error. -/
theorem completefile_equal_counts (c : Ctx) (s : Ledger) (file_id : Nat) (o : Name)
    (f : artfile) (hauth : c.has_auth o ∨ c.has_auth c.self) (hid : file_id > 0)
    (hf : tfind artfile.file_id s.artfiles file_id = some f) (ho : f.owner = o)
    (hinc : f.upload_complete = false) (hpos : f.uploaded_chunks > 0) :
    ∃ s1, completefile c s file_id o f.uploaded_chunks = .ok s1 ∧
      s1 = { s with
        artfiles := s.artfiles.map (fun r =>
          if r.file_id = file_id then
            { r with
              total_chunks := f.uploaded_chunks, upload_complete := true,
              completed_at := c.now }
          else r) } ∧
      tfind artfile.file_id s1.artfiles file_id =
        some { f with
          total_chunks := f.uploaded_chunks, upload_complete := true,
          completed_at := c.now } ∧
      (∀ r ∈ s.artfiles, r.file_id ≠ file_id → r ∈ s1.artfiles) ∧
      completefile c s1 file_id o f.uploaded_chunks = .error .already_marked_complete := by
  have hfind := tfind_tmodify_self
    (fun row : artfile => { row with
      total_chunks := f.uploaded_chunks, upload_complete := true, completed_at := c.now })
    hf (tfind_some hf).2
  refine ⟨_, completefile_ok.mpr ⟨hauth, hid, hpos, f, hf, ho, hinc, rfl, rfl⟩, rfl, hfind, ?_, ?_⟩
  · intro r hr hne
    exact mem_tmodify_of_ne hr hne
  · unfold completefile
    simp only [check, hauth, hid, hpos, hfind, ho, if_true, if_false, bind, Except.bind,
      not_true_eq_false, gt_iff_lt]

/-- C11 (amended) on `two_chunk_ledger`: file 1 holds two chunks and is
completed with the count 2 by its owner, account 7. -/
theorem completefile_equal_counts_witness :
    ∃ s1, completefile demo_ctx two_chunk_ledger 1 7 2 = .ok s1 ∧
      s1 = { two_chunk_ledger with
        artfiles := two_chunk_ledger.artfiles.map (fun r =>
          if r.file_id = 1 then
            { r with total_chunks := 2, upload_complete := true, completed_at := 1704283200 }
          else r) } ∧
      tfind artfile.file_id s1.artfiles 1 =
        some { new_file demo_ctx 1 1 7 [1] [1] 1000 0 [1] [] [1] [1] false with
          uploaded_chunks := 2, total_chunks := 2, upload_complete := true,
          completed_at := 1704283200 } ∧
      (∀ r ∈ two_chunk_ledger.artfiles, r.file_id ≠ 1 → r ∈ s1.artfiles) ∧
      completefile demo_ctx s1 1 7 2 = .error .already_marked_complete :=
  completefile_equal_counts demo_ctx two_chunk_ledger 1 7
    { new_file demo_ctx 1 1 7 [1] [1] 1000 0 [1] [] [1] [1] false with uploaded_chunks := 2 }
    (Or.inl (by decide)) (by decide) rfl rfl rfl (by decide)

theorem file_ids_kept_tmodify {t : List artfile} {k : Nat} {F : artfile → artfile}
    (hF : ∀ r, (F r).file_id = r.file_id) :
    ∀ f ∈ t, ∃ f1 ∈ tmodify artfile.file_id t k F, f1.file_id = f.file_id := by
  intro f hf
  refine ⟨_, mem_tmodify.mpr ⟨f, hf, rfl⟩, ?_⟩
  by_cases h : f.file_id = k
  · simp [h, hF]
  · simp [h]

theorem chunk_parent_mono (s s1 : Ledger)
    (hF : ∀ f ∈ s.artfiles, ∃ f1 ∈ s1.artfiles, f1.file_id = f.file_id)
    (hC : ∀ ch ∈ s1.artchunks, ch ∈ s.artchunks)
    (h : chunk_parent_exists s) : chunk_parent_exists s1 := by
  intro ch hch
  obtain ⟨f, hf, e⟩ := h ch (hC ch hch)
  obtain ⟨f1, hf1, e1⟩ := hF f hf
  exact ⟨f1, hf1, e1.trans e⟩

/-- Every successful action keeps every chunk under a stored file. -/
theorem dispatch_chunk_parent_exists {c : Ctx} {s s1 : Ledger} {a : Action}
    (h : chunk_parent_exists s) (hd : dispatch c s a = .ok s1) : chunk_parent_exists s1 := by
  have self_file : ∀ f ∈ s.artfiles, ∃ f1 ∈ s.artfiles, f1.file_id = f.file_id :=
    fun f hf => ⟨f, hf, rfl⟩
  have self_chunk : ∀ ch ∈ s.artchunks, ch ∈ s.artchunks := fun _ hch => hch
  cases a with
  | createart a o t d m k =>
    obtain ⟨-, rfl⟩ := createart_ok.mp hd; exact h
  | updateart a o d m =>
    obtain ⟨-, -, -, -, art, -, -, rfl⟩ := updateart_ok.mp hd; exact h
  | addfile f a o fn mt sz hh dek adeks iv tag th =>
    obtain ⟨-, -, s0, art, hq, -, -, -, -, rfl⟩ := addfile_ok.mp hd
    have hfr := check_and_update_quota_frame hq
    have hF : s0.artfiles = s.artfiles := by rw [hfr]
    have hC : s0.artchunks = s.artchunks := by rw [hfr]
    refine chunk_parent_mono s _ (fun f0 hf0 => ⟨f0, ?_, rfl⟩) (fun ch hch => ?_) h
    · exact List.mem_append_left _ (by rw [hF]; exact hf0)
    · rw [← hC]; exact hch
  | uploadchunk ch f o i data sz =>
    obtain ⟨-, -, -, -, -, -, file, hfile, -, -, -, -, rfl⟩ := uploadchunk_ok.mp hd
    intro ch1 hch1
    have hkeep : ∀ f0 ∈ s.artfiles, ∃ f1 ∈ tmodify artfile.file_id s.artfiles f
        (fun row => { row with uploaded_chunks := u32 (row.uploaded_chunks + 1) }),
        f1.file_id = f0.file_id := file_ids_kept_tmodify (fun _ => rfl)
    rcases List.mem_append.mp hch1 with h1 | h1
    · obtain ⟨f0, hf0, e⟩ := h ch1 h1
      obtain ⟨f1, hf1, e1⟩ := hkeep f0 hf0
      exact ⟨f1, hf1, e1.trans e⟩
    · rw [List.mem_singleton.mp h1]
      obtain ⟨f1, hf1, e1⟩ := hkeep file (tfind_some hfile).1
      exact ⟨f1, hf1, e1.trans (tfind_some hfile).2⟩
  | completefile f o n =>
    obtain ⟨-, -, -, file, -, -, -, -, rfl⟩ := completefile_ok.mp hd
    exact chunk_parent_mono s _ (file_ids_kept_tmodify (fun _ => rfl)) self_chunk h
  | setquota acc t dfl dsl wfl wsl =>
    obtain ⟨-, ⟨-, rfl⟩ | ⟨-, rfl⟩⟩ := setquota_ok.mp hd <;> exact h
  | addadminkey acc pk d =>
    obtain ⟨-, -, -, -, -, rfl⟩ := addadminkey_ok.mp hd; exact h
  | rmadminkey k =>
    obtain ⟨-, -, rfl⟩ := rmadminkey_ok.mp hd; exact h
  | addadmindek f d =>
    obtain ⟨-, -, -, file, -, -, rfl⟩ := addadmindek_ok.mp hd
    exact chunk_parent_mono s _ (file_ids_kept_tmodify (fun _ => rfl)) self_chunk h
  | logaccess acc f r =>
    obtain ⟨-, -, -, -, -, -, rfl⟩ := logaccess_ok.mp hd; exact h
  | deleteart a o =>
    obtain ⟨-, art, -, -, rfl⟩ := deleteart_ok.mp hd
    intro ch hch
    simp only [deleteart_loop_eq, List.mem_filter, decide_eq_true_eq] at hch
    obtain ⟨f0, hf0, e⟩ := h ch hch.1
    refine ⟨f0, ?_, e⟩
    simp only [deleteart_loop_eq, List.mem_filter, decide_eq_true_eq]
    exact ⟨hf0, by rw [e]; exact hch.2⟩
  | deletefile f a o =>
    obtain ⟨-, -, -, art, file, -, -, -, -, -, rfl⟩ := deletefile_ok.mp hd
    intro ch hch
    obtain ⟨hch1, hne⟩ := mem_erase_chunks_of.mp hch
    obtain ⟨f0, hf0, e⟩ := h ch hch1
    exact ⟨f0, mem_terase.mpr ⟨hf0, by rw [e]; exact hne⟩, e⟩
  | transferart a fr rc ids deks tags memo =>
    have hd1 : transferart c s a fr rc ids deks tags memo = .ok s1 := hd
    obtain ⟨-, -, hl1, hl2, art, files, -, -, hloop, rfl⟩ := transferart_ok.mp hd1
    obtain ⟨g, hmap, hfields, -, -, -⟩ := transfer_loop_ok a fr rc ids deks tags _ _ hl1 hl2 hloop
    refine chunk_parent_mono s _ (fun f0 hf0 => ⟨g f0, ?_, ?_⟩) self_chunk h
    · simp only [hmap]; exact List.mem_map_of_mem g hf0
    · rw [hfields f0]

/-- C16. Referential integrity: in every state reachable from the empty ledger
by successful operations, every file's `artwork_id` is the id of a stored
artwork and every chunk's `file_id` is the id of a stored file. -/
theorem referential_integrity (s : Ledger) (h : Reachable s) :
    parent_artwork_exists s ∧ chunk_parent_exists s := by
  unfold Reachable at h
  induction h with
  | init => exact ⟨fun f hf => (by cases hf), fun ch hch => (by cases hch)⟩
  | next c a _ _ hd ih =>
    exact ⟨dispatch_parent_artwork_exists ih.1 hd, dispatch_chunk_parent_exists ih.2 hd⟩

/-- C16 on `two_chunk_ledger`, reached by `two_chunk_trace`. -/
theorem referential_integrity_witness :
    parent_artwork_exists two_chunk_ledger ∧ chunk_parent_exists two_chunk_ledger :=
  referential_integrity two_chunk_ledger
    (reachable_of_run ReachableBy.init (show run Ledger.empty two_chunk_trace = _ from rfl))

/-! ### Cascade delete (C17) -/

/-- With pairwise distinct file ids, the rows whose `file_id` is that of a file
of artwork `a` are exactly the rows of artwork `a`. -/
theorem doomed_iff_of_artwork {s : Ledger} (hu : file_ids_unique s) (a : Nat) {f : artfile}
    (hf : f ∈ s.artfiles) :
    f.file_id ∈ (s.artfiles.filter (fun g => g.artwork_id = a)).map artfile.file_id ↔
      f.artwork_id = a := by
  constructor
  · intro h
    obtain ⟨g, hg, e⟩ := List.mem_map.mp h
    obtain ⟨hg1, hg2⟩ := List.mem_filter.mp hg
    have : g = f := List.inj_on_of_nodup_map hu hg1 hf e
    rw [← this]; simpa using hg2
  · intro h
    exact List.mem_map.mpr ⟨f, List.mem_filter.mpr ⟨hf, by simpa using h⟩, rfl⟩

/-- C17. Cascade completeness: for a ledger whose file ids are pairwise
distinct and an artwork `a` owned by `owner`, `deleteart(a, owner)` signed by
`owner` succeeds; the resulting ledger holds the artworks with another id, the
files of another artwork and the chunks whose `file_id` is not that of a file
of `a`, each as it was, and nothing else changes: no artwork with id `a`, no
file with `artwork_id = a` and no chunk of such a file is left. -/
theorem deleteart_cascade (c : Ctx) (s : Ledger) (a : Nat) (owner : Name) (art : artwork)
    (hauth : c.has_auth owner) (hu : file_ids_unique s)
    (hart : tfind artwork.artwork_id s.artworks a = some art) (hown : art.owner = owner) :
    ∃ s1, deleteart c s a owner = .ok s1 ∧
      s1 = { s with
        artworks := s.artworks.filter (fun x => x.artwork_id ≠ a)
        artfiles := s.artfiles.filter (fun f => f.artwork_id ≠ a)
        artchunks := s.artchunks.filter (fun ch =>
          ∀ f ∈ s.artfiles, f.artwork_id = a → ch.file_id ≠ f.file_id) } ∧
      (∀ x ∈ s1.artworks, x.artwork_id ≠ a) ∧
      (∀ f ∈ s1.artfiles, f.artwork_id ≠ a) ∧
      (∀ ch ∈ s1.artchunks, ∀ f ∈ s.artfiles, f.artwork_id = a → ch.file_id ≠ f.file_id) ∧
      (∀ x ∈ s.artworks, x.artwork_id ≠ a → x ∈ s1.artworks) ∧
      (∀ f ∈ s.artfiles, f.artwork_id ≠ a → f ∈ s1.artfiles) ∧
      (∀ ch ∈ s.artchunks, (∀ f ∈ s.artfiles, f.artwork_id = a → ch.file_id ≠ f.file_id) →
        ch ∈ s1.artchunks) := by
  have hfiles : (deleteart_loop (s.artfiles.filter (fun f => f.artwork_id = a))
      s.artfiles s.artchunks).1 = s.artfiles.filter (fun f => f.artwork_id ≠ a) := by
    rw [deleteart_loop_eq]
    apply List.filter_congr
    intro f hf
    have := doomed_iff_of_artwork hu a hf
    by_cases h : f.artwork_id = a <;> simp [h, this]
  have hchunks : (deleteart_loop (s.artfiles.filter (fun f => f.artwork_id = a))
      s.artfiles s.artchunks).2 = s.artchunks.filter (fun ch =>
        ∀ f ∈ s.artfiles, f.artwork_id = a → ch.file_id ≠ f.file_id) := by
    rw [deleteart_loop_eq]
    apply List.filter_congr
    intro ch _
    simp only [List.mem_map, List.mem_filter, decide_eq_true_eq, decide_eq_decide, not_exists,
      not_and, and_imp]
    constructor
    · intro h f hf hfa e
      exact h f hf hfa e.symm
    · intro h f hf hfa e
      exact h f hf hfa e.symm
  refine ⟨_, deleteart_ok.mpr ⟨hauth, art, hart, hown, rfl⟩, ?_, ?_, ?_, ?_, ?_, ?_, ?_⟩
  · rw [hfiles, hchunks]; rfl
  · intro x hx; exact (mem_terase.mp hx).2
  · intro f hf
    simp only [hfiles] at hf
    simpa using (List.mem_filter.mp hf).2
  · intro ch hch
    simp only [hchunks] at hch
    simpa using (List.mem_filter.mp hch).2
  · intro x hx hne; exact mem_terase.mpr ⟨hx, hne⟩
  · intro f hf hne
    simp only [hfiles]
    exact List.mem_filter.mpr ⟨hf, by simpa using hne⟩
  · intro ch hch hne
    simp only [hchunks]
    exact List.mem_filter.mpr ⟨hch, by simpa using hne⟩

/-- C17 on `two_artwork_ledger`: account 7 deletes artwork 1; artwork 2, its
file 2 and chunk 3 stay. -/
theorem deleteart_cascade_witness :
    ∃ s1, deleteart demo_ctx two_artwork_ledger 1 7 = .ok s1 ∧
      s1 = { two_artwork_ledger with
        artworks := two_artwork_ledger.artworks.filter (fun x => x.artwork_id ≠ 1)
        artfiles := two_artwork_ledger.artfiles.filter (fun f => f.artwork_id ≠ 1)
        artchunks := two_artwork_ledger.artchunks.filter (fun ch =>
          ∀ f ∈ two_artwork_ledger.artfiles, f.artwork_id = 1 → ch.file_id ≠ f.file_id) } ∧
      (∀ x ∈ s1.artworks, x.artwork_id ≠ 1) ∧
      (∀ f ∈ s1.artfiles, f.artwork_id ≠ 1) ∧
      (∀ ch ∈ s1.artchunks, ∀ f ∈ two_artwork_ledger.artfiles, f.artwork_id = 1 →
        ch.file_id ≠ f.file_id) ∧
      (∀ x ∈ two_artwork_ledger.artworks, x.artwork_id ≠ 1 → x ∈ s1.artworks) ∧
      (∀ f ∈ two_artwork_ledger.artfiles, f.artwork_id ≠ 1 → f ∈ s1.artfiles) ∧
      (∀ ch ∈ two_artwork_ledger.artchunks,
        (∀ f ∈ two_artwork_ledger.artfiles, f.artwork_id = 1 → ch.file_id ≠ f.file_id) →
        ch ∈ s1.artchunks) :=
  deleteart_cascade demo_ctx two_artwork_ledger 1 7
    ⟨1, 7, [1], [], [], List.replicate 44 0, 1704283200, 1⟩
    (by decide) (by unfold file_ids_unique; decide) rfl rfl

/-! ### Transfer effect and frame (C18) -/

theorem tfind_map {α : Type} (key : α → Nat) (t : List α) (k : Nat) (g : α → α)
    (hg : ∀ r, key (g r) = key r) : tfind key (t.map g) k = (tfind key t k).map g := by
  unfold tfind
  induction t with
  | nil => rfl
  | cons x xs ih =>
    by_cases hx : key x = k
    · simp [List.find?, hx, hg]
    · simp only [List.map_cons, List.find?, hg, hx, decide_False]
      exact ih

theorem tfind_tmodify {α : Type} (key : α → Nat) (t : List α) (k k1 : Nat) (F : α → α)
    (hF : ∀ r, key (F r) = key r) :
    tfind key (tmodify key t k1 F) k =
      (tfind key t k).map (fun r => if key r = k1 then F r else r) := by
  unfold tmodify
  apply tfind_map key
  intro r
  by_cases h : key r = k1 <;> simp [h, hF]

/-- The values written by a successful run of the `transferart` loop: the row
of the `i`-th listed id was a row of the artwork owned by the sender and ends
as that row with the recipient as owner and the `i`-th new DEK and tag. -/
theorem transfer_loop_values (a : Nat) (fr rc : Name) (hne : fr ≠ rc) :
    ∀ (ids : List Nat) (deks tags : List Bytes) (files files1 : List artfile),
      ids.length = deks.length → ids.length = tags.length →
      transfer_loop a fr rc ids deks tags files = .ok files1 →
      ∀ (i id : Nat) (dek tag : Bytes), ids[i]? = some id → deks[i]? = some dek →
        tags[i]? = some tag →
        ∃ f, tfind artfile.file_id files id = some f ∧ f.owner = fr ∧ f.artwork_id = a ∧
          tfind artfile.file_id files1 id =
            some { f with owner := rc, encrypted_dek := dek, auth_tag := tag } := by
  intro ids
  induction ids with
  | nil => intro deks tags files files1 _ _ _ i id dek tag hi; simp at hi
  | cons i0 ids ih =>
    intro deks tags files files1 hd ht h i id dek tag hi hdk htg
    cases deks with
    | nil => simp at hd
    | cons dek0 deks =>
      cases tags with
      | nil => simp at ht
      | cons tag0 tags =>
        have hd1 : ids.length = deks.length := by simpa using hd
        have ht1 : ids.length = tags.length := by simpa using ht
        rw [transfer_loop] at h
        cases hfind : tfind artfile.file_id files i0 with
        | none => simp [hfind, throw_ne_ok] at h
        | some file =>
          simp only [hfind, check_bind_ok] at h
          obtain ⟨hart, hown, hrest⟩ := h
          have hi0 : file.file_id = i0 := (tfind_some hfind).2
          -- the row of `i0` after the first step
          have hstep : tfind artfile.file_id
              (tmodify artfile.file_id files i0 (fun row =>
                { row with owner := rc, encrypted_dek := dek0, auth_tag := tag0 })) i0 =
              some { file with owner := rc, encrypted_dek := dek0, auth_tag := tag0 } :=
            tfind_tmodify_self _ hfind hi0
          -- `i0` is not listed again: its row is no longer owned by the sender
          have hnot : i0 ∉ ids := by
            intro hmem
            obtain ⟨j, hj, hjv⟩ := List.mem_iff_getElem.mp hmem
            have hjd : j < deks.length := hd1 ▸ hj
            have hjt : j < tags.length := ht1 ▸ hj
            obtain ⟨f1, hf1, ho1, -, -⟩ := ih deks tags _ files1 hd1 ht1 hrest j i0
              (deks.get ⟨j, hjd⟩) (tags.get ⟨j, hjt⟩)
              (by rw [List.getElem?_eq_getElem hj, hjv])
              (by rw [List.getElem?_eq_getElem hjd]; rfl)
              (by rw [List.getElem?_eq_getElem hjt]; rfl)
            rw [hstep] at hf1
            cases hf1
            exact hne ho1.symm
          obtain ⟨g, hmap, hfields, hout, -, -⟩ :=
            transfer_loop_ok a fr rc ids deks tags _ files1 hd1 ht1 hrest
          have hgid : ∀ r, (g r).file_id = r.file_id := fun r => by rw [hfields r]
          cases i with
          | zero =>
            simp only [List.getElem?_cons_zero, Option.some.injEq] at hi hdk htg
            subst hi hdk htg
            refine ⟨file, hfind, hown, hart, ?_⟩
            rw [hmap, tfind_map artfile.file_id _ _ g hgid, hstep, Option.map_some']
            rw [hout _ (by simpa [hi0] using hnot)]
          | succ j =>
            simp only [List.getElem?_cons_succ] at hi hdk htg
            obtain ⟨f1, hf1, ho1, ha1, hres⟩ :=
              ih deks tags _ files1 hd1 ht1 hrest j id dek tag hi hdk htg
            have hid : id ≠ i0 := by
              intro e
              exact hnot (e ▸ List.getElem?_mem hi)
            rw [tfind_tmodify artfile.file_id files id i0 (fun row =>
              { row with owner := rc, encrypted_dek := dek0, auth_tag := tag0 })
              (fun _ => rfl)] at hf1
            cases hf0 : tfind artfile.file_id files id with
            | none => rw [hf0] at hf1; cases hf1
            | some f0 =>
              rw [hf0, Option.map_some'] at hf1
              have hk : f0.file_id ≠ i0 := by rw [(tfind_some hf0).2]; exact hid
              simp only [hk, if_false, Option.some.injEq] at hf1
              subst hf1
              exact ⟨f0, rfl, ho1, ha1, hres⟩

/-- C18. Transfer effect and frame: after a successful `transferart` the
artwork's row is the old one with `owner = to`; for every index `i` the row of
`file_ids[i]` is the old one with `owner = to`, `encrypted_dek = new_deks[i]`
and `auth_tag = new_tags[i]`; every row whose id is not listed, of this
artwork or another, is unchanged; and chunks, quotas, admin keys and logs are
unchanged. -/
theorem transferart_effect_and_frame (c : Ctx) (s s1 : Ledger) (artwork_id : Nat)
    (sender recipient : Name) (file_ids : List Nat) (new_deks new_tags : List Bytes)
    (memo : Bytes)
    (h : transferart c s artwork_id sender recipient file_ids new_deks new_tags memo =
      .ok s1) :
    (∃ art, tfind artwork.artwork_id s.artworks artwork_id = some art ∧
      tfind artwork.artwork_id s1.artworks artwork_id =
        some { art with owner := recipient }) ∧
    s1.artworks = s.artworks.map (fun r =>
      if r.artwork_id = artwork_id then { r with owner := recipient } else r) ∧
    (∀ (i id : Nat) (dek tag : Bytes), file_ids[i]? = some id → new_deks[i]? = some dek →
      new_tags[i]? = some tag →
      ∃ f, tfind artfile.file_id s.artfiles id = some f ∧
        tfind artfile.file_id s1.artfiles id =
          some { f with owner := recipient, encrypted_dek := dek, auth_tag := tag }) ∧
    (∀ id, id ∉ file_ids →
      tfind artfile.file_id s1.artfiles id = tfind artfile.file_id s.artfiles id) ∧
    (∀ f ∈ s.artfiles, f.file_id ∉ file_ids → f ∈ s1.artfiles) ∧
    s1.artfiles.length = s.artfiles.length ∧
    s1.artchunks = s.artchunks ∧ s1.quotas = s.quotas ∧ s1.adminkeys = s.adminkeys ∧
    s1.logs = s.logs := by
  obtain ⟨-, hne, hl1, hl2, art, files, hart, -, hloop, rfl⟩ := transferart_ok.mp h
  obtain ⟨g, hmap, hfields, hout, -, -⟩ :=
    transfer_loop_ok artwork_id sender recipient file_ids new_deks new_tags _ _ hl1 hl2 hloop
  have hgid : ∀ r, (g r).file_id = r.file_id := fun r => by rw [hfields r]
  refine ⟨⟨art, hart, tfind_tmodify_self _ hart (tfind_some hart).2⟩, rfl, ?_, ?_, ?_, ?_,
    rfl, rfl, rfl, rfl⟩
  · intro i id dek tag hi hdk htg
    obtain ⟨f, hf, -, -, hres⟩ := transfer_loop_values artwork_id sender recipient hne
      file_ids new_deks new_tags _ _ hl1 hl2 hloop i id dek tag hi hdk htg
    exact ⟨f, hf, hres⟩
  · intro id hid
    show tfind artfile.file_id files id = _
    rw [hmap, tfind_map artfile.file_id _ _ g hgid]
    cases hf : tfind artfile.file_id s.artfiles id with
    | none => rfl
    | some f =>
      rw [Option.map_some', hout f (by rw [(tfind_some hf).2]; exact hid)]
  · intro f hf hid
    show f ∈ files
    rw [hmap]
    exact List.mem_map.mpr ⟨f, hf, hout f hid⟩
  · show files.length = _
    rw [hmap, List.length_map]

/-- C18 on `two_file_ledger`: artwork 1 goes from account 7 to account 8 with
only file 1 listed; file 1 takes the new owner, DEK and tag, and file 2 is
unchanged. -/
theorem transferart_effect_and_frame_witness :
    transferart demo_ctx two_file_ledger 1 7 8 [1] [[2]] [[3]] [] =
      .ok partial_transfer_ledger ∧
    (∃ f, tfind artfile.file_id two_file_ledger.artfiles 1 = some f ∧
      tfind artfile.file_id partial_transfer_ledger.artfiles 1 =
        some { f with owner := 8, encrypted_dek := [2], auth_tag := [3] }) ∧
    tfind artfile.file_id partial_transfer_ledger.artfiles 2 =
      tfind artfile.file_id two_file_ledger.artfiles 2 :=
  have h : transferart demo_ctx two_file_ledger 1 7 8 [1] [[2]] [[3]] [] =
      .ok partial_transfer_ledger := rfl
  ⟨h,
    (transferart_effect_and_frame demo_ctx two_file_ledger partial_transfer_ledger 1 7 8 [1]
      [[2]] [[3]] [] h).2.2.1 0 1 [2] [3] rfl rfl rfl,
    (transferart_effect_and_frame demo_ctx two_file_ledger partial_transfer_ledger 1 7 8 [1]
      [[2]] [[3]] [] h).2.2.2.1 2 (by decide)⟩

/-! ### Complete is terminal (C13) -/

theorem tfind_append_of_some {α : Type} {key : α → Nat} {t : List α} (l : List α) {k : Nat}
    {r : α} (h : tfind key t k = some r) : tfind key (t ++ l) k = some r := by
  unfold tfind at *
  rw [List.find?_append, h]
  rfl

/-- Lookup after a filter that looks at the primary key only. -/
theorem tfind_filter_key {α : Type} (key : α → Nat) (t : List α) (k : Nat) (q : Nat → Bool) :
    tfind key (t.filter (fun r => q (key r))) k = if q k = true then tfind key t k else none := by
  unfold tfind
  induction t with
  | nil => simp
  | cons x xs ih =>
    by_cases hx : key x = k
    · by_cases hq : q k = true
      · simp [List.filter, List.find?, hx, hq]
      · have hq1 : q k = false := by simpa using hq
        simp only [List.filter, hx, hq1, hq, if_false] at ih ⊢
        exact ih
    · by_cases hqx : q (key x) = true
      · simp only [List.filter, hqx, List.find?, hx, decide_False]
        exact ih
      · have hqx1 : q (key x) = false := by simpa using hqx
        simp only [List.filter, hqx1, List.find?, hx, decide_False]
        exact ih

theorem tfind_terase {α : Type} (key : α → Nat) (t : List α) (k k1 : Nat) :
    tfind key (terase key t k1) k = if k ≠ k1 then tfind key t k else none := by
  unfold terase
  have := tfind_filter_key key t k (fun x => decide (x ≠ k1))
  simpa using this

/-- A completed file that is still stored after a successful action is still
completed, with the same chunk counters. -/
theorem dispatch_keeps_completed {c : Ctx} {s s1 : Ledger} {a : Action} {file_id : Nat}
    {f f1 : artfile} (hf : tfind artfile.file_id s.artfiles file_id = some f)
    (hc : f.upload_complete = true) (hd : dispatch c s a = .ok s1)
    (hf1 : tfind artfile.file_id s1.artfiles file_id = some f1) :
    f1.upload_complete = true ∧ f1.uploaded_chunks = f.uploaded_chunks ∧
    f1.total_chunks = f.total_chunks := by
  have same : ∀ t, t = s.artfiles → tfind artfile.file_id t file_id = some f1 →
      f1.upload_complete = true ∧ f1.uploaded_chunks = f.uploaded_chunks ∧
      f1.total_chunks = f.total_chunks := by
    intro t ht h1
    rw [ht, hf] at h1
    cases h1
    exact ⟨hc, rfl, rfl⟩
  cases a with
  | createart a o t d m k =>
    obtain ⟨-, rfl⟩ := createart_ok.mp hd; exact same _ rfl hf1
  | updateart a o d m =>
    obtain ⟨-, -, -, -, art, -, -, rfl⟩ := updateart_ok.mp hd; exact same _ rfl hf1
  | addfile fid a o fn mt sz hh dek adeks iv tag th =>
    obtain ⟨-, -, s0, art, hq, -, -, -, -, rfl⟩ := addfile_ok.mp hd
    have hF : s0.artfiles = s.artfiles := by rw [check_and_update_quota_frame hq]
    have h2 : tfind artfile.file_id
        (s0.artfiles ++ [new_file c fid a o fn mt sz hh dek adeks iv tag th]) file_id =
        some f := tfind_append_of_some _ (by rw [hF]; exact hf)
    have h3 : some f = some f1 := h2.symm.trans hf1
    cases h3
    exact ⟨hc, rfl, rfl⟩
  | uploadchunk ch k o i data sz =>
    obtain ⟨-, -, -, -, -, -, file, hfile, -, hinc, -, -, rfl⟩ := uploadchunk_ok.mp hd
    have h2 := tfind_tmodify artfile.file_id s.artfiles file_id k
      (fun row => { row with uploaded_chunks := u32 (row.uploaded_chunks + 1) })
      (fun _ => rfl)
    rw [hf, Option.map_some'] at h2
    have h3 := h2.symm.trans hf1
    by_cases hk : f.file_id = k
    · have : file_id = k := (tfind_some hf).2.symm.trans hk
      subst this
      rw [hf] at hfile; cases hfile
      rw [hc] at hinc; cases hinc
    · simp only [hk, if_false, Option.some.injEq] at h3
      subst h3
      exact ⟨hc, rfl, rfl⟩
  | completefile k o n =>
    obtain ⟨-, -, -, file, hfile, -, hinc, -, rfl⟩ := completefile_ok.mp hd
    have h2 := tfind_tmodify artfile.file_id s.artfiles file_id k
      (fun row => { row with total_chunks := n, upload_complete := true, completed_at := c.now })
      (fun _ => rfl)
    rw [hf, Option.map_some'] at h2
    have h3 := h2.symm.trans hf1
    by_cases hk : f.file_id = k
    · have : file_id = k := (tfind_some hf).2.symm.trans hk
      subst this
      rw [hf] at hfile; cases hfile
      rw [hc] at hinc; cases hinc
    · simp only [hk, if_false, Option.some.injEq] at h3
      subst h3
      exact ⟨hc, rfl, rfl⟩
  | setquota acc t dfl dsl wfl wsl =>
    obtain ⟨-, ⟨-, rfl⟩ | ⟨-, rfl⟩⟩ := setquota_ok.mp hd <;> exact same _ rfl hf1
  | addadminkey acc pk d =>
    obtain ⟨-, -, -, -, -, rfl⟩ := addadminkey_ok.mp hd; exact same _ rfl hf1
  | rmadminkey k =>
    obtain ⟨-, -, rfl⟩ := rmadminkey_ok.mp hd; exact same _ rfl hf1
  | addadmindek k d =>
    obtain ⟨-, -, -, file, -, -, rfl⟩ := addadmindek_ok.mp hd
    have h2 := tfind_tmodify artfile.file_id s.artfiles file_id k
      (fun row => { row with admin_encrypted_deks := row.admin_encrypted_deks ++ [d] })
      (fun _ => rfl)
    rw [hf, Option.map_some'] at h2
    have h3 := h2.symm.trans hf1
    by_cases hk : f.file_id = k
    · simp only [hk, if_true, Option.some.injEq] at h3
      subst h3
      exact ⟨hc, rfl, rfl⟩
    · simp only [hk, if_false, Option.some.injEq] at h3
      subst h3
      exact ⟨hc, rfl, rfl⟩
  | logaccess acc k r =>
    obtain ⟨-, -, -, -, -, -, rfl⟩ := logaccess_ok.mp hd; exact same _ rfl hf1
  | deleteart a o =>
    obtain ⟨-, art, -, -, rfl⟩ := deleteart_ok.mp hd
    simp only [deleteart_loop_eq] at hf1
    have h2 := tfind_filter_key artfile.file_id s.artfiles file_id
      (fun x => decide (x ∉ (s.artfiles.filter (fun g => g.artwork_id = a)).map artfile.file_id))
    rw [h2] at hf1
    split at hf1
    · exact same _ rfl hf1
    · cases hf1
  | deletefile k a o =>
    obtain ⟨-, -, -, art, file, -, -, -, -, -, rfl⟩ := deletefile_ok.mp hd
    have h2 := tfind_terase artfile.file_id s.artfiles file_id k
    simp only at hf1
    rw [h2] at hf1
    split at hf1
    · exact same _ rfl hf1
    · cases hf1
  | transferart a fr rc ids deks tags memo =>
    have hd1 : transferart c s a fr rc ids deks tags memo = .ok s1 := hd
    obtain ⟨-, -, hl1, hl2, art, files, -, -, hloop, rfl⟩ := transferart_ok.mp hd1
    obtain ⟨g, hmap, hfields, -, -, -⟩ := transfer_loop_ok a fr rc ids deks tags _ _ hl1 hl2 hloop
    have hgid : ∀ r, (g r).file_id = r.file_id := fun r => by rw [hfields r]
    have h2 : tfind artfile.file_id files file_id = some (g f) := by
      rw [hmap, tfind_map artfile.file_id _ _ g hgid, hf]; rfl
    have h3 : some (g f) = some f1 := h2.symm.trans hf1
    cases h3
    rw [hfields f]
    exact ⟨hc, rfl, rfl⟩

/-- Every successful action keeps completed files consistent, when file ids
are pairwise distinct. -/
theorem dispatch_completed_consistent {c : Ctx} {s s1 : Ledger} {a : Action}
    (hu : file_ids_unique s) (h : completed_consistent s) (hd : dispatch c s a = .ok s1) :
    completed_consistent s1 := by
  have sub : ∀ t : List artfile, (∀ g ∈ t, g ∈ s.artfiles) →
      ∀ g ∈ t, g.upload_complete = true → g.uploaded_chunks = g.total_chunks :=
    fun t ht g hg => h g (ht g hg)
  cases a with
  | createart a o t d m k =>
    obtain ⟨-, rfl⟩ := createart_ok.mp hd; exact h
  | updateart a o d m =>
    obtain ⟨-, -, -, -, art, -, -, rfl⟩ := updateart_ok.mp hd; exact h
  | addfile fid a o fn mt sz hh dek adeks iv tag th =>
    obtain ⟨-, -, s0, art, hq, -, -, -, -, rfl⟩ := addfile_ok.mp hd
    have hF : s0.artfiles = s.artfiles := by rw [check_and_update_quota_frame hq]
    intro g hg hgc
    rcases List.mem_append.mp hg with h1 | h1
    · rw [hF] at h1; exact h g h1 hgc
    · rw [List.mem_singleton.mp h1] at hgc
      cases hgc
  | uploadchunk ch k o i data sz =>
    obtain ⟨-, -, -, -, -, -, file, hfile, -, hinc, -, -, rfl⟩ := uploadchunk_ok.mp hd
    intro g hg hgc
    obtain ⟨r, hr, e⟩ := mem_tmodify.mp hg
    by_cases hk : r.file_id = k
    · have hrf : r = file :=
        List.inj_on_of_nodup_map hu hr (tfind_some hfile).1 (hk.trans (tfind_some hfile).2.symm)
      simp only [hk, if_true] at e
      rw [e, hrf] at hgc
      rw [hinc] at hgc
      cases hgc
    · simp only [hk, if_false] at e
      rw [e] at hgc ⊢
      exact h r hr hgc
  | completefile k o n =>
    obtain ⟨-, -, -, file, hfile, -, -, hcount, rfl⟩ := completefile_ok.mp hd
    intro g hg hgc
    obtain ⟨r, hr, e⟩ := mem_tmodify.mp hg
    by_cases hk : r.file_id = k
    · have hrf : r = file :=
        List.inj_on_of_nodup_map hu hr (tfind_some hfile).1 (hk.trans (tfind_some hfile).2.symm)
      simp only [hk, if_true] at e
      rw [e, hrf]
      exact hcount
    · simp only [hk, if_false] at e
      rw [e] at hgc ⊢
      exact h r hr hgc
  | setquota acc t dfl dsl wfl wsl =>
    obtain ⟨-, ⟨-, rfl⟩ | ⟨-, rfl⟩⟩ := setquota_ok.mp hd <;> exact h
  | addadminkey acc pk d =>
    obtain ⟨-, -, -, -, -, rfl⟩ := addadminkey_ok.mp hd; exact h
  | rmadminkey k =>
    obtain ⟨-, -, rfl⟩ := rmadminkey_ok.mp hd; exact h
  | addadmindek k d =>
    obtain ⟨-, -, -, file, -, -, rfl⟩ := addadmindek_ok.mp hd
    intro g hg hgc
    obtain ⟨r, hr, e⟩ := mem_tmodify.mp hg
    by_cases hk : r.file_id = k
    · simp only [hk, if_true] at e
      rw [e] at hgc ⊢
      exact h r hr hgc
    · simp only [hk, if_false] at e
      rw [e] at hgc ⊢
      exact h r hr hgc
  | logaccess acc k r =>
    obtain ⟨-, -, -, -, -, -, rfl⟩ := logaccess_ok.mp hd; exact h
  | deleteart a o =>
    obtain ⟨-, art, -, -, rfl⟩ := deleteart_ok.mp hd
    refine sub _ (fun g hg => ?_)
    simp only [deleteart_loop_eq] at hg
    exact (List.mem_filter.mp hg).1
  | deletefile k a o =>
    obtain ⟨-, -, -, art, file, -, -, -, -, -, rfl⟩ := deletefile_ok.mp hd
    exact sub _ (fun g hg => (mem_terase.mp hg).1)
  | transferart a fr rc ids deks tags memo =>
    have hd1 : transferart c s a fr rc ids deks tags memo = .ok s1 := hd
    obtain ⟨-, -, hl1, hl2, art, files, -, -, hloop, rfl⟩ := transferart_ok.mp hd1
    obtain ⟨g, hmap, hfields, -, -, -⟩ := transfer_loop_ok a fr rc ids deks tags _ _ hl1 hl2 hloop
    intro g1 hg1 hgc
    simp only [hmap, List.mem_map] at hg1
    obtain ⟨r, hr, rfl⟩ := hg1
    rw [hfields r] at hgc ⊢
    exact h r hr hgc

/-- C13. Complete is terminal: for a stored file `f` with
`upload_complete = true`, no `uploadchunk` and no `completefile` call
targeting it succeeds, whoever makes it and whatever its arguments; a call
with valid arguments for the file's owner, authorised by the owner or the
contract account, fails with the already-complete error of its action; every
successful action after which the file is still stored leaves it with
`upload_complete = true` and the same `uploaded_chunks` and `total_chunks`;
and in every reachable state a completed file has
`uploaded_chunks = total_chunks`. -/
theorem complete_is_terminal (s : Ledger) (file_id : Nat) (f : artfile)
    (hf : tfind artfile.file_id s.artfiles file_id = some f)
    (hc : f.upload_complete = true) :
    (∀ (c : Ctx) (chunk_id : Nat) (o : Name) (chunk_index : Nat) (data : Bytes)
      (chunk_size : Nat) (s1 : Ledger),
      uploadchunk c s chunk_id file_id o chunk_index data chunk_size ≠ .ok s1) ∧
    (∀ (c : Ctx) (o : Name) (total_chunks : Nat) (s1 : Ledger),
      completefile c s file_id o total_chunks ≠ .ok s1) ∧
    (∀ (c : Ctx) (chunk_id chunk_index : Nat) (data : Bytes) (chunk_size : Nat),
      (c.has_auth f.owner ∨ c.has_auth c.self) → chunk_id > 0 → file_id > 0 →
      data.length > 0 → data.length ≤ 350000 → chunk_size > 0 → chunk_size ≤ 262144 →
      uploadchunk c s chunk_id file_id f.owner chunk_index data chunk_size =
        .error .upload_already_complete) ∧
    (∀ (c : Ctx) (total_chunks : Nat),
      (c.has_auth f.owner ∨ c.has_auth c.self) → file_id > 0 → total_chunks > 0 →
      completefile c s file_id f.owner total_chunks = .error .already_marked_complete) ∧
    (∀ (c : Ctx) (a : Action) (s1 : Ledger) (f1 : artfile), dispatch c s a = .ok s1 →
      tfind artfile.file_id s1.artfiles file_id = some f1 →
      f1.upload_complete = true ∧ f1.uploaded_chunks = f.uploaded_chunks ∧
      f1.total_chunks = f.total_chunks) ∧
    (∀ r : Ledger, Reachable r → completed_consistent r) := by
  refine ⟨?_, ?_, ?_, ?_, ?_, ?_⟩
  · intro c chunk_id o chunk_index data chunk_size s1 h1
    obtain ⟨-, -, -, -, -, -, file, hfile, -, hinc, -⟩ := uploadchunk_ok.mp h1
    rw [hf] at hfile; cases hfile
    rw [hc] at hinc; cases hinc
  · intro c o total_chunks s1 h1
    obtain ⟨-, -, -, file, hfile, -, hinc, -⟩ := completefile_ok.mp h1
    rw [hf] at hfile; cases hfile
    rw [hc] at hinc; cases hinc
  · intro c chunk_id chunk_index data chunk_size hauth h1 h2 h3 h4 h5 h6
    unfold uploadchunk
    simp only [check, hauth, h1, h2, h3, h4, h5, h6, hf, hc, if_true, if_false, bind,
      Except.bind, and_self, not_true_eq_false, gt_iff_lt]
  · intro c total_chunks hauth h1 h2
    unfold completefile
    simp only [check, hauth, h1, h2, hf, hc, if_true, if_false, bind, Except.bind,
      not_true_eq_false, gt_iff_lt]
  · intro c a s1 f1 hd hf1
    exact dispatch_keeps_completed hf hc hd hf1
  · intro r hr
    unfold Reachable at hr
    induction hr with
    | init => intro g hg; cases hg
    | next c a hs _ hd ih =>
      exact dispatch_completed_consistent (reachableBy_file_ids_unique hs) ih hd

/-- C13 on `completed_ledger`, reached by `two_chunk_trace` followed by
`completefile(1, 7, 2)`: a third chunk and a second completion are refused. -/
theorem complete_is_terminal_witness :
    uploadchunk demo_ctx completed_ledger 3 1 7 2 [1] 1 = .error .upload_already_complete ∧
    completefile demo_ctx completed_ledger 1 7 2 = .error .already_marked_complete ∧
    completed_consistent completed_ledger :=
  have hrun : run Ledger.empty (two_chunk_trace ++ [(demo_ctx, .completefile 1 7 2)]) =
      .ok completed_ledger := rfl
  have h := complete_is_terminal completed_ledger 1
    { new_file demo_ctx 1 1 7 [1] [1] 1000 0 [1] [] [1] [1] false with
      uploaded_chunks := 2, total_chunks := 2, upload_complete := true,
      completed_at := 1704283200 } rfl rfl
  ⟨h.2.2.1 demo_ctx 3 2 [1] 1 (Or.inl (by decide)) (by decide) (by decide) (by decide)
      (by decide) (by decide) (by decide),
    h.2.2.2.1 demo_ctx 2 (Or.inl (by decide)) (by decide) (by decide),
    h.2.2.2.2.2 completed_ledger (reachable_of_run ReachableBy.init hrun)⟩

/-! ### Chunk-index uniqueness (C14) -/

/-- For 64-bit operands the composite key is `2^64 * file_id + chunk_index`. -/
theorem by_file_index_eq (ch : artchunk) (hf : ch.file_id < 2 ^ 64)
    (hi : ch.chunk_index < 2 ^ 64) :
    ch.by_file_index = 2 ^ 64 * ch.file_id + ch.chunk_index := by
  unfold artchunk.by_file_index
  have h1 : ch.file_id <<< 64 = 2 ^ 64 * ch.file_id := by
    rw [Nat.shiftLeft_eq, Nat.mul_comm]
  have h2 : 2 ^ 64 * ch.file_id < 2 ^ 128 := by
    have : (2 : Nat) ^ 128 = 2 ^ 64 * 2 ^ 64 := by norm_num
    rw [this]
    exact Nat.mul_lt_mul_of_pos_left hf (by norm_num)
  rw [h1, Nat.mod_eq_of_lt h2]
  exact (Nat.mul_add_lt_is_or hi ch.file_id).symm

/-- Every successful action keeps chunk positions pairwise distinct. -/
theorem dispatch_chunk_positions_unique {c : Ctx} {s s1 : Ledger} {a : Action}
    (h : chunk_positions_unique s) (hd : dispatch c s a = .ok s1) :
    chunk_positions_unique s1 := by
  unfold chunk_positions_unique at *
  cases a with
  | createart a o t d m k =>
    obtain ⟨-, rfl⟩ := createart_ok.mp hd; exact h
  | updateart a o d m =>
    obtain ⟨-, -, -, -, art, -, -, rfl⟩ := updateart_ok.mp hd; exact h
  | addfile fid a o fn mt sz hh dek adeks iv tag th =>
    obtain ⟨-, -, s0, art, hq, -, -, -, -, rfl⟩ := addfile_ok.mp hd
    have hC : s0.artchunks = s.artchunks := by rw [check_and_update_quota_frame hq]
    simp only [hC]; exact h
  | uploadchunk ch k o i data sz =>
    obtain ⟨-, -, -, -, -, -, file, -, -, -, -, hidx, rfl⟩ := uploadchunk_ok.mp hd
    simp only [List.map_append, List.map_cons, List.map_nil]
    refine List.Nodup.append h (List.nodup_singleton _) ?_
    intro x hx hy
    simp only [List.mem_singleton] at hy
    obtain ⟨r, hr, hrx⟩ := List.mem_map.mp hx
    rw [hy] at hrx
    simp only [Prod.mk.injEq] at hrx
    have hkey : r.by_file_index = ((k <<< 64) % 2 ^ 128) ||| i := by
      unfold artchunk.by_file_index
      rw [hrx.1, hrx.2]
    have := List.find?_eq_none.mp hidx r hr
    simp [hkey] at this
  | completefile k o n =>
    obtain ⟨-, -, -, file, -, -, -, -, rfl⟩ := completefile_ok.mp hd; exact h
  | setquota acc t dfl dsl wfl wsl =>
    obtain ⟨-, ⟨-, rfl⟩ | ⟨-, rfl⟩⟩ := setquota_ok.mp hd <;> exact h
  | addadminkey acc pk d =>
    obtain ⟨-, -, -, -, -, rfl⟩ := addadminkey_ok.mp hd; exact h
  | rmadminkey k =>
    obtain ⟨-, -, rfl⟩ := rmadminkey_ok.mp hd; exact h
  | addadmindek k d =>
    obtain ⟨-, -, -, file, -, -, rfl⟩ := addadmindek_ok.mp hd; exact h
  | logaccess acc k r =>
    obtain ⟨-, -, -, -, -, -, rfl⟩ := logaccess_ok.mp hd; exact h
  | deleteart a o =>
    obtain ⟨-, art, -, -, rfl⟩ := deleteart_ok.mp hd
    simp only [deleteart_loop_eq]
    exact h.sublist ((List.filter_sublist _).map _)
  | deletefile k a o =>
    obtain ⟨-, -, -, art, file, -, -, -, -, -, rfl⟩ := deletefile_ok.mp hd
    exact h.sublist ((List.filter_sublist _).map _)
  | transferart a fr rc ids deks tags memo =>
    have hd1 : transferart c s a fr rc ids deks tags memo = .ok s1 := hd
    obtain ⟨-, -, -, -, art, files, -, -, -, rfl⟩ := transferart_ok.mp hd1
    exact h

/-- C14. Chunk-index uniqueness: in a state that stores a chunk at
`(file_id, chunk_index) = (f, i)`, no `uploadchunk` call for the same `f` and
`i` succeeds, whatever `chunk_id` it carries; a call with valid arguments for
an existing file of the named owner fails with one of the `Conflict` errors,
and with the chunk-index error when the file is incomplete and the `chunk_id`
is new; in every reachable state the `(file_id, chunk_index)` pairs of the
chunks are pairwise distinct; and for 64-bit operands the composite key
determines the pair. -/
theorem chunk_index_unique (s : Ledger) (f i : Nat) (ch0 : artchunk)
    (hch : ch0 ∈ s.artchunks) (hf0 : ch0.file_id = f) (hi0 : ch0.chunk_index = i) :
    (∀ (c : Ctx) (chunk_id : Nat) (o : Name) (data : Bytes) (chunk_size : Nat) (s1 : Ledger),
      uploadchunk c s chunk_id f o i data chunk_size ≠ .ok s1) ∧
    (∀ (c : Ctx) (chunk_id : Nat) (o : Name) (data : Bytes) (chunk_size : Nat) (file : artfile),
      (c.has_auth o ∨ c.has_auth c.self) → chunk_id > 0 → f > 0 →
      data.length > 0 → data.length ≤ 350000 → chunk_size > 0 → chunk_size ≤ 262144 →
      tfind artfile.file_id s.artfiles f = some file → file.owner = o →
      (∃ e ∈ upload_conflict_errors,
        uploadchunk c s chunk_id f o i data chunk_size = .error e) ∧
      (file.upload_complete = false →
        tfind artchunk.chunk_id s.artchunks chunk_id = none →
        uploadchunk c s chunk_id f o i data chunk_size = .error .chunk_index_exists)) ∧
    (∀ r : Ledger, Reachable r → chunk_positions_unique r) ∧
    (∀ c1 c2 : artchunk, c1.file_id < 2 ^ 64 → c1.chunk_index < 2 ^ 64 →
      c2.file_id < 2 ^ 64 → c2.chunk_index < 2 ^ 64 →
      c1.by_file_index = c2.by_file_index →
      c1.file_id = c2.file_id ∧ c1.chunk_index = c2.chunk_index) := by
  have hkey : ch0.by_file_index = ((f <<< 64) % 2 ^ 128) ||| i := by
    unfold artchunk.by_file_index
    rw [hf0, hi0]
  have hfound : ¬ (s.artchunks.find?
      (fun r => r.by_file_index = ((f <<< 64) % 2 ^ 128) ||| i)) = none := by
    intro hnone
    have := List.find?_eq_none.mp hnone ch0 hch
    simp [hkey] at this
  refine ⟨?_, ?_, ?_, ?_⟩
  · intro c chunk_id o data chunk_size s1 h1
    obtain ⟨-, -, -, -, -, -, file, -, -, -, -, hidx, -⟩ := uploadchunk_ok.mp h1
    exact hfound hidx
  · intro c chunk_id o data chunk_size file hauth h1 h2 h3 h4 h5 h6 hfile hown
    have hlast : file.upload_complete = false →
        tfind artchunk.chunk_id s.artchunks chunk_id = none →
        uploadchunk c s chunk_id f o i data chunk_size = .error .chunk_index_exists := by
      intro hinc hnew
      have hsome : (s.artchunks.find?
          (fun r => r.by_file_index = ((f <<< 64) % 2 ^ 128) ||| i)).isNone = false := by
        cases hx : s.artchunks.find?
            (fun r => r.by_file_index = ((f <<< 64) % 2 ^ 128) ||| i) with
        | none => exact absurd hx hfound
        | some _ => rfl
      unfold uploadchunk
      simp only [check, hauth, h1, h2, h3, h4, h5, h6, hfile, hown, hinc, hnew, hsome, if_true,
        if_false, bind, Except.bind, and_self, Bool.false_eq_true, not_false_eq_true,
        Option.isNone_none, gt_iff_lt]
    refine ⟨?_, hlast⟩
    by_cases hinc : file.upload_complete = false
    · cases hnew : tfind artchunk.chunk_id s.artchunks chunk_id with
      | none => exact ⟨_, by simp [upload_conflict_errors], hlast hinc hnew⟩
      | some x =>
        refine ⟨.chunk_id_exists, by simp [upload_conflict_errors], ?_⟩
        unfold uploadchunk
        simp only [check, hauth, h1, h2, h3, h4, h5, h6, hfile, hown, hinc, hnew, if_true,
          if_false, bind, Except.bind, and_self, Bool.false_eq_true, not_false_eq_true,
          Option.isNone_some, gt_iff_lt]
    · have hcomp : file.upload_complete = true := by simpa using hinc
      refine ⟨.upload_already_complete, by simp [upload_conflict_errors], ?_⟩
      unfold uploadchunk
      simp only [check, hauth, h1, h2, h3, h4, h5, h6, hfile, hown, hcomp, if_true,
        if_false, bind, Except.bind, and_self, not_true_eq_false, gt_iff_lt]
  · intro r hr
    unfold Reachable at hr
    induction hr with
    | init => exact List.nodup_nil
    | next c a _ _ hd ih => exact dispatch_chunk_positions_unique ih hd
  · intro c1 c2 hf1 hi1 hf2 hi2 hk
    rw [by_file_index_eq c1 hf1 hi1, by_file_index_eq c2 hf2 hi2] at hk
    norm_num at hf1 hi1 hf2 hi2 hk
    omega

/-- C14 on `two_chunk_ledger`: index 0 of file 1 is taken by chunk 1, and an
upload of a new chunk 5 at the same position is refused. -/
theorem chunk_index_unique_witness :
    uploadchunk demo_ctx two_chunk_ledger 5 1 7 0 [1] 1 = .error .chunk_index_exists ∧
    chunk_positions_unique two_chunk_ledger :=
  have h := chunk_index_unique two_chunk_ledger 1 0 ⟨1, 1, 7, 0, [1], 1, 1704283200⟩
    (by decide) rfl rfl
  ⟨(h.2.1 demo_ctx 5 7 [1] 1
      { new_file demo_ctx 1 1 7 [1] [1] 1000 0 [1] [] [1] [1] false with uploaded_chunks := 2 }
      (Or.inl (by decide)) (by decide) (by decide) (by decide) (by decide) (by decide)
      (by decide) rfl rfl).2 rfl rfl,
    h.2.2.1 two_chunk_ledger
      (reachable_of_run ReachableBy.init (show run Ledger.empty two_chunk_trace = _ from rfl))⟩

/-! ### The `file_count` invariant (C15) -/

theorem bulk_files_ids (n : Nat) : ∀ r ∈ bulk_files n, r.file_id ≤ n ∧ r.artwork_id = 1 := by
  induction n with
  | zero => intro r hr; cases hr
  | succ n ih =>
    intro r hr
    rw [bulk_files] at hr
    rcases List.mem_append.mp hr with h | h
    · exact ⟨Nat.le_succ_of_le (ih r h).1, (ih r h).2⟩
    · rw [List.mem_singleton.mp h]
      exact ⟨Nat.le_refl _, rfl⟩

theorem bulk_files_fresh (n k : Nat) (h : n < k) :
    tfind artfile.file_id (bulk_files n) k = none := by
  rw [tfind_none]
  intro r hr e
  have := (bulk_files_ids n r hr).1
  omega

theorem bulk_files_count (n : Nat) :
    (bulk_files n).countP (fun f => f.artwork_id = 1) = n := by
  rw [List.countP_eq_length.mpr, ]
  · induction n with
    | zero => rfl
    | succ n ih => rw [bulk_files, List.length_append, ih]; rfl
  · intro r hr
    simpa using (bulk_files_ids n r hr).2

/-- One more file on the same day, below the 32-bit limits. -/
theorem bulk_ledger_step (n : Nat) (h : n < 4294967295) :
    dispatch demo_ctx (bulk_ledger n)
      (.addfile (n + 1) 1 7 [1] [1] 1 0 [1] [] [1] [1] false) = .ok (bulk_ledger (n + 1)) := by
  have hq : check_and_update_quota demo_ctx (bulk_ledger n) 7 1 =
      .ok { bulk_ledger n with quotas := [bulk_quota (n + 1)] } := by
    rw [check_and_update_quota_ok]
    right
    refine ⟨bulk_quota n, bulk_quota (n + 1), rfl, ?_, rfl⟩
    exact quota_update_within demo_ctx.now 1 (bulk_quota n)
      (show 1704283200 < 1704326400 by decide) (show 1704283200 < 1704585600 by decide)
      (show (4294967295 < 2 ^ 32 ∧ 1099511627776 < 2 ^ 64 ∧ 4294967295 < 2 ^ 32 ∧
        1099511627776 < 2 ^ 64) by decide)
      (show (n < 4294967295 ∧ n + 1 ≤ 1099511627776 ∧ n < 4294967295 ∧
        n + 1 ≤ 1099511627776) by omega)
  show addfile demo_ctx (bulk_ledger n) (n + 1) 1 7 [1] [1] 1 0 [1] [] [1] [1] false = _
  rw [addfile_ok]
  refine ⟨by decide, ⟨Nat.succ_pos n, by decide, by decide, by decide, by decide, by decide,
    by decide, by decide, by decide, by decide⟩, _, _, hq, rfl, rfl,
    bulk_files_fresh n (n + 1) (Nat.lt_succ_self n), rfl, ?_⟩
  have hu : u32 (n + 1) = n + 1 := u32_of_lt (by norm_num; omega)
  simp [bulk_ledger, bulk_files, tmodify, hu]

/-- Every `bulk_ledger n` with `n < 2^32` is reachable. -/
theorem bulk_ledger_reachable (n : Nat) (h : n ≤ 4294967295) : Reachable (bulk_ledger n) := by
  induction n with
  | zero =>
    exact reachable_of_run ReachableBy.init
      (show run Ledger.empty
        [(⟨1, [1], 1704283200⟩, .setquota 7 1 4294967295 1099511627776 4294967295 1099511627776),
         (demo_ctx, .createart 1 7 [1] [] [] (List.replicate 44 0))] = .ok (bulk_ledger 0)
        from rfl)
  | succ n ih =>
    exact ReachableBy.next demo_ctx _ (ih (by omega)) trivial (bulk_ledger_step n (by omega))

/-- File `2^32` of artwork 1, added after both quota windows have ended. -/
theorem bulk_ledger_wrap :
    dispatch later_ctx (bulk_ledger 4294967295)
      (.addfile 4294967296 1 7 [1] [1] 1 0 [1] [] [1] [1] false) = .ok wrapped_ledger := by
  have hq : check_and_update_quota later_ctx (bulk_ledger 4294967295) 7 1 =
      .ok { bulk_ledger 4294967295 with quotas := wrapped_ledger.quotas } := by
    rw [check_and_update_quota_ok]
    right
    exact ⟨bulk_quota 4294967295, _, rfl, (rfl : quota_update 1704974400 1
      (bulk_quota 4294967295) = .ok { bulk_quota 1 with
        daily_reset_at := 1705017600
        weekly_reset_at := calculate_next_monday 1704974400 }), rfl⟩
  show addfile later_ctx (bulk_ledger 4294967295) 4294967296 1 7 [1] [1] 1 0 [1] [] [1] [1]
    false = _
  rw [addfile_ok]
  exact ⟨by decide, ⟨by decide, by decide, by decide, by decide, by decide, by decide,
    by decide, by decide, by decide, by decide⟩, _, _, hq, rfl, rfl,
    bulk_files_fresh 4294967295 4294967296 (by decide), rfl, rfl⟩

/-- C15 (counterexample): `file_count` is a 32-bit counter. The ledger
`wrapped_ledger` is reachable from the empty ledger by successful actions only
(`setquota`, `createart`, then `2^32` calls `addfile`); in it artwork 1 has
`2^32` file records and `file_count = 0`. -/
theorem file_count_wraps :
    Reachable wrapped_ledger ∧
    wrapped_ledger.artworks = [⟨1, 7, [1], [], [], List.replicate 44 0, 1704283200, 0⟩] ∧
    wrapped_ledger.artfiles.countP (fun f => f.artwork_id = 1) = 4294967296 ∧
    ¬ file_count_matches wrapped_ledger := by
  have hcount : wrapped_ledger.artfiles.countP (fun f => f.artwork_id = 1) = 4294967296 := by
    show (bulk_files 4294967295 ++ _).countP _ = _
    rw [List.countP_append, bulk_files_count]
    rfl
  refine ⟨ReachableBy.next later_ctx _ (bulk_ledger_reachable 4294967295 (Nat.le_refl _)) trivial
    bulk_ledger_wrap, rfl, hcount, ?_⟩
  intro h
  have h1 := h ⟨1, 7, [1], [], [], List.replicate 44 0, 1704283200, 0⟩
    (List.mem_singleton.mpr rfl)
  rw [show (⟨1, 7, [1], [], [], List.replicate 44 0, 1704283200, 0⟩ : artwork).artwork_id = 1
    from rfl, hcount] at h1
  exact absurd h1 (by decide)

theorem count_files_map (t : List artfile) (g : artfile → artfile) (x : Nat)
    (hg : ∀ f, (g f).artwork_id = f.artwork_id) :
    (t.map g).countP (fun f => f.artwork_id = x) = t.countP (fun f => f.artwork_id = x) := by
  rw [List.countP_map]
  congr 1
  funext f
  simp [hg]

theorem count_files_tmodify (t : List artfile) (k : Nat) (F : artfile → artfile) (x : Nat)
    (hF : ∀ f, (F f).artwork_id = f.artwork_id) :
    (tmodify artfile.file_id t k F).countP (fun f => f.artwork_id = x) =
      t.countP (fun f => f.artwork_id = x) := by
  unfold tmodify
  apply count_files_map
  intro f
  by_cases h : f.file_id = k <;> simp [h, hF]

/-- Erasing a stored file by its (unique) id removes exactly that file from
the count of its artwork. -/
theorem count_files_terase (x : Nat) (file : artfile) :
    ∀ t : List artfile, (t.map artfile.file_id).Nodup → file ∈ t →
      (terase artfile.file_id t file.file_id).countP (fun f => f.artwork_id = x) +
        (if file.artwork_id = x then 1 else 0) = t.countP (fun f => f.artwork_id = x) := by
  intro t
  induction t with
  | nil => intro _ h; cases h
  | cons r rest ih =>
    intro hu hf
    rw [List.map_cons, List.nodup_cons] at hu
    obtain ⟨hr, hrest⟩ := hu
    by_cases e : r = file
    · subst e
      have hkeep : terase artfile.file_id rest r.file_id = rest := by
        unfold terase
        rw [List.filter_eq_self]
        intro y hy
        have : y.file_id ≠ r.file_id := fun e => hr (e ▸ List.mem_map_of_mem _ hy)
        simpa using this
      have : terase artfile.file_id (r :: rest) r.file_id = rest := by
        rw [← hkeep]; unfold terase; simp
      rw [this, List.countP_cons]
      simp
    · have hf1 : file ∈ rest := by
        rcases List.mem_cons.mp hf with h | h
        · exact absurd h.symm e
        · exact h
      have hne : r.file_id ≠ file.file_id := fun e1 => hr (e1 ▸ List.mem_map_of_mem _ hf1)
      have : terase artfile.file_id (r :: rest) file.file_id =
          r :: terase artfile.file_id rest file.file_id := by
        unfold terase; simp [hne]
      rw [this, List.countP_cons, List.countP_cons, ← ih hrest hf1]
      omega

/-- The `file_count` invariant is kept by every successful action on a ledger
with unique file ids and no dangling file, as long as an `addfile` does not
take an artwork past `2^32 - 1` files. -/
theorem dispatch_file_count_matches {c : Ctx} {s s1 : Ledger} {a : Action}
    (hu : file_ids_unique s) (hp : parent_artwork_exists s) (h : file_count_matches s)
    (hr : room_for_file s a) (hd : dispatch c s a = .ok s1) : file_count_matches s1 := by
  unfold file_count_matches at *
  cases a with
  | createart a o t d m k =>
    obtain ⟨⟨-, -, -, -, -, -, -, hfree⟩, rfl⟩ := createart_ok.mp hd
    intro x hx
    rcases List.mem_append.mp hx with hx | hx
    · exact h x hx
    · rw [List.mem_singleton.mp hx]
      symm
      rw [List.countP_eq_zero]
      intro f hf
      obtain ⟨y, hy, e⟩ := hp f hf
      have := tfind_none.mp hfree y hy
      simpa using fun e1 : f.artwork_id = a => this (e.trans e1)
  | updateart a o d m =>
    obtain ⟨-, -, -, -, art, -, -, rfl⟩ := updateart_ok.mp hd
    intro x hx
    obtain ⟨r, hr1, e⟩ := mem_tmodify.mp hx
    have h1 := h r hr1
    by_cases hk : r.artwork_id = a
    · rw [if_pos hk] at e; rw [e]; exact h1
    · rw [if_neg hk] at e; rw [e]; exact h1
  | addfile f a o fn mt sz hh dek adeks iv tag th =>
    obtain ⟨-, -, s0, art, hq, -, -, -, -, rfl⟩ := addfile_ok.mp hd
    have hF : s0.artfiles = s.artfiles := by rw [check_and_update_quota_frame hq]
    have hA : s0.artworks = s.artworks := by rw [check_and_update_quota_frame hq]
    simp only [hF, hA]
    intro x hx
    obtain ⟨r, hr1, e⟩ := mem_tmodify.mp hx
    have h1 := h r hr1
    rw [List.countP_append]
    by_cases hk : r.artwork_id = a
    · rw [if_pos hk] at e
      have hroom : r.file_count + 1 < 2 ^ 32 := by
        rw [h1, hk]; exact hr
      rw [e]
      show u32 (r.file_count + 1) =
        s.artfiles.countP (fun f => f.artwork_id = r.artwork_id) +
          [new_file c f a o fn mt sz hh dek adeks iv tag th].countP
            (fun f => f.artwork_id = r.artwork_id)
      rw [u32_of_lt hroom, ← h1]
      simp [new_file, hk]
    · rw [if_neg hk] at e
      rw [e, h1]
      have : ¬ a = r.artwork_id := fun e1 => hk e1.symm
      simp [new_file, this]
  | uploadchunk ch f o i data sz =>
    obtain ⟨-, -, -, -, -, -, file, -, -, -, -, -, rfl⟩ := uploadchunk_ok.mp hd
    intro x hx
    refine Eq.trans (h x hx) (Eq.symm ?_)
    exact count_files_tmodify _ _ _ _ (fun _ => rfl)
  | completefile f o n =>
    obtain ⟨-, -, -, file, -, -, -, -, rfl⟩ := completefile_ok.mp hd
    intro x hx
    refine Eq.trans (h x hx) (Eq.symm ?_)
    exact count_files_tmodify _ _ _ _ (fun _ => rfl)
  | setquota acc t dfl dsl wfl wsl =>
    obtain ⟨-, ⟨-, rfl⟩ | ⟨-, rfl⟩⟩ := setquota_ok.mp hd <;> exact h
  | addadminkey acc pk d =>
    obtain ⟨-, -, -, -, -, rfl⟩ := addadminkey_ok.mp hd; exact h
  | rmadminkey k =>
    obtain ⟨-, -, rfl⟩ := rmadminkey_ok.mp hd; exact h
  | logaccess acc f r =>
    obtain ⟨-, -, -, -, -, -, rfl⟩ := logaccess_ok.mp hd; exact h
  | deletefile f a o =>
    obtain ⟨-, -, -, art, file, -, -, hfile, hfa, -, rfl⟩ := deletefile_ok.mp hd
    obtain ⟨hmem, hid⟩ := tfind_some hfile
    intro x hx
    obtain ⟨r, hr1, e⟩ := mem_tmodify.mp hx
    have h1 := h r hr1
    have hc := count_files_terase r.artwork_id file s.artfiles hu hmem
    rw [hid] at hc
    show x.file_count = (terase artfile.file_id s.artfiles f).countP _
    by_cases hk : r.artwork_id = a
    · rw [if_pos hk] at e
      rw [hfa, hk] at hc
      simp only [if_true] at hc
      have hxid : x.artwork_id = a := by
        rw [e]; split <;> exact hk
      have hxc : x.file_count = r.file_count - 1 := by
        rw [e]; split
        · rfl
        · omega
      rw [hxid, hxc, h1, hk]
      omega
    · rw [if_neg hk] at e
      have : ¬ file.artwork_id = r.artwork_id := fun e1 => hk (e1.symm.trans hfa)
      simp only [this, if_false, Nat.add_zero] at hc
      rw [e, hc]
      exact h1
  | deleteart a o =>
    obtain ⟨-, art, -, -, rfl⟩ := deleteart_ok.mp hd
    intro x hx
    obtain ⟨hx1, hx2⟩ := mem_terase.mp hx
    show x.file_count = (deleteart_loop _ s.artfiles s.artchunks).1.countP _
    rw [deleteart_loop_eq, List.countP_filter, h x hx1]
    apply List.countP_congr
    intro f hf
    have := doomed_iff_of_artwork hu a hf
    simp only [Bool.and_eq_true, decide_eq_true_eq, this]
    constructor
    · intro e
      exact ⟨e, fun e1 => hx2 (e.symm.trans e1)⟩
    · exact fun e => e.1
  | transferart x fr rc ids deks tags memo =>
    have hd1 : transferart c s x fr rc ids deks tags memo = .ok s1 := hd
    obtain ⟨-, -, hl1, hl2, art, files, -, -, hloop, rfl⟩ := transferart_ok.mp hd1
    obtain ⟨g, rfl, hg, -, -, -⟩ := transfer_loop_ok x fr rc ids deks tags _ _ hl1 hl2 hloop
    intro y hy
    obtain ⟨r, hr1, e⟩ := mem_tmodify.mp hy
    have h1 := h r hr1
    show y.file_count = (s.artfiles.map g).countP _
    rw [count_files_map _ _ _ (fun f => by rw [hg f])]
    by_cases hk : r.artwork_id = x
    · rw [if_pos hk] at e; rw [e]; exact h1
    · rw [if_neg hk] at e; rw [e]; exact h1
  | addadmindek f d =>
    obtain ⟨-, -, -, file, -, -, rfl⟩ := addadmindek_ok.mp hd
    intro x hx
    refine Eq.trans (h x hx) (Eq.symm ?_)
    exact count_files_tmodify _ _ _ _ (fun _ => rfl)

theorem reachable_parent_artwork_exists {s : Ledger} (h : Reachable s) :
    parent_artwork_exists s := by
  induction h with
  | init => intro f hf; cases hf
  | next c a _ _ hd ih => exact dispatch_parent_artwork_exists ih hd

/-- C15 (amended). In every state reached from the empty ledger by successful
actions in which no `addfile` takes an artwork to `2^32` files or more, every
artwork's `file_count` equals the number of file records whose `artwork_id` is
that artwork's id. -/
theorem file_count_invariant (s : Ledger) (h : ReachableBy room_for_file s) :
    file_count_matches s := by
  induction h with
  | init => intro a ha; cases ha
  | next c a hs hr hd ih =>
    exact dispatch_file_count_matches (reachableBy_file_ids_unique hs)
      (reachable_parent_artwork_exists (reachable_of_reachableBy hs)) ih hr hd

/-- C15 (amended) on `delete_file_ledger`, reached by two `addfile` calls and
one `deletefile`. -/
theorem file_count_invariant_witness :
    ReachableBy room_for_file delete_file_ledger ∧ file_count_matches delete_file_ledger :=
  have hrun : run Ledger.empty delete_file_trace = .ok delete_file_ledger := rfl
  have hr : ReachableBy room_for_file delete_file_ledger :=
    reachableBy_of_run ReachableBy.init hrun
      (by simp [trace_satisfies, delete_file_trace, room_for_file, exec, dispatch]; decide)
  ⟨hr, file_count_invariant delete_file_ledger hr⟩

/-! ### Admin keys (C22, C23) -/

/-- What a successful action does to the admin key table: nothing, or
(`addadminkey`) one row appended, or (`rmadminkey`) one row deactivated. -/
theorem dispatch_adminkeys {c : Ctx} {s s1 : Ledger} {a : Action}
    (hd : dispatch c s a = .ok s1) :
    s1.adminkeys = s.adminkeys ∨
    (∃ acc pk d, a = .addadminkey acc pk d ∧ (∀ k ∈ s.adminkeys, k.public_key ≠ pk) ∧
      tfind adminkey.key_id s.adminkeys (next_key_id s.adminkeys) = none ∧
      s1.adminkeys = s.adminkeys ++ [⟨next_key_id s.adminkeys, acc, pk, d, c.now, true⟩]) ∨
    (∃ k, a = .rmadminkey k ∧
      s1.adminkeys = tmodify adminkey.key_id s.adminkeys k
        (fun row => { row with is_active := false })) := by
  cases a with
  | createart a o t d m k =>
    obtain ⟨-, rfl⟩ := createart_ok.mp hd; exact Or.inl rfl
  | updateart a o d m =>
    obtain ⟨-, -, -, -, art, -, -, rfl⟩ := updateart_ok.mp hd; exact Or.inl rfl
  | addfile f a o fn mt sz hh dek adeks iv tag th =>
    obtain ⟨-, -, s0, art, hq, -, -, -, -, rfl⟩ := addfile_ok.mp hd
    left
    show s0.adminkeys = s.adminkeys
    rw [check_and_update_quota_frame hq]
  | uploadchunk ch f o i data sz =>
    obtain ⟨-, -, -, -, -, -, file, -, -, -, -, -, rfl⟩ := uploadchunk_ok.mp hd
    exact Or.inl rfl
  | completefile f o n =>
    obtain ⟨-, -, -, file, -, -, -, -, rfl⟩ := completefile_ok.mp hd; exact Or.inl rfl
  | setquota acc t dfl dsl wfl wsl =>
    obtain ⟨-, ⟨-, rfl⟩ | ⟨-, rfl⟩⟩ := setquota_ok.mp hd <;> exact Or.inl rfl
  | addadminkey acc pk d =>
    obtain ⟨-, -, -, hnew, hfree, rfl⟩ := addadminkey_ok.mp hd
    exact Or.inr (Or.inl ⟨acc, pk, d, rfl, hnew, hfree, rfl⟩)
  | rmadminkey k =>
    obtain ⟨-, -, rfl⟩ := rmadminkey_ok.mp hd
    exact Or.inr (Or.inr ⟨k, rfl, rfl⟩)
  | logaccess acc f r =>
    obtain ⟨-, -, -, -, -, -, rfl⟩ := logaccess_ok.mp hd; exact Or.inl rfl
  | deletefile f a o =>
    obtain ⟨-, -, -, art, file, -, -, -, -, -, rfl⟩ := deletefile_ok.mp hd; exact Or.inl rfl
  | deleteart a o =>
    obtain ⟨-, art, -, -, rfl⟩ := deleteart_ok.mp hd; exact Or.inl rfl
  | transferart x fr rc ids deks tags memo =>
    have hd1 : transferart c s x fr rc ids deks tags memo = .ok s1 := hd
    obtain ⟨-, -, -, -, art, files, -, -, -, rfl⟩ := transferart_ok.mp hd1
    exact Or.inl rfl
  | addadmindek f d =>
    obtain ⟨-, -, -, file, -, -, rfl⟩ := addadmindek_ok.mp hd; exact Or.inl rfl

theorem map_field_tmodify {α β : Type} {key : α → Nat} (h : α → β) (t : List α) (k : Nat)
    (F : α → α) (hF : ∀ r, h (F r) = h r) : (tmodify key t k F).map h = t.map h := by
  unfold tmodify
  rw [List.map_map]
  apply List.map_congr_left
  intro r _
  by_cases e : key r = k <;> simp [e, hF]

theorem dispatch_public_keys_unique {c : Ctx} {s s1 : Ledger} {a : Action}
    (h : public_keys_unique s) (hd : dispatch c s a = .ok s1) : public_keys_unique s1 := by
  unfold public_keys_unique at *
  rcases dispatch_adminkeys hd with e | ⟨acc, pk, d, -, hnew, -, e⟩ | ⟨k, -, e⟩
  · rw [e]; exact h
  · rw [e, List.map_append]
    refine List.Nodup.append h (List.nodup_singleton _) ?_
    intro x hx hy
    obtain ⟨k, hk, rfl⟩ := List.mem_map.mp hx
    rw [List.map_cons, List.map_nil, List.mem_singleton] at hy
    exact hnew k hk hy
  · have hm : (tmodify adminkey.key_id s.adminkeys k
        (fun row => { row with is_active := false })).map adminkey.public_key =
        s.adminkeys.map adminkey.public_key := map_field_tmodify _ _ _ _ (fun _ => rfl)
    rw [e, hm]
    exact h

theorem addadminkey_duplicate_error {c : Ctx} {s : Ledger} {acc : Name} {pk d : Bytes}
    (hauth : c.has_auth c.self) (hpk : pk.length = 44) (hd1 : d.length > 0)
    (hd2 : d.length ≤ 256) :
    addadminkey c s acc pk d = .error .public_key_exists ↔
      ∃ k ∈ s.adminkeys, k.public_key = pk := by
  unfold addadminkey require_auth
  by_cases hdup : ∀ k ∈ s.adminkeys, k.public_key ≠ pk
  · have hno : ¬ ∃ k ∈ s.adminkeys, k.public_key = pk := by
      rintro ⟨k, hk, e⟩; exact hdup k hk e
    simp only [check, bind, Except.bind, if_pos hauth, if_pos hpk, if_pos (And.intro hd1 hd2),
      if_pos hdup, hno, iff_false]
    unfold templace
    split_ifs <;> simp [pure, Except.pure]
  · have hyes : ∃ k ∈ s.adminkeys, k.public_key = pk := by
      by_contra hc
      exact hdup (fun k hk e => hc ⟨k, hk, e⟩)
    simp only [check, bind, Except.bind, if_pos hauth, if_pos hpk, if_pos (And.intro hd1 hd2),
      if_neg hdup, hyes]

/-- C22. Duplicate admin public keys are rejected: an `addadminkey` call of the
contract account with a 44-character `public_key` and a description of 1..256
characters fails with the public-key-already-exists error if and only if some
stored key record, active or not, has that `public_key`; while such a record
is stored no `addadminkey` with that key succeeds, whoever calls it, and
every successful action keeps a record with that key, so a deactivated key is
never added again; and in every reachable state the `public_key` values
of the key records are pairwise distinct. -/
theorem duplicate_public_key_rejected (c : Ctx) (s : Ledger) (admin_account : Name)
    (public_key description : Bytes) (hauth : c.has_auth c.self)
    (hpk : public_key.length = 44) (hd1 : description.length > 0)
    (hd2 : description.length ≤ 256) :
    (addadminkey c s admin_account public_key description = .error .public_key_exists ↔
      ∃ k ∈ s.adminkeys, k.public_key = public_key) ∧
    ((∃ k ∈ s.adminkeys, k.public_key = public_key) →
      (∀ (c1 : Ctx) (acc : Name) (d : Bytes) (s1 : Ledger),
        addadminkey c1 s acc public_key d ≠ .ok s1) ∧
      (∀ (c1 : Ctx) (a : Action) (s1 : Ledger), dispatch c1 s a = .ok s1 →
        ∃ k1 ∈ s1.adminkeys, k1.public_key = public_key)) ∧
    (∀ r : Ledger, Reachable r → public_keys_unique r) := by
  refine ⟨addadminkey_duplicate_error hauth hpk hd1 hd2, ?_, ?_⟩
  · rintro ⟨k, hk, e⟩
    constructor
    · intro c1 acc d s1 h
      obtain ⟨-, -, -, hnew, -, -⟩ := addadminkey_ok.mp h
      exact hnew k hk e
    · intro c1 a s1 h
      rcases dispatch_adminkeys h with e1 | ⟨acc, pk, d, -, -, -, e1⟩ | ⟨k0, -, e1⟩
      · exact ⟨k, e1 ▸ hk, e⟩
      · exact ⟨k, e1 ▸ List.mem_append_left _ hk, e⟩
      · refine ⟨_, e1 ▸ mem_tmodify.mpr ⟨k, hk, rfl⟩, ?_⟩
        by_cases hk0 : k.key_id = k0
        · rw [if_pos hk0]; exact e
        · rw [if_neg hk0]; exact e
  · intro r hr
    induction hr with
    | init => exact List.nodup_nil
    | next c1 a _ _ hd ih => exact dispatch_public_keys_unique ih hd

/-- C22 on `removed_key_ledger`, whose only key is deactivated: adding the same
public key again is refused. -/
theorem duplicate_public_key_rejected_witness :
    (addadminkey service_ctx removed_key_ledger 2 (List.replicate 44 1) [1] =
        .error .public_key_exists ↔
      ∃ k ∈ removed_key_ledger.adminkeys, k.public_key = List.replicate 44 1) ∧
    addadminkey service_ctx removed_key_ledger 2 (List.replicate 44 1) [1] =
      .error .public_key_exists ∧
    public_keys_unique removed_key_ledger :=
  have h := duplicate_public_key_rejected service_ctx removed_key_ledger 2
    (List.replicate 44 1) [1] (by decide) (by decide) (by decide) (by decide)
  have hrun : run Ledger.empty removed_key_trace = .ok removed_key_ledger := rfl
  ⟨h.1, h.1.mpr ⟨_, List.mem_singleton.mpr rfl, rfl⟩,
    h.2.2 removed_key_ledger (reachable_of_run ReachableBy.init hrun)⟩

/-- C23. Admin keys are never deleted, only deactivated: after every
successful action the key table is the old one, row by row, each row continued
(same `key_id`, `admin_account`, `public_key`, `description`, `added_at`;
`is_active` unchanged or gone from true to false), followed by at most one new
row; `rmadminkey(k)` called by the contract account on a stored key succeeds,
turns the row `k` into itself with `is_active = false`, keeps every row with
another `key_id` and changes no other table, the files included; when no key
`k` is stored it fails with the admin-key-not-found error, and succeeds for no
caller. -/
theorem admin_keys_only_deactivated (c : Ctx) (s : Ledger) :
    (∀ (a : Action) (s1 : Ledger), dispatch c s a = .ok s1 →
      (∃ (g : adminkey → adminkey) (extra : List adminkey),
        s1.adminkeys = s.adminkeys.map g ++ extra ∧ extra.length ≤ 1 ∧
        ∀ k, continues k (g k)) ∧
      ∀ k ∈ s.adminkeys, ∃ k1 ∈ s1.adminkeys, continues k k1) ∧
    (∀ (k : Nat) (key : adminkey), c.has_auth c.self →
      tfind adminkey.key_id s.adminkeys k = some key →
      ∃ s1, rmadminkey c s k = .ok s1 ∧
        s1 = { s with
          adminkeys := s.adminkeys.map (fun r =>
            if r.key_id = k then { r with is_active := false } else r) } ∧
        tfind adminkey.key_id s1.adminkeys k = some { key with is_active := false } ∧
        (∀ r ∈ s.adminkeys, r.key_id ≠ k → r ∈ s1.adminkeys) ∧
        s1.adminkeys.length = s.adminkeys.length ∧
        s1.artfiles = s.artfiles) ∧
    (∀ k : Nat, tfind adminkey.key_id s.adminkeys k = none →
      (∀ s1, rmadminkey c s k ≠ .ok s1) ∧
      (c.has_auth c.self → rmadminkey c s k = .error .admin_key_not_found)) := by
  refine ⟨?_, ?_, ?_⟩
  · intro a s1 hd
    have hg : ∃ (g : adminkey → adminkey) (extra : List adminkey),
        s1.adminkeys = s.adminkeys.map g ++ extra ∧ extra.length ≤ 1 ∧
        ∀ k, continues k (g k) := by
      rcases dispatch_adminkeys hd with e | ⟨acc, pk, d, -, -, -, e⟩ | ⟨k0, -, e⟩
      · exact ⟨id, [], by simp [e], by simp,
          fun k => ⟨rfl, rfl, rfl, rfl, rfl, Or.inl rfl⟩⟩
      · exact ⟨id, _, by rw [e, List.map_id], by simp,
          fun k => ⟨rfl, rfl, rfl, rfl, rfl, Or.inl rfl⟩⟩
      · refine ⟨fun r => if r.key_id = k0 then { r with is_active := false } else r, [],
          by rw [e, List.append_nil]; rfl, by simp, ?_⟩
        intro k
        by_cases hk0 : k.key_id = k0
        · simp only [if_pos hk0]
          refine ⟨rfl, rfl, rfl, rfl, rfl, ?_⟩
          cases hact : k.is_active
          · exact Or.inl rfl
          · exact Or.inr ⟨rfl, rfl⟩
        · simp only [if_neg hk0]
          exact ⟨rfl, rfl, rfl, rfl, rfl, Or.inl rfl⟩
    refine ⟨hg, ?_⟩
    obtain ⟨g, extra, e, -, hcont⟩ := hg
    intro k hk
    exact ⟨g k, e ▸ List.mem_append_left _ (List.mem_map_of_mem g hk), hcont k⟩
  · intro k key hauth hkey
    refine ⟨_, rmadminkey_ok.mpr ⟨hauth, by simp [hkey], rfl⟩, rfl, ?_, ?_, ?_, rfl⟩
    · exact tfind_tmodify_self _ hkey (tfind_some hkey).2
    · intro r hr hne
      exact mem_tmodify.mpr ⟨r, hr, by rw [if_neg hne]⟩
    · simp [tmodify]
  · intro k hnone
    refine ⟨?_, ?_⟩
    · intro s1 h
      obtain ⟨-, hsome, -⟩ := rmadminkey_ok.mp h
      simp [hnone] at hsome
    · intro hauth
      unfold rmadminkey require_auth
      simp only [check, bind, Except.bind, if_pos hauth, hnone, Option.isSome_none,
        Bool.false_eq_true, if_false]

/-- C23 on `escrowed_ledger`: the contract account removes key 1; the record
stays, deactivated, and file 1 keeps its admin DEK. -/
theorem admin_keys_only_deactivated_witness :
    rmadminkey service_ctx escrowed_ledger 1 = .ok removed_key_ledger ∧
    removed_key_ledger.artfiles = escrowed_ledger.artfiles ∧
    rmadminkey service_ctx escrowed_ledger 2 = .error .admin_key_not_found :=
  have h := admin_keys_only_deactivated service_ctx escrowed_ledger
  ⟨rfl, rfl, (h.2.2 2 rfl).2 (by decide)⟩

/-! ### Quota limits (C24, C25) -/

theorem reset_quota_limits (q : usagequota) (now : Nat) :
    (reset_quota_if_expired q now).1.daily_file_limit = q.daily_file_limit ∧
    (reset_quota_if_expired q now).1.daily_size_limit = q.daily_size_limit ∧
    (reset_quota_if_expired q now).1.weekly_file_limit = q.weekly_file_limit ∧
    (reset_quota_if_expired q now).1.weekly_size_limit = q.weekly_size_limit := by
  unfold reset_quota_if_expired
  by_cases hd : now ≥ q.daily_reset_at <;> by_cases hw : now ≥ q.weekly_reset_at <;>
    simp [hd, hw]

theorem quota_update_limits {now file_size : Nat} {q row : usagequota}
    (h : quota_update now file_size q = .ok row) :
    row.daily_file_limit = q.daily_file_limit ∧ row.daily_size_limit = q.daily_size_limit ∧
    row.weekly_file_limit = q.weekly_file_limit ∧
    row.weekly_size_limit = q.weekly_size_limit := by
  rw [((quota_update_ok_iff now file_size q row).mp h).2]
  exact reset_quota_limits q now

/-- What a successful action does to the quota table: nothing, or (`setquota`)
what `setquota_ok` says, or (`addfile`) what `check_and_update_quota` does. -/
theorem dispatch_quotas {c : Ctx} {s s1 : Ledger} {a : Action}
    (hd : dispatch c s a = .ok s1) :
    s1.quotas = s.quotas ∨
    (∃ acc t dfl dsl wfl wsl, setquota c s acc t dfl dsl wfl wsl = .ok s1) ∨
    (∃ o sz s0, check_and_update_quota c s o sz = .ok s0 ∧ s1.quotas = s0.quotas) := by
  cases a with
  | createart a o t d m k =>
    obtain ⟨-, rfl⟩ := createart_ok.mp hd; exact Or.inl rfl
  | updateart a o d m =>
    obtain ⟨-, -, -, -, art, -, -, rfl⟩ := updateart_ok.mp hd; exact Or.inl rfl
  | addfile f a o fn mt sz hh dek adeks iv tag th =>
    obtain ⟨-, -, s0, art, hq, -, -, -, -, rfl⟩ := addfile_ok.mp hd
    exact Or.inr (Or.inr ⟨o, sz, s0, hq, rfl⟩)
  | uploadchunk ch f o i data sz =>
    obtain ⟨-, -, -, -, -, -, file, -, -, -, -, -, rfl⟩ := uploadchunk_ok.mp hd
    exact Or.inl rfl
  | completefile f o n =>
    obtain ⟨-, -, -, file, -, -, -, -, rfl⟩ := completefile_ok.mp hd; exact Or.inl rfl
  | setquota acc t dfl dsl wfl wsl =>
    exact Or.inr (Or.inl ⟨acc, t, dfl, dsl, wfl, wsl, hd⟩)
  | addadminkey acc pk d =>
    obtain ⟨-, -, -, -, -, rfl⟩ := addadminkey_ok.mp hd; exact Or.inl rfl
  | rmadminkey k =>
    obtain ⟨-, -, rfl⟩ := rmadminkey_ok.mp hd; exact Or.inl rfl
  | logaccess acc f r =>
    obtain ⟨-, -, -, -, -, -, rfl⟩ := logaccess_ok.mp hd; exact Or.inl rfl
  | deletefile f a o =>
    obtain ⟨-, -, -, art, file, -, -, -, -, -, rfl⟩ := deletefile_ok.mp hd; exact Or.inl rfl
  | deleteart a o =>
    obtain ⟨-, art, -, -, rfl⟩ := deleteart_ok.mp hd; exact Or.inl rfl
  | transferart x fr rc ids deks tags memo =>
    have hd1 : transferart c s x fr rc ids deks tags memo = .ok s1 := hd
    obtain ⟨-, -, -, -, art, files, -, -, -, rfl⟩ := transferart_ok.mp hd1
    exact Or.inl rfl
  | addadmindek f d =>
    obtain ⟨-, -, -, file, -, -, rfl⟩ := addadmindek_ok.mp hd; exact Or.inl rfl

theorem default_quota_ordered (now : Nat) (acc : Name) (file_size : Nat) :
    (default_quota now acc file_size).weekly_file_limit ≥
      (default_quota now acc file_size).daily_file_limit ∧
    (default_quota now acc file_size).weekly_size_limit ≥
      (default_quota now acc file_size).daily_size_limit :=
  ⟨(by decide : (40 : Nat) ≥ 10), (by decide : (104857600 : Nat) ≥ 26214400)⟩

theorem dispatch_limits_ordered {c : Ctx} {s s1 : Ledger} {a : Action}
    (h : limits_ordered s) (hd : dispatch c s a = .ok s1) : limits_ordered s1 := by
  unfold limits_ordered at *
  rcases dispatch_quotas hd with e | ⟨acc, t, dfl, dsl, wfl, wsl, hq⟩ | ⟨o, sz, s0, hq, e⟩
  · rw [e]; exact h
  · obtain ⟨⟨-, -, -, -, -, -, h1, h2⟩, ⟨-, rfl⟩ | ⟨-, rfl⟩⟩ := setquota_ok.mp hq
    · intro q hq1
      rcases List.mem_append.mp hq1 with hq1 | hq1
      · exact h q hq1
      · rw [List.mem_singleton.mp hq1]; exact ⟨h1, h2⟩
    · intro q hq1
      obtain ⟨r, hr, e⟩ := mem_tmodify.mp hq1
      by_cases hk : r.account = acc
      · rw [if_pos hk] at e; rw [e]; exact ⟨h1, h2⟩
      · rw [if_neg hk] at e; rw [e]; exact h r hr
  · rw [e]
    rcases check_and_update_quota_ok.mp hq with ⟨-, rfl⟩ | ⟨stored, row, hst, hup, rfl⟩
    · intro q hq1
      rcases List.mem_append.mp hq1 with hq1 | hq1
      · exact h q hq1
      · rw [List.mem_singleton.mp hq1]
        exact default_quota_ordered _ _ _
    · intro q hq1
      obtain ⟨r, hr, e⟩ := mem_tmodify.mp hq1
      by_cases hk : r.account = o
      · rw [if_pos hk] at e
        obtain ⟨l1, l2, l3, l4⟩ := quota_update_limits hup
        rw [e, l1, l2, l3, l4]
        exact h stored (tfind_some hst).1
      · rw [if_neg hk] at e; rw [e]; exact h r hr

/-- C24. Quota limit ordering is an invariant: in every reachable state every
quota record has `weekly_file_limit ≥ daily_file_limit` and
`weekly_size_limit ≥ daily_size_limit`; in every state `setquota` succeeds for
no caller when its arguments violate either inequality, leaves the ledger as
it was, and, called by the contract account with a tier of 0 or 1 and positive
limits, fails with the error of the violated inequality; and the default
record of a first admission satisfies both. -/
theorem quota_limits_ordered (s : Ledger) (h : Reachable s) :
    limits_ordered s ∧
    (∀ (c : Ctx) (acc : Name) (t dfl dsl wfl wsl : Nat), wfl < dfl ∨ wsl < dsl →
      (∀ s1, setquota c s acc t dfl dsl wfl wsl ≠ .ok s1) ∧
      exec c s (.setquota acc t dfl dsl wfl wsl) = s ∧
      (c.has_auth c.self → t ≤ 1 → dfl > 0 → dsl > 0 → wfl > 0 → wsl > 0 →
        (wfl < dfl → setquota c s acc t dfl dsl wfl wsl =
          .error .weekly_file_limit_below_daily) ∧
        (wfl ≥ dfl → setquota c s acc t dfl dsl wfl wsl =
          .error .weekly_size_limit_below_daily))) ∧
    (∀ (now : Nat) (acc : Name) (file_size : Nat),
      (default_quota now acc file_size).weekly_file_limit ≥
        (default_quota now acc file_size).daily_file_limit ∧
      (default_quota now acc file_size).weekly_size_limit ≥
        (default_quota now acc file_size).daily_size_limit) := by
  refine ⟨?_, ?_, default_quota_ordered⟩
  · induction h with
    | init => intro q hq; cases hq
    | next c a _ _ hd ih => exact dispatch_limits_ordered ih hd
  · intro c acc t dfl dsl wfl wsl hbad
    have hno : ∀ s1, setquota c s acc t dfl dsl wfl wsl ≠ .ok s1 := by
      intro s1 hs1
      obtain ⟨⟨-, -, -, -, -, -, h1, h2⟩, -⟩ := setquota_ok.mp hs1
      omega
    have hex : exec c s (.setquota acc t dfl dsl wfl wsl) = s := exec_of_not_ok hno
    refine ⟨hno, hex, ?_⟩
    intro hauth ht h1 h2 h3 h4
    constructor
    · intro hlt
      unfold setquota require_auth
      simp only [check, bind, Except.bind, if_pos hauth, if_pos ht, if_pos h1, if_pos h2,
        if_pos h3, if_pos h4, if_neg (Nat.not_le.mpr hlt)]
    · intro hge
      have hlt : wsl < dsl := by omega
      unfold setquota require_auth
      simp only [check, bind, Except.bind, if_pos hauth, if_pos ht, if_pos h1, if_pos h2,
        if_pos h3, if_pos h4, if_pos hge, if_neg (Nat.not_le.mpr hlt)]

/-- C24 on `bulk_ledger 0`, reached by a `setquota` and a `createart`: its row
is ordered, and a `setquota` with a weekly file limit below the daily one is
refused. -/
theorem quota_limits_ordered_witness :
    limits_ordered (bulk_ledger 0) ∧
    setquota service_ctx (bulk_ledger 0) 7 1 10 100 5 100 =
      .error .weekly_file_limit_below_daily :=
  have h := quota_limits_ordered (bulk_ledger 0) (bulk_ledger_reachable 0 (by decide))
  ⟨h.1, ((h.2.1 service_ctx 7 1 10 100 5 100 (Or.inl (by decide))).2.2
    (by decide) (by decide) (by decide) (by decide) (by decide) (by decide)).1 (by decide)⟩

/-- C25. SetQuota preserves usage: for a `setquota` call of the contract
account with valid arguments on an account that has a quota record, the call
succeeds and the record becomes the stored one with the tier and the four
limits of the call, its four usage counters and two reset times as they were;
the other records and tables are unchanged.  When the account has no record,
the call appends one with the tier and limits of the call, all four usage
counters 0, `daily_reset_at = floor(now/86400)*86400 + 86400` (the block time
being far below the 64-bit limit) and `weekly_reset_at =
calculate_next_monday(now)`. -/
theorem setquota_preserves_usage (c : Ctx) (s : Ledger) (account : Name)
    (tier dfl dsl wfl wsl : Nat) (hauth : c.has_auth c.self)
    (hvalid : setquota_args_valid tier dfl dsl wfl wsl) :
    (∀ stored, tfind usagequota.account s.quotas account = some stored →
      ∃ s1 row, setquota c s account tier dfl dsl wfl wsl = .ok s1 ∧
        tfind usagequota.account s1.quotas account = some row ∧
        row = { stored with
          tier := tier, daily_file_limit := dfl, daily_size_limit := dsl,
          weekly_file_limit := wfl, weekly_size_limit := wsl } ∧
        (row.daily_file_limit = dfl ∧ row.daily_size_limit = dsl ∧
          row.weekly_file_limit = wfl ∧ row.weekly_size_limit = wsl) ∧
        (row.daily_files_used = stored.daily_files_used ∧
          row.daily_size_used = stored.daily_size_used ∧
          row.weekly_files_used = stored.weekly_files_used ∧
          row.weekly_size_used = stored.weekly_size_used ∧
          row.daily_reset_at = stored.daily_reset_at ∧
          row.weekly_reset_at = stored.weekly_reset_at) ∧
        (∀ r ∈ s.quotas, r.account ≠ account → r ∈ s1.quotas) ∧
        s1.quotas.length = s.quotas.length ∧
        s1 = { s with quotas := s1.quotas }) ∧
    (tfind usagequota.account s.quotas account = none →
      ∃ s1, setquota c s account tier dfl dsl wfl wsl = .ok s1 ∧
        s1 = { s with
          quotas := s.quotas ++
            [⟨account, tier, dfl, dsl, wfl, wsl, 0, 0, next_midnight c.now, 0, 0,
              calculate_next_monday c.now⟩] } ∧
        (c.now + 86400 < 2 ^ 64 → next_midnight c.now = c.now / 86400 * 86400 + 86400)) := by
  obtain ⟨v1, v2, v3, v4, v5, v6, v7⟩ := hvalid
  constructor
  · intro stored hst
    refine ⟨_, _, setquota_ok.mpr ⟨⟨hauth, v1, v2, v3, v4, v5, v6, v7⟩,
      Or.inr ⟨by simp [hst], rfl⟩⟩, ?_, rfl, ⟨rfl, rfl, rfl, rfl⟩,
      ⟨rfl, rfl, rfl, rfl, rfl, rfl⟩, ?_, ?_, rfl⟩
    · exact tfind_tmodify_self _ hst (tfind_some hst).2
    · intro r hr hne
      exact mem_tmodify.mpr ⟨r, hr, by rw [if_neg hne]⟩
    · simp [tmodify]
  · intro hnone
    exact ⟨_, setquota_ok.mpr ⟨⟨hauth, v1, v2, v3, v4, v5, v6, v7⟩, Or.inl ⟨hnone, rfl⟩⟩, rfl,
      next_midnight_eq c.now⟩

/-- C25 on `demo_quota_ledger`: account 7 is moved to the premium tier with
new limits; its usage (2 files and 5000 bytes today, 3 files and 9000 bytes
this week) and both reset times stay. -/
theorem setquota_preserves_usage_witness :
    setquota service_ctx demo_quota_ledger 7 1 100 1000000000 500 5000000000 =
      .ok upgraded_quota_ledger ∧
    ∃ s1 row, setquota service_ctx demo_quota_ledger 7 1 100 1000000000 500 5000000000 =
        .ok s1 ∧
      tfind usagequota.account s1.quotas 7 = some row ∧
      row.daily_files_used = 2 ∧ row.daily_size_used = 5000 ∧ row.weekly_files_used = 3 ∧
      row.weekly_size_used = 9000 ∧ row.daily_reset_at = 1704326400 ∧
      row.weekly_reset_at = 1704585600 :=
  have h := (setquota_preserves_usage service_ctx demo_quota_ledger 7 1 100 1000000000 500
    5000000000 (by decide) (by unfold setquota_args_valid; decide)).1 demo_quota rfl
  ⟨rfl, by
    obtain ⟨s1, row, h1, h2, h3, -, h4, -⟩ := h
    exact ⟨s1, row, h1, h2, h4⟩⟩

/-! ### Usage against the ceilings (C27) -/

theorem tfind_append_of_none {α : Type} {key : α → Nat} {t : List α} {k : Nat} {r : α}
    (h : tfind key t k = none) (hk : key r = k) : tfind key (t ++ [r]) k = some r := by
  unfold tfind at *
  rw [List.find?_append, h]
  simp [hk]

/-- C27, as stated, fails on the call that creates the record: account 7 has
no quota record, its first file of 104857600 bytes is admitted, and the new
record holds `daily_size_used = 104857600` above `daily_size_limit =
26214400`.  The same record is in the ledger reached by
`large_first_file_trace`. -/
theorem first_admission_exceeds_daily_ceiling :
    check_and_update_quota demo_ctx Ledger.empty 7 104857600 =
      .ok { Ledger.empty with quotas := [default_quota 1704283200 7 104857600] } ∧
    run Ledger.empty large_first_file_trace = .ok large_first_file_ledger ∧
    tfind usagequota.account large_first_file_ledger.quotas 7 =
      some (default_quota 1704283200 7 104857600) ∧
    (default_quota 1704283200 7 104857600).daily_size_used = 104857600 ∧
    (default_quota 1704283200 7 104857600).daily_size_limit = 26214400 ∧
    ¬ usage_within_limits (default_quota 1704283200 7 104857600) :=
  ⟨rfl, rfl, rfl, rfl, rfl, fun h => absurd h.2.1 (by decide)⟩

/-- C27 (amended). Usage against the ceilings after an admission: whenever
`check_and_update_quota` succeeds, the account has a quota record afterwards;
if it had one before the call, the resulting record has all four usage
counters within their limits; if the call created the record, both file
counters are within their limits, the weekly byte counter is within its limit
for every `file_size ≤ 104857600`, and the daily byte counter is within its
limit exactly when `file_size ≤ 26214400`. -/
theorem usage_within_ceilings_after_admission (c : Ctx) (s s1 : Ledger) (account : Name)
    (file_size : Nat) (h : check_and_update_quota c s account file_size = .ok s1) :
    ∃ row, tfind usagequota.account s1.quotas account = some row ∧
      ((tfind usagequota.account s.quotas account).isSome → usage_within_limits row) ∧
      (tfind usagequota.account s.quotas account = none →
        row = default_quota c.now account file_size ∧
        row.daily_files_used ≤ row.daily_file_limit ∧
        row.weekly_files_used ≤ row.weekly_file_limit ∧
        (file_size ≤ 104857600 → row.weekly_size_used ≤ row.weekly_size_limit) ∧
        (row.daily_size_used ≤ row.daily_size_limit ↔ file_size ≤ 26214400) ∧
        (file_size ≤ 104857600 → (usage_within_limits row ↔ file_size ≤ 26214400))) := by
  rcases check_and_update_quota_ok.mp h with ⟨hnone, rfl⟩ | ⟨stored, row, hst, hup, rfl⟩
  · refine ⟨default_quota c.now account file_size, tfind_append_of_none hnone rfl, ?_, ?_⟩
    · intro hsome; simp [hnone] at hsome
    · intro _
      refine ⟨rfl, (by decide : (1 : Nat) ≤ 10), (by decide : (1 : Nat) ≤ 40),
        fun hle => hle, Iff.rfl, ?_⟩
      intro hle
      unfold usage_within_limits
      constructor
      · exact fun hw => hw.2.1
      · exact fun hd => ⟨(by decide : (1 : Nat) ≤ 10), hd, (by decide : (1 : Nat) ≤ 40), hle⟩
  · refine ⟨row, tfind_tmodify_self _ hst
      ((quota_update_account hup).trans (tfind_some hst).2), ?_, ?_⟩
    · intro _
      obtain ⟨⟨c1, c2, c3, c4⟩, e⟩ := (quota_update_ok_iff c.now file_size stored row).mp hup
      have m1 : ∀ n, u32 n ≤ n := fun n => Nat.mod_le _ _
      rw [e]
      exact ⟨Nat.le_trans (m1 _) c1, c2, Nat.le_trans (m1 _) c3, c4⟩
    · intro hnone; rw [hst] at hnone; cases hnone

/-- C27 (amended) on `demo_quota_ledger`: 1000 bytes are charged to the stored
record of account 7 and its usage stays within the limits. -/
theorem usage_within_ceilings_after_admission_witness :
    check_and_update_quota demo_ctx demo_quota_ledger 7 1000 =
      .ok { Ledger.empty with quotas := [charged demo_quota 1 1000] } ∧
    ∃ row, tfind usagequota.account
        ({ Ledger.empty with quotas := [charged demo_quota 1 1000] } : Ledger).quotas 7 =
        some row ∧
      usage_within_limits row :=
  have hq : check_and_update_quota demo_ctx demo_quota_ledger 7 1000 =
      .ok { Ledger.empty with quotas := [charged demo_quota 1 1000] } := rfl
  have h := usage_within_ceilings_after_admission demo_ctx demo_quota_ledger _ 7 1000 hq
  ⟨hq, by
    obtain ⟨row, h1, h2, -⟩ := h
    exact ⟨row, h1, h2 rfl⟩⟩

/-! ### Key material of a file (C29) -/

/-- A successful run of the `transferart` loop keeps a property of the rows
that every step keeps. -/
theorem transfer_loop_keeps (P : artfile → Prop) (a : Nat) (fr rc : Name) :
    ∀ (ids : List Nat) (deks tags : List Bytes) (files files1 : List artfile),
      (∀ (row : artfile), ∀ d ∈ deks, ∀ t ∈ tags,
        P row → P { row with owner := rc, encrypted_dek := d, auth_tag := t }) →
      transfer_loop a fr rc ids deks tags files = .ok files1 →
      (∀ f ∈ files, P f) → ∀ f ∈ files1, P f := by
  intro ids
  induction ids with
  | nil =>
    intro deks tags files files1 _ h hP
    simp only [transfer_loop, pure_ok_iff] at h
    exact h ▸ hP
  | cons i0 ids ih =>
    intro deks tags files files1 hstep h hP
    cases deks with
    | nil => simp only [transfer_loop, pure_ok_iff] at h; exact h ▸ hP
    | cons dek0 deks =>
      cases tags with
      | nil => simp only [transfer_loop, pure_ok_iff] at h; exact h ▸ hP
      | cons tag0 tags =>
        rw [transfer_loop] at h
        cases hfind : tfind artfile.file_id files i0 with
        | none => simp [hfind, throw_ne_ok] at h
        | some file =>
          simp only [hfind, check_bind_ok] at h
          obtain ⟨-, -, hrest⟩ := h
          refine ih deks tags _ files1 ?_ hrest ?_
          · intro row d hd t ht
            exact hstep row d (List.mem_cons_of_mem _ hd) t (List.mem_cons_of_mem _ ht)
          · intro f hf
            obtain ⟨r, hr, e⟩ := mem_tmodify.mp hf
            by_cases hk : r.file_id = i0
            · rw [if_pos hk] at e
              rw [e]
              exact hstep r dek0 (List.mem_cons_self _ _) tag0 (List.mem_cons_self _ _)
                (hP r hr)
            · rw [if_neg hk] at e; rw [e]; exact hP r hr

/-- Every successful action keeps a property of the file rows that depends
only on fields no action rewrites, provided `addfile` establishes it and the
step of `transferart` keeps it. -/
theorem dispatch_files_keep (P : artfile → Prop) {c : Ctx} {s s1 : Ledger} {a : Action}
    (hnew : ∀ f art o fn mt sz hh dek adeks iv tag th,
      a = .addfile f art o fn mt sz hh dek adeks iv tag th →
      addfile_fields_valid f art fn mt sz dek iv tag →
      P (new_file c f art o fn mt sz hh dek adeks iv tag th))
    (hframe : ∀ r r1 : artfile, r1.encrypted_dek = r.encrypted_dek → r1.iv = r.iv →
      r1.auth_tag = r.auth_tag → P r → P r1)
    (hstep : ∀ x fr rc ids deks tags memo, a = .transferart x fr rc ids deks tags memo →
      ∀ (row : artfile), ∀ d ∈ deks, ∀ t ∈ tags,
        P row → P { row with owner := rc, encrypted_dek := d, auth_tag := t })
    (h : ∀ f ∈ s.artfiles, P f) (hd : dispatch c s a = .ok s1) : ∀ f ∈ s1.artfiles, P f := by
  have hmod : ∀ (k : Nat) (F : artfile → artfile),
      (∀ r, (F r).encrypted_dek = r.encrypted_dek ∧ (F r).iv = r.iv ∧
        (F r).auth_tag = r.auth_tag) →
      ∀ f ∈ tmodify artfile.file_id s.artfiles k F, P f := by
    intro k F hF f hf
    obtain ⟨r, hr, e⟩ := mem_tmodify.mp hf
    by_cases hk : r.file_id = k
    · rw [if_pos hk] at e
      rw [e]
      exact hframe r (F r) (hF r).1 (hF r).2.1 (hF r).2.2 (h r hr)
    · rw [if_neg hk] at e; rw [e]; exact h r hr
  cases a with
  | createart a o t d m k =>
    obtain ⟨-, rfl⟩ := createart_ok.mp hd; exact h
  | updateart a o d m =>
    obtain ⟨-, -, -, -, art, -, -, rfl⟩ := updateart_ok.mp hd; exact h
  | addfile f a o fn mt sz hh dek adeks iv tag th =>
    obtain ⟨-, hvalid, s0, art, hq, -, -, -, -, rfl⟩ := addfile_ok.mp hd
    have hF : s0.artfiles = s.artfiles := by rw [check_and_update_quota_frame hq]
    intro x hx
    rcases List.mem_append.mp hx with hx | hx
    · exact h x (hF ▸ hx)
    · rw [List.mem_singleton.mp hx]
      exact hnew f a o fn mt sz hh dek adeks iv tag th rfl hvalid
  | uploadchunk ch f o i data sz =>
    obtain ⟨-, -, -, -, -, -, file, -, -, -, -, -, rfl⟩ := uploadchunk_ok.mp hd
    exact hmod _ _ (fun _ => ⟨rfl, rfl, rfl⟩)
  | completefile f o n =>
    obtain ⟨-, -, -, file, -, -, -, -, rfl⟩ := completefile_ok.mp hd
    exact hmod _ _ (fun _ => ⟨rfl, rfl, rfl⟩)
  | setquota acc t dfl dsl wfl wsl =>
    obtain ⟨-, ⟨-, rfl⟩ | ⟨-, rfl⟩⟩ := setquota_ok.mp hd <;> exact h
  | addadminkey acc pk d =>
    obtain ⟨-, -, -, -, -, rfl⟩ := addadminkey_ok.mp hd; exact h
  | rmadminkey k =>
    obtain ⟨-, -, rfl⟩ := rmadminkey_ok.mp hd; exact h
  | logaccess acc f r =>
    obtain ⟨-, -, -, -, -, -, rfl⟩ := logaccess_ok.mp hd; exact h
  | deletefile f a o =>
    obtain ⟨-, -, -, art, file, -, -, -, -, -, rfl⟩ := deletefile_ok.mp hd
    intro x hx
    exact h x (mem_terase.mp hx).1
  | deleteart a o =>
    obtain ⟨-, art, -, -, rfl⟩ := deleteart_ok.mp hd
    intro x hx
    have hx1 : x ∈ (deleteart_loop (s.artfiles.filter (fun f => f.artwork_id = a))
      s.artfiles s.artchunks).1 := hx
    rw [deleteart_loop_eq] at hx1
    exact h x (List.mem_filter.mp hx1).1
  | transferart x fr rc ids deks tags memo =>
    have hd1 : transferart c s x fr rc ids deks tags memo = .ok s1 := hd
    obtain ⟨-, -, -, -, art, files, -, -, hloop, rfl⟩ := transferart_ok.mp hd1
    exact transfer_loop_keeps P x fr rc ids deks tags _ _
      (hstep x fr rc ids deks tags memo rfl) hloop h
  | addadmindek f d =>
    obtain ⟨-, -, -, file, -, -, rfl⟩ := addadmindek_ok.mp hd
    exact hmod _ _ (fun _ => ⟨rfl, rfl, rfl⟩)

/-- C29, as stated, fails: after `blank_transfer_trace`, three successful
actions, file 1 has an empty `encrypted_dek` and an empty `auth_tag`, the
values passed to `transferart`, which checks neither. -/
theorem blank_transfer_empties_key_material :
    run Ledger.empty blank_transfer_trace = .ok blank_transfer_ledger ∧
    Reachable blank_transfer_ledger ∧
    (∃ f ∈ blank_transfer_ledger.artfiles, f.file_id = 1 ∧ f.encrypted_dek = [] ∧
      f.auth_tag = []) ∧
    ¬ key_material_present blank_transfer_ledger := by
  have hrun : run Ledger.empty blank_transfer_trace = .ok blank_transfer_ledger := rfl
  refine ⟨hrun, reachable_of_run ReachableBy.init hrun,
    ⟨_, List.mem_singleton.mpr rfl, rfl, rfl, rfl⟩, ?_⟩
  intro h
  exact absurd (h _ (List.mem_singleton.mpr rfl)).1 (by decide)

/-- C29 (amended). Key material on a file: in every state reachable from the
empty ledger by successful actions every file has a non-empty `iv`; and in
every state reached by successful actions in which each `transferart` passed
only non-empty new DEKs and non-empty new tags, every file has a non-empty
`encrypted_dek`, a non-empty `iv` and a non-empty `auth_tag`. -/
theorem key_material_of_nonempty_transfers (s : Ledger) (h : Reachable s) :
    (∀ f ∈ s.artfiles, f.iv.length > 0) ∧
    (ReachableBy nonempty_transfer s → key_material_present s) := by
  constructor
  · induction h with
    | init => intro f hf; cases hf
    | next c a _ _ hd ih =>
      exact dispatch_files_keep (fun f => f.iv.length > 0)
        (fun f art o fn mt sz hh dek adeks iv tag th _ hv => hv.2.2.2.2.2.2.2.2.1)
        (fun r r1 _ e _ hr => by
          show r1.iv.length > 0
          rw [e]; exact hr)
        (fun x fr rc ids deks tags memo _ row d _ t _ hrow => hrow) ih hd
  · intro hb
    clear h
    induction hb with
    | init => intro f hf; cases hf
    | next c a _ hp hd ih =>
      refine dispatch_files_keep
        (fun f => f.encrypted_dek.length > 0 ∧ f.iv.length > 0 ∧ f.auth_tag.length > 0)
        (fun f art o fn mt sz hh dek adeks iv tag th _ hv =>
          ⟨hv.2.2.2.2.2.2.2.1, hv.2.2.2.2.2.2.2.2.1, hv.2.2.2.2.2.2.2.2.2⟩)
        (fun r r1 e1 e2 e3 hr => by
          show r1.encrypted_dek.length > 0 ∧ r1.iv.length > 0 ∧ r1.auth_tag.length > 0
          rw [e1, e2, e3]; exact hr) ?_ ih hd
      intro x fr rc ids deks tags memo ha row d hd1 t ht hrow
      subst ha
      exact ⟨hp.1 d hd1, hrow.2.1, hp.2 t ht⟩

/-- C29 (amended) on `full_transfer_ledger`, reached by a transfer with
non-empty new DEKs and tags for both files. -/
theorem key_material_of_nonempty_transfers_witness :
    (∀ f ∈ full_transfer_ledger.artfiles, f.iv.length > 0) ∧
    key_material_present full_transfer_ledger :=
  have hrun : run Ledger.empty full_transfer_trace = .ok full_transfer_ledger := rfl
  have hr : Reachable full_transfer_ledger := reachable_of_run ReachableBy.init hrun
  ⟨(key_material_of_nonempty_transfers full_transfer_ledger hr).1,
    (key_material_of_nonempty_transfers full_transfer_ledger hr).2
      (reachableBy_of_run ReachableBy.init hrun
        (by simp [trace_satisfies, full_transfer_trace, nonempty_transfer, exec, dispatch]))⟩

/-! ### The chunk counter (C28) -/

theorem bulk_chunks_ids (n : Nat) :
    ∀ r ∈ bulk_chunks n, r.chunk_id ≤ n ∧ r.file_id = 1 ∧ r.chunk_index < n := by
  induction n with
  | zero => intro r hr; cases hr
  | succ n ih =>
    intro r hr
    rw [bulk_chunks] at hr
    rcases List.mem_append.mp hr with h | h
    · obtain ⟨h1, h2, h3⟩ := ih r h
      exact ⟨Nat.le_succ_of_le h1, h2, Nat.lt_succ_of_lt h3⟩
    · rw [List.mem_singleton.mp h]
      exact ⟨Nat.le_refl _, rfl, Nat.lt_succ_self n⟩

theorem bulk_chunks_count (n : Nat) :
    (bulk_chunks n).countP (fun ch => ch.file_id = 1) = n := by
  rw [List.countP_eq_length.mpr]
  · induction n with
    | zero => rfl
    | succ n ih => rw [bulk_chunks, List.length_append, ih]; rfl
  · intro r hr
    simpa using (bulk_chunks_ids n r hr).2.1

/-- One more chunk of file 1, at index `n < 2^32`: the 32-bit counter becomes
`(n + 1) mod 2^32`. -/
theorem chunked_ledger_step (n : Nat) (h : n < 4294967296) :
    dispatch demo_ctx (chunked_ledger n) (.uploadchunk (n + 1) 1 7 n [1] 1) =
      .ok { chunked_ledger (u32 (n + 1)) with
        artchunks := bulk_chunks n ++ [⟨n + 1, 1, 7, n, [1], 1, 1704283200⟩] } := by
  show uploadchunk demo_ctx (chunked_ledger n) (n + 1) 1 7 n [1] 1 = _
  rw [uploadchunk_ok]
  refine ⟨Or.inl (by decide), Nat.succ_pos n, by decide, by decide, by decide,
    ⟨by decide, by decide⟩, _, rfl, rfl, rfl, ?_, ?_, ?_⟩
  · rw [tfind_none]
    intro r hr e
    have := (bulk_chunks_ids n r hr).1
    omega
  · rw [List.find?_eq_none]
    intro r hr
    obtain ⟨-, h2, h3⟩ := bulk_chunks_ids n r hr
    have e1 := by_file_index_eq r (by rw [h2]; norm_num) (by omega)
    have e2 := by_file_index_eq ⟨n + 1, 1, 7, n, [1], 1, 1704283200⟩ (by norm_num)
      (show n < 2 ^ 64 by omega)
    have e3 : ((1 <<< 64) % 2 ^ 128) ||| n = 2 ^ 64 * 1 + n := e2
    simp only [decide_eq_true_eq]
    rw [e1, e3, h2]
    omega
  · rfl

/-- Every `chunked_ledger n` with `n < 2^32` is reachable. -/
theorem chunked_ledger_reachable (n : Nat) (h : n ≤ 4294967295) :
    Reachable (chunked_ledger n) := by
  induction n with
  | zero =>
    exact reachable_of_run ReachableBy.init
      (show run Ledger.empty
        [(demo_ctx, .createart 1 7 [1] [] [] (List.replicate 44 0)),
         (demo_ctx, .addfile 1 1 7 [1] [1] 1000 0 [1] [] [1] [1] false)] =
          .ok (chunked_ledger 0) from rfl)
  | succ n ih =>
    have hstep := chunked_ledger_step n (by omega)
    rw [u32_of_lt (show n + 1 < 2 ^ 32 by norm_num; omega)] at hstep
    exact ReachableBy.next demo_ctx _ (ih (by omega)) trivial hstep

/-- C28 (counterexample): `uploaded_chunks` is a 32-bit counter and a file has
room for `2^32` chunk indices. The ledger `chunk_wrapped_ledger` is reachable
from the empty ledger by successful actions only (`createart`, `addfile`, then
`2^32` calls `uploadchunk` at the indices 0 to `2^32 - 1`); in it file 1 has
`2^32` chunk records and `uploaded_chunks = 0`. -/
theorem uploaded_chunks_wraps :
    Reachable chunk_wrapped_ledger ∧
    chunk_wrapped_ledger.artfiles =
      [new_file demo_ctx 1 1 7 [1] [1] 1000 0 [1] [] [1] [1] false] ∧
    (new_file demo_ctx 1 1 7 [1] [1] 1000 0 [1] [] [1] [1] false).uploaded_chunks = 0 ∧
    chunk_wrapped_ledger.artchunks.countP (fun ch => ch.file_id = 1) = 4294967296 ∧
    ¬ chunk_count_matches chunk_wrapped_ledger := by
  have hcount : chunk_wrapped_ledger.artchunks.countP (fun ch => ch.file_id = 1) =
      4294967296 := by
    show (bulk_chunks 4294967295 ++ _).countP _ = _
    rw [List.countP_append, bulk_chunks_count]
    rfl
  have hstep := chunked_ledger_step 4294967295 (by decide)
  rw [show u32 (4294967295 + 1) = 0 by decide] at hstep
  refine ⟨ReachableBy.next demo_ctx _ (chunked_ledger_reachable 4294967295 (Nat.le_refl _))
    trivial hstep, rfl, rfl, hcount, ?_⟩
  intro h
  have h1 := h (new_file demo_ctx 1 1 7 [1] [1] 1000 0 [1] [] [1] [1] false)
    (List.mem_singleton.mpr rfl)
  rw [show (new_file demo_ctx 1 1 7 [1] [1] 1000 0 [1] [] [1] [1] false).file_id = 1
    from rfl, hcount] at h1
  exact absurd h1 (by decide)

theorem reachable_chunk_parent_exists {s : Ledger} (h : Reachable s) :
    chunk_parent_exists s := by
  induction h with
  | init => intro ch hch; cases hch
  | next c a _ _ hd ih => exact dispatch_chunk_parent_exists ih hd

/-- Removing the chunks of other files does not change the number of chunks
of a file. -/
theorem count_chunks_filter (chunks : List artchunk) (q : Nat → Bool) (x : Nat)
    (hx : q x = true) :
    (chunks.filter (fun ch => q ch.file_id)).countP (fun ch => ch.file_id = x) =
      chunks.countP (fun ch => ch.file_id = x) := by
  rw [List.countP_filter]
  apply List.countP_congr
  intro ch _
  simp only [Bool.and_eq_true, decide_eq_true_eq]
  constructor
  · exact fun e => e.1
  · intro e; exact ⟨e, by rw [e]; exact hx⟩

/-- The chunk counter invariant is kept by every successful action on a ledger
without dangling chunks, as long as an `uploadchunk` does not take a file past
`2^32 - 1` chunks. -/
theorem dispatch_chunk_count_matches {c : Ctx} {s s1 : Ledger} {a : Action}
    (hp : chunk_parent_exists s) (h : chunk_count_matches s)
    (hr : room_for_chunk s a) (hd : dispatch c s a = .ok s1) : chunk_count_matches s1 := by
  unfold chunk_count_matches at *
  have hmod : ∀ (k : Nat) (F : artfile → artfile),
      (∀ r, (F r).file_id = r.file_id ∧ (F r).uploaded_chunks = r.uploaded_chunks) →
      ∀ f ∈ tmodify artfile.file_id s.artfiles k F,
        f.uploaded_chunks = s.artchunks.countP (fun ch => ch.file_id = f.file_id) := by
    intro k F hF f hf
    obtain ⟨r, hr1, e⟩ := mem_tmodify.mp hf
    by_cases hk : r.file_id = k
    · rw [if_pos hk] at e
      rw [e, (hF r).1, (hF r).2]
      exact h r hr1
    · rw [if_neg hk] at e; rw [e]; exact h r hr1
  cases a with
  | createart a o t d m k =>
    obtain ⟨-, rfl⟩ := createart_ok.mp hd; exact h
  | updateart a o d m =>
    obtain ⟨-, -, -, -, art, -, -, rfl⟩ := updateart_ok.mp hd; exact h
  | addfile f a o fn mt sz hh dek adeks iv tag th =>
    obtain ⟨-, -, s0, art, hq, -, -, hfree, -, rfl⟩ := addfile_ok.mp hd
    have hF : s0.artfiles = s.artfiles := by rw [check_and_update_quota_frame hq]
    have hC : s0.artchunks = s.artchunks := by rw [check_and_update_quota_frame hq]
    rw [hF] at hfree
    intro x hx
    show x.uploaded_chunks = s0.artchunks.countP _
    rw [hC]
    rcases List.mem_append.mp hx with hx | hx
    · exact h x (hF ▸ hx)
    · rw [List.mem_singleton.mp hx]
      show 0 = s.artchunks.countP (fun ch => ch.file_id = f)
      symm
      rw [List.countP_eq_zero]
      intro ch hch
      obtain ⟨y, hy, e⟩ := hp ch hch
      have := tfind_none.mp hfree y hy
      simpa using fun e1 : ch.file_id = f => this (e.trans e1)
  | uploadchunk ch f o i data sz =>
    obtain ⟨-, -, -, -, -, -, file, -, -, -, -, -, rfl⟩ := uploadchunk_ok.mp hd
    intro x hx
    obtain ⟨r, hr1, e⟩ := mem_tmodify.mp hx
    have h1 := h r hr1
    show x.uploaded_chunks =
      (s.artchunks ++ [(⟨ch, f, o, i, data, sz, c.now⟩ : artchunk)]).countP _
    rw [List.countP_append]
    by_cases hk : r.file_id = f
    · rw [if_pos hk] at e
      have hroom : r.uploaded_chunks + 1 < 2 ^ 32 := by
        rw [h1, hk]; exact hr
      rw [e]
      show u32 (r.uploaded_chunks + 1) =
        s.artchunks.countP (fun ch => ch.file_id = r.file_id) +
          [(⟨ch, f, o, i, data, sz, c.now⟩ : artchunk)].countP
            (fun ch => ch.file_id = r.file_id)
      rw [u32_of_lt hroom, ← h1]
      simp [hk]
    · rw [if_neg hk] at e
      rw [e, h1]
      have : ¬ f = r.file_id := fun e1 => hk e1.symm
      simp [this]
  | completefile f o n =>
    obtain ⟨-, -, -, file, -, -, -, -, rfl⟩ := completefile_ok.mp hd
    exact hmod _ _ (fun _ => ⟨rfl, rfl⟩)
  | setquota acc t dfl dsl wfl wsl =>
    obtain ⟨-, ⟨-, rfl⟩ | ⟨-, rfl⟩⟩ := setquota_ok.mp hd <;> exact h
  | addadminkey acc pk d =>
    obtain ⟨-, -, -, -, -, rfl⟩ := addadminkey_ok.mp hd; exact h
  | rmadminkey k =>
    obtain ⟨-, -, rfl⟩ := rmadminkey_ok.mp hd; exact h
  | logaccess acc f r =>
    obtain ⟨-, -, -, -, -, -, rfl⟩ := logaccess_ok.mp hd; exact h
  | deletefile f a o =>
    obtain ⟨-, -, -, art, file, -, -, -, -, -, rfl⟩ := deletefile_ok.mp hd
    intro x hx
    obtain ⟨hx1, hx2⟩ := mem_terase.mp hx
    show x.uploaded_chunks = (erase_chunks_of s.artchunks f).countP _
    unfold erase_chunks_of
    rw [count_chunks_filter s.artchunks (fun k => decide (k ≠ f)) x.file_id (by simpa using hx2)]
    exact h x hx1
  | deleteart a o =>
    obtain ⟨-, art, -, -, rfl⟩ := deleteart_ok.mp hd
    intro x hx
    have hx1 : x ∈ (deleteart_loop (s.artfiles.filter (fun f => f.artwork_id = a))
      s.artfiles s.artchunks).1 := hx
    show x.uploaded_chunks = (deleteart_loop _ s.artfiles s.artchunks).2.countP _
    rw [deleteart_loop_eq] at hx1 ⊢
    obtain ⟨hx2, hx3⟩ := List.mem_filter.mp hx1
    rw [count_chunks_filter s.artchunks
      (fun k => decide (k ∉ (s.artfiles.filter (fun f => f.artwork_id = a)).map artfile.file_id))
      x.file_id hx3]
    exact h x hx2
  | transferart x fr rc ids deks tags memo =>
    have hd1 : transferart c s x fr rc ids deks tags memo = .ok s1 := hd
    obtain ⟨-, -, hl1, hl2, art, files, -, -, hloop, rfl⟩ := transferart_ok.mp hd1
    obtain ⟨g, rfl, hg, -, -, -⟩ := transfer_loop_ok x fr rc ids deks tags _ _ hl1 hl2 hloop
    intro y hy
    obtain ⟨r, hr1, rfl⟩ := List.mem_map.mp hy
    show (g r).uploaded_chunks = s.artchunks.countP (fun ch => ch.file_id = (g r).file_id)
    rw [hg r]
    exact h r hr1
  | addadmindek f d =>
    obtain ⟨-, -, -, file, -, -, rfl⟩ := addadmindek_ok.mp hd
    exact hmod _ _ (fun _ => ⟨rfl, rfl⟩)

/-- C28 (amended). The chunk counter matches the stored chunks: in every state
reached from the empty ledger by successful actions in which no `uploadchunk`
takes a file to `2^32` chunks, every file's `uploaded_chunks` equals the number
of chunk records whose `file_id` is that file's id; so a `completefile` that
succeeds in such a state declares the number of chunks stored for the file. -/
theorem chunk_count_invariant (s : Ledger) (h : ReachableBy room_for_chunk s) :
    chunk_count_matches s ∧
    (∀ (c : Ctx) (file_id : Nat) (o : Name) (total_chunks : Nat) (s1 : Ledger),
      completefile c s file_id o total_chunks = .ok s1 →
      s.artchunks.countP (fun ch => ch.file_id = file_id) = total_chunks) := by
  have hinv : chunk_count_matches s := by
    induction h with
    | init => intro f hf; cases hf
    | next c a hs hr hd ih =>
      exact dispatch_chunk_count_matches
        (reachable_chunk_parent_exists (reachable_of_reachableBy hs)) ih hr hd
  refine ⟨hinv, ?_⟩
  intro c file_id o total_chunks s1 hc
  obtain ⟨-, -, -, file, hfile, -, -, hup, -⟩ := completefile_ok.mp hc
  obtain ⟨hmem, hid⟩ := tfind_some hfile
  rw [← hup, hinv file hmem, hid]

/-- C28 (amended) on `two_chunk_ledger`, reached by two `uploadchunk` calls:
file 1 counts two chunks, and two are stored. -/
theorem chunk_count_invariant_witness :
    ReachableBy room_for_chunk two_chunk_ledger ∧ chunk_count_matches two_chunk_ledger ∧
    completefile demo_ctx two_chunk_ledger 1 7 2 = .ok completed_ledger ∧
    two_chunk_ledger.artchunks.countP (fun ch => ch.file_id = 1) = 2 :=
  have hrun : run Ledger.empty two_chunk_trace = .ok two_chunk_ledger := rfl
  have hr : ReachableBy room_for_chunk two_chunk_ledger :=
    reachableBy_of_run ReachableBy.init hrun
      (by simp [trace_satisfies, two_chunk_trace, room_for_chunk, exec, dispatch]; decide)
  have hc : completefile demo_ctx two_chunk_ledger 1 7 2 = .ok completed_ledger := rfl
  ⟨hr, (chunk_count_invariant two_chunk_ledger hr).1, hc,
    (chunk_count_invariant two_chunk_ledger hr).2 demo_ctx 1 7 2 _ hc⟩

/-! ### Identifier scans (C21, C26) -/

/-- The scan `if (key >= id) id = key + 1` over rows whose keys stay below
`2^64 - 1`: the result is above the start value or equal to it, above every
key, and is the start value or a key plus one. -/
theorem scan_spec {α : Type} (key : α → Nat) :
    ∀ (l : List α) (init : Nat), (∀ r ∈ l, key r + 1 < 2 ^ 64) →
      init ≤ l.foldl (fun acc r => if key r ≥ acc then u64 (key r + 1) else acc) init ∧
      (∀ r ∈ l, key r <
        l.foldl (fun acc r => if key r ≥ acc then u64 (key r + 1) else acc) init) ∧
      (l.foldl (fun acc r => if key r ≥ acc then u64 (key r + 1) else acc) init = init ∨
        ∃ r ∈ l,
          l.foldl (fun acc r => if key r ≥ acc then u64 (key r + 1) else acc) init =
            key r + 1) := by
  intro l
  induction l with
  | nil =>
    intro init _
    refine ⟨Nat.le_refl _, ?_, Or.inl rfl⟩
    intro r hr
    cases hr
  | cons x xs ih =>
    intro init hfit
    have hx : key x + 1 < 2 ^ 64 := hfit x (List.mem_cons_self _ _)
    have hxs : ∀ r ∈ xs, key r + 1 < 2 ^ 64 := fun r hr => hfit r (List.mem_cons_of_mem _ hr)
    rw [List.foldl_cons]
    obtain ⟨h1, h2, h3⟩ := ih (if key x ≥ init then u64 (key x + 1) else init) hxs
    have hstep : init ≤ (if key x ≥ init then u64 (key x + 1) else init) ∧
        key x < (if key x ≥ init then u64 (key x + 1) else init) := by
      by_cases hk : key x ≥ init
      · rw [if_pos hk, u64_of_lt hx]; omega
      · rw [if_neg hk]; omega
    refine ⟨Nat.le_trans hstep.1 h1, ?_, ?_⟩
    · intro r hr
      rcases List.mem_cons.mp hr with e | hr
      · rw [e]; exact Nat.lt_of_lt_of_le hstep.2 h1
      · exact h2 r hr
    · rcases h3 with e | ⟨r, hr, e⟩
      · by_cases hk : key x ≥ init
        · right
          refine ⟨x, List.mem_cons_self _ _, ?_⟩
          rw [e, if_pos hk, u64_of_lt hx]
        · left
          rw [e, if_neg hk]
      · exact Or.inr ⟨r, List.mem_cons_of_mem _ hr, e⟩

/-- The identifier found by a scan started at 1 over rows whose keys stay
below `2^64 - 1`, stated for any list with the same members as the scanned
one: 1 for no row, otherwise the largest key plus one. -/
theorem scan_next_id {α : Type} (key : α → Nat) (l t : List α)
    (hmem : ∀ r, r ∈ l ↔ r ∈ t) (hfit : ∀ r ∈ t, key r + 1 < 2 ^ 64) :
    (∀ r ∈ t, key r < l.foldl (fun acc r => if key r ≥ acc then u64 (key r + 1) else acc) 1) ∧
    (t = [] → l.foldl (fun acc r => if key r ≥ acc then u64 (key r + 1) else acc) 1 = 1) ∧
    (t ≠ [] → ∃ r ∈ t, (∀ r1 ∈ t, key r1 ≤ key r) ∧
      l.foldl (fun acc r => if key r ≥ acc then u64 (key r + 1) else acc) 1 = key r + 1) := by
  obtain ⟨h1, h2, h3⟩ := scan_spec key l 1 (fun r hr => hfit r ((hmem r).mp hr))
  refine ⟨fun r hr => h2 r ((hmem r).mpr hr), ?_, ?_⟩
  · intro ht
    rcases h3 with e | ⟨r, hr, -⟩
    · exact e
    · have := (hmem r).mp hr
      rw [ht] at this
      cases this
  · intro ht
    rcases h3 with e | ⟨r, hr, e⟩
    · obtain ⟨r, hr⟩ := List.exists_mem_of_ne_nil t ht
      have h0 : ∀ r1 ∈ t, key r1 = 0 := by
        intro r1 hr1
        have := h2 r1 ((hmem r1).mpr hr1)
        omega
      exact ⟨r, hr, fun r1 hr1 => by rw [h0 r1 hr1]; exact Nat.zero_le _,
        by rw [e, h0 r hr]⟩
    · refine ⟨r, (hmem r).mp hr, ?_, e⟩
      intro r1 hr1
      have := h2 r1 ((hmem r1).mpr hr1)
      omega

theorem next_key_id_spec (keys : List adminkey) (hfit : ∀ k ∈ keys, k.key_id + 1 < 2 ^ 64) :
    (∀ k ∈ keys, k.key_id < next_key_id keys) ∧
    (keys = [] → next_key_id keys = 1) ∧
    (keys ≠ [] → ∃ k ∈ keys, (∀ k1 ∈ keys, k1.key_id ≤ k.key_id) ∧
      next_key_id keys = k.key_id + 1) :=
  scan_next_id adminkey.key_id (keys.insertionSort by_admin_le) keys
    (fun _ => (List.perm_insertionSort by_admin_le keys).mem_iff) hfit

theorem next_log_id_spec (logs : List adminaccesslog)
    (hfit : ∀ l ∈ logs, l.log_id + 1 < 2 ^ 64) :
    (∀ l ∈ logs, l.log_id < next_log_id logs) ∧
    (logs = [] → next_log_id logs = 1) ∧
    (logs ≠ [] → ∃ l ∈ logs, (∀ l1 ∈ logs, l1.log_id ≤ l.log_id) ∧
      next_log_id logs = l.log_id + 1) :=
  scan_next_id adminaccesslog.log_id (logs.insertionSort (fun a b => a.log_id ≤ b.log_id)) logs
    (fun _ => (List.perm_insertionSort _ logs).mem_iff) hfit

theorem dispatch_key_ids_unique {c : Ctx} {s s1 : Ledger} {a : Action}
    (h : key_ids_unique s) (hd : dispatch c s a = .ok s1) : key_ids_unique s1 := by
  unfold key_ids_unique at *
  rcases dispatch_adminkeys hd with e | ⟨acc, pk, d, -, -, hfree, e⟩ | ⟨k, -, e⟩
  · rw [e]; exact h
  · rw [e, List.map_append]
    refine List.Nodup.append h (List.nodup_singleton _) ?_
    intro x hx hy
    obtain ⟨k, hk, rfl⟩ := List.mem_map.mp hx
    rw [List.map_cons, List.map_nil, List.mem_singleton] at hy
    exact tfind_none.mp hfree k hk hy
  · have hm : (tmodify adminkey.key_id s.adminkeys k
        (fun row => { row with is_active := false })).map adminkey.key_id =
        s.adminkeys.map adminkey.key_id := map_key_tmodify _ _ _ (fun _ => rfl)
    rw [e, hm]
    exact h

/-! ### The access log (C26) -/

/-- What a successful action does to the access log: nothing, or (`logaccess`)
one entry appended. -/
theorem dispatch_logs {c : Ctx} {s s1 : Ledger} {a : Action} (hd : dispatch c s a = .ok s1) :
    s1.logs = s.logs ∨
    ∃ acc f r, a = .logaccess acc f r ∧
      s1.logs = s.logs ++ [⟨next_log_id s.logs, acc, f, r, c.now⟩] := by
  cases a with
  | createart a o t d m k =>
    obtain ⟨-, rfl⟩ := createart_ok.mp hd; exact Or.inl rfl
  | updateart a o d m =>
    obtain ⟨-, -, -, -, art, -, -, rfl⟩ := updateart_ok.mp hd; exact Or.inl rfl
  | addfile f a o fn mt sz hh dek adeks iv tag th =>
    obtain ⟨-, -, s0, art, hq, -, -, -, -, rfl⟩ := addfile_ok.mp hd
    left
    show s0.logs = s.logs
    rw [check_and_update_quota_frame hq]
  | uploadchunk ch f o i data sz =>
    obtain ⟨-, -, -, -, -, -, file, -, -, -, -, -, rfl⟩ := uploadchunk_ok.mp hd
    exact Or.inl rfl
  | completefile f o n =>
    obtain ⟨-, -, -, file, -, -, -, -, rfl⟩ := completefile_ok.mp hd; exact Or.inl rfl
  | setquota acc t dfl dsl wfl wsl =>
    obtain ⟨-, ⟨-, rfl⟩ | ⟨-, rfl⟩⟩ := setquota_ok.mp hd <;> exact Or.inl rfl
  | addadminkey acc pk d =>
    obtain ⟨-, -, -, -, -, rfl⟩ := addadminkey_ok.mp hd; exact Or.inl rfl
  | rmadminkey k =>
    obtain ⟨-, -, rfl⟩ := rmadminkey_ok.mp hd; exact Or.inl rfl
  | logaccess acc f r =>
    obtain ⟨-, -, -, -, -, -, rfl⟩ := logaccess_ok.mp hd
    exact Or.inr ⟨acc, f, r, rfl, rfl⟩
  | deletefile f a o =>
    obtain ⟨-, -, -, art, file, -, -, -, -, -, rfl⟩ := deletefile_ok.mp hd; exact Or.inl rfl
  | deleteart a o =>
    obtain ⟨-, art, -, -, rfl⟩ := deleteart_ok.mp hd; exact Or.inl rfl
  | transferart x fr rc ids deks tags memo =>
    have hd1 : transferart c s x fr rc ids deks tags memo = .ok s1 := hd
    obtain ⟨-, -, -, -, art, files, -, -, -, rfl⟩ := transferart_ok.mp hd1
    exact Or.inl rfl
  | addadmindek f d =>
    obtain ⟨-, -, -, file, -, -, rfl⟩ := addadmindek_ok.mp hd; exact Or.inl rfl

/-! ### Admin key identifiers (C21) -/

/-- In a reachable state whose key table holds fewer than `2^64 - 1` rows the
key ids lie between 1 and the number of rows. -/
theorem reachable_key_ids_within {s : Ledger} (h : Reachable s) :
    s.adminkeys.length + 1 < 2 ^ 64 →
      ∀ k ∈ s.adminkeys, 1 ≤ k.key_id ∧ k.key_id ≤ s.adminkeys.length := by
  induction h with
  | init => intro _ k hk; cases hk
  | @next s0 s1 c a _ _ hd ih =>
    intro hcap
    rcases dispatch_adminkeys hd with e | ⟨acc, pk, d, -, -, -, e⟩ | ⟨k0, -, e⟩
    · rw [e] at hcap ⊢; exact ih hcap
    · rw [e, List.length_append, List.length_singleton] at hcap
      have hold := ih (by omega)
      obtain ⟨-, h2, h3⟩ := next_key_id_spec s0.adminkeys (fun k hk => by have := (hold k hk).2; omega)
      rw [e, List.length_append, List.length_singleton]
      intro k hk
      rcases List.mem_append.mp hk with hk | hk
      · have := hold k hk; omega
      · rw [List.mem_singleton.mp hk]
        show 1 ≤ next_key_id s0.adminkeys ∧ next_key_id s0.adminkeys ≤ _
        by_cases hnil : s0.adminkeys = []
        · rw [h2 hnil]; omega
        · obtain ⟨k1, hk1, -, e1⟩ := h3 hnil
          have := hold k1 hk1
          rw [e1]; omega
    · have hlen : (tmodify adminkey.key_id s0.adminkeys k0
          (fun row : adminkey => { row with is_active := false })).length =
          s0.adminkeys.length :=
        List.length_map _ _
      rw [e, hlen] at hcap ⊢
      intro k hk
      obtain ⟨r, hr, e1⟩ := mem_tmodify.mp hk
      have := ih hcap r hr
      by_cases hk0 : r.key_id = k0
      · rw [if_pos hk0] at e1; rw [e1]; exact this
      · rw [if_neg hk0] at e1; rw [e1]; exact this

theorem reachable_key_ids_unique {s : Ledger} (h : Reachable s) : key_ids_unique s := by
  induction h with
  | init => exact List.nodup_nil
  | next c a _ _ hd ih => exact dispatch_key_ids_unique ih hd

/-- C21. Admin key identifier assignment: in every reachable state (the key
table holding fewer than `2^64 - 1` rows, as every store does) a successful
`addadminkey` appends exactly one key record, with `is_active = true`, whose
`key_id` is 1 when no key record exists and otherwise the largest stored
`key_id` plus one, hence above every stored `key_id`; every successful action
keeps every stored identifier, and in every reachable state the key ids are
pairwise distinct. -/
theorem addadminkey_assigns_next_id (c : Ctx) (s s1 : Ledger) (admin_account : Name)
    (public_key description : Bytes) (hs : Reachable s)
    (hcap : s.adminkeys.length + 1 < 2 ^ 64)
    (h : addadminkey c s admin_account public_key description = .ok s1) :
    (∃ id, s1 = { s with
        adminkeys := s.adminkeys ++
          [⟨id, admin_account, public_key, description, c.now, true⟩] } ∧
      (s.adminkeys = [] → id = 1) ∧
      (s.adminkeys ≠ [] → ∃ k ∈ s.adminkeys,
        (∀ k1 ∈ s.adminkeys, k1.key_id ≤ k.key_id) ∧ id = k.key_id + 1) ∧
      (∀ k ∈ s.adminkeys, k.key_id < id) ∧
      id = s.adminkeys.length + 1) ∧
    (∀ (c1 : Ctx) (a : Action) (s2 : Ledger), dispatch c1 s a = .ok s2 →
      ∀ k ∈ s.adminkeys, ∃ k1 ∈ s2.adminkeys, k1.key_id = k.key_id) ∧
    (∀ r : Ledger, Reachable r → key_ids_unique r) := by
  obtain ⟨-, -, -, -, hfree, hs1⟩ := addadminkey_ok.mp h
  have hin := reachable_key_ids_within hs hcap
  obtain ⟨h1, h2, h3⟩ := next_key_id_spec s.adminkeys
    (fun k hk => by have := (hin k hk).2; omega)
  refine ⟨⟨next_key_id s.adminkeys, hs1, h2, h3, h1, ?_⟩, ?_, ?_⟩
  · -- the ids of the reached table are distinct and lie in `1 .. length`
    by_cases hnil : s.adminkeys = []
    · rw [h2 hnil, hnil]; rfl
    · obtain ⟨k, hk, -, e⟩ := h3 hnil
      have hle : next_key_id s.adminkeys ≤ s.adminkeys.length + 1 := by
        have := (hin k hk).2; omega
      have hnd : (s.adminkeys.map adminkey.key_id).Nodup := reachable_key_ids_unique hs
      -- 0 and the `length` distinct stored ids all lie below `next_key_id`
      have hnd0 : (0 :: s.adminkeys.map adminkey.key_id).Nodup := by
        refine List.nodup_cons.mpr ⟨?_, hnd⟩
        intro h0
        obtain ⟨k1, hk1, e1⟩ := List.mem_map.mp h0
        have := (hin k1 hk1).1
        omega
      have hsub : (0 :: s.adminkeys.map adminkey.key_id) ⊆
          List.range (next_key_id s.adminkeys) := by
        intro x hx
        rw [List.mem_range]
        rcases List.mem_cons.mp hx with rfl | hx
        · omega
        · obtain ⟨k1, hk1, rfl⟩ := List.mem_map.mp hx
          exact h1 k1 hk1
      have hcard := (List.subperm_of_subset hnd0 hsub).length_le
      rw [List.length_cons, List.length_map, List.length_range] at hcard
      omega
  · intro c1 a s2 hd k hk
    rcases dispatch_adminkeys hd with e | ⟨acc, pk, d, -, -, -, e⟩ | ⟨k0, -, e⟩
    · exact ⟨k, e ▸ hk, rfl⟩
    · exact ⟨k, e ▸ List.mem_append_left _ hk, rfl⟩
    · refine ⟨_, e ▸ mem_tmodify.mpr ⟨k, hk, rfl⟩, ?_⟩
      by_cases hk0 : k.key_id = k0
      · rw [if_pos hk0]
      · rw [if_neg hk0]
  · exact fun r hr => reachable_key_ids_unique hr

/-- C21 on `three_key_ledger`, reached by `three_key_trace`: the fourth key
gets the identifier 4, above the stored identifiers 1, 2 and 3. -/
theorem addadminkey_assigns_next_id_witness :
    run Ledger.empty three_key_trace = .ok three_key_ledger ∧
    addadminkey service_ctx three_key_ledger 1 (List.replicate 44 4) [1] =
      .ok { three_key_ledger with
        adminkeys := three_key_ledger.adminkeys ++
          [⟨4, 1, List.replicate 44 4, [1], 1704283200, true⟩] } ∧
    ∃ id, id = 4 ∧ (∀ k ∈ three_key_ledger.adminkeys, k.key_id < id) ∧
      ∃ k ∈ three_key_ledger.adminkeys,
        (∀ k1 ∈ three_key_ledger.adminkeys, k1.key_id ≤ k.key_id) ∧ id = k.key_id + 1 :=
  have hrun : run Ledger.empty three_key_trace = .ok three_key_ledger := rfl
  have hok : addadminkey service_ctx three_key_ledger 1 (List.replicate 44 4) [1] =
      .ok { three_key_ledger with
        adminkeys := three_key_ledger.adminkeys ++
          [⟨4, 1, List.replicate 44 4, [1], 1704283200, true⟩] } := rfl
  have h := (addadminkey_assigns_next_id service_ctx three_key_ledger _ 1
    (List.replicate 44 4) [1] (reachable_of_run ReachableBy.init hrun) (by decide) hok).1
  ⟨hrun, hok, by
    obtain ⟨id, -, -, hmax, hlt, hid⟩ := h
    have h4 : id = 4 := hid
    exact ⟨id, h4, hlt, hmax (by decide)⟩⟩

/-! ### The access log: admission and identifiers (C26) -/

/-- In a reachable state whose log holds fewer than `2^64 - 1` entries the log
ids lie between 1 and the number of entries. -/
theorem reachable_log_ids_within {s : Ledger} (h : Reachable s) :
    s.logs.length + 1 < 2 ^ 64 → ∀ l ∈ s.logs, 1 ≤ l.log_id ∧ l.log_id ≤ s.logs.length := by
  induction h with
  | init => intro _ l hl; cases hl
  | @next s0 s1 c a _ _ hd ih =>
    intro hcap
    rcases dispatch_logs hd with e | ⟨acc, f, r, -, e⟩
    · rw [e] at hcap ⊢; exact ih hcap
    · rw [e, List.length_append, List.length_singleton] at hcap
      have hold := ih (by omega)
      obtain ⟨-, h2, h3⟩ := next_log_id_spec s0.logs
        (fun l hl => by have := (hold l hl).2; omega)
      rw [e, List.length_append, List.length_singleton]
      intro l hl
      rcases List.mem_append.mp hl with hl | hl
      · have := hold l hl; omega
      · rw [List.mem_singleton.mp hl]
        show 1 ≤ next_log_id s0.logs ∧ next_log_id s0.logs ≤ _
        by_cases hnil : s0.logs = []
        · rw [h2 hnil]; omega
        · obtain ⟨l1, hl1, -, e1⟩ := h3 hnil
          have := hold l1 hl1
          rw [e1]; omega

/-- C26. Audit log admission and append-only growth: in every reachable state
(the log holding fewer than `2^64 - 1` entries, as every store does), for a
`logaccess` call signed by `admin_account` with `file_id > 0` and a reason of
1..512 characters: it fails with file-not-found if the file does not exist;
otherwise it succeeds if and only if some key record has `admin_account` equal
to the caller and `is_active = true`, and fails with the no-active-key error
when there is none.  On success exactly one entry is appended, its `log_id` is
1 for an empty log and otherwise the largest stored `log_id` plus one, and the
stored entries are unchanged; every other successful action leaves the log as
it is. -/
theorem logaccess_admission (c : Ctx) (s : Ledger) (admin_account : Name) (file_id : Nat)
    (reason : Bytes) (hs : Reachable s) (hcap : s.logs.length + 1 < 2 ^ 64)
    (hauth : c.has_auth admin_account) (hid : file_id > 0)
    (hr1 : reason.length > 0) (hr2 : reason.length ≤ 512) :
    (tfind artfile.file_id s.artfiles file_id = none →
      logaccess c s admin_account file_id reason = .error .file_not_found) ∧
    ((tfind artfile.file_id s.artfiles file_id).isSome →
      (¬ holds_active_key s admin_account →
        logaccess c s admin_account file_id reason = .error .no_active_admin_key) ∧
      ((∃ s1, logaccess c s admin_account file_id reason = .ok s1) ↔
        holds_active_key s admin_account)) ∧
    (∀ s1, logaccess c s admin_account file_id reason = .ok s1 →
      ∃ id, s1 = { s with
          logs := s.logs ++ [⟨id, admin_account, file_id, reason, c.now⟩] } ∧
        (s.logs = [] → id = 1) ∧
        (s.logs ≠ [] → ∃ l ∈ s.logs, (∀ l1 ∈ s.logs, l1.log_id ≤ l.log_id) ∧
          id = l.log_id + 1) ∧
        (∀ l ∈ s.logs, l.log_id < id)) ∧
    (∀ (c1 : Ctx) (a : Action) (s1 : Ledger), dispatch c1 s a = .ok s1 →
      s1.logs = s.logs ∨
      ∃ acc f r entry, a = .logaccess acc f r ∧ s1.logs = s.logs ++ [entry]) := by
  have hin := reachable_log_ids_within hs hcap
  obtain ⟨h1, h2, h3⟩ := next_log_id_spec s.logs
    (fun l hl => by have := (hin l hl).2; omega)
  refine ⟨?_, ?_, ?_, ?_⟩
  · intro hnone
    unfold logaccess require_auth
    simp only [check, bind, Except.bind, if_pos hauth, if_pos hid, if_pos (And.intro hr1 hr2),
      hnone, Option.isSome_none, Bool.false_eq_true, if_false]
  · intro hfile
    constructor
    · intro hno
      unfold holds_active_key at hno
      unfold logaccess require_auth
      simp only [check, bind, Except.bind, if_pos hauth, if_pos hid,
        if_pos (And.intro hr1 hr2), if_pos hfile, if_neg hno]
    · constructor
      · rintro ⟨s1, h⟩
        obtain ⟨-, -, -, -, hkey, -, -⟩ := logaccess_ok.mp h
        exact hkey
      · intro hkey
        refine ⟨_, logaccess_ok.mpr ⟨hauth, hid, ⟨hr1, hr2⟩, hfile, hkey, ?_, rfl⟩⟩
        rw [tfind_none]
        intro l hl e
        have := h1 l hl
        omega
  · intro s1 h
    obtain ⟨-, -, -, -, -, -, hs1⟩ := logaccess_ok.mp h
    exact ⟨next_log_id s.logs, hs1, h2, h3, h1⟩
  · intro c1 a s1 hd
    rcases dispatch_logs hd with e | ⟨acc, f, r, ha, e⟩
    · exact Or.inl e
    · exact Or.inr ⟨acc, f, r, _, ha, e⟩

/-- C26 on `escrowed_ledger`, reached by `escrowed_trace`, and on
`removed_key_ledger`: account 1 holds the only key; while it is active its
access to file 1 is logged as entry 1, once it is deactivated the call is
refused. -/
theorem logaccess_admission_witness :
    run Ledger.empty escrowed_trace = .ok escrowed_ledger ∧
    logaccess service_ctx escrowed_ledger 1 1 [1] =
      .ok { escrowed_ledger with logs := [⟨1, 1, 1, [1], 1704283200⟩] } ∧
    ((∃ s1, logaccess service_ctx escrowed_ledger 1 1 [1] = .ok s1) ↔
      holds_active_key escrowed_ledger 1) ∧
    logaccess service_ctx removed_key_ledger 1 1 [1] = .error .no_active_admin_key ∧
    logaccess service_ctx escrowed_ledger 1 2 [1] = .error .file_not_found :=
  have hrun : run Ledger.empty escrowed_trace = .ok escrowed_ledger := rfl
  have h := logaccess_admission service_ctx escrowed_ledger 1 1 [1]
    (reachable_of_run ReachableBy.init hrun) (by decide) (by decide) (by decide) (by decide)
    (by decide)
  ⟨hrun, rfl, (h.2.1 rfl).2, rfl, rfl⟩

/-! ### AddFile error kinds (C20) -/

/-- A failure of `check_and_update_quota` is one of the four quota errors. -/
theorem check_and_update_quota_error {c : Ctx} {s : Ledger} {account : Name}
    {file_size : Nat} {e : Err}
    (h : check_and_update_quota c s account file_size = .error e) : e ∈ quota_errors := by
  unfold check_and_update_quota at h
  cases hq : tfind usagequota.account s.quotas account with
  | none =>
    simp only [hq, templace, default_quota, Option.isSome_none, Bool.false_eq_true, if_false,
      bind, Except.bind, pure, Except.pure] at h
    cases h
  | some stored =>
    simp only [hq] at h
    cases hu : quota_update c.now file_size stored with
    | ok row => simp [hu, bind, Except.bind, pure, Except.pure] at h
    | error e1 =>
      simp only [hu, bind, Except.bind] at h
      cases h
      by_cases hp : checks_pass (reset_quota_if_expired stored c.now).1 file_size
      · have := (quota_update_ok_iff c.now file_size stored _).mpr ⟨hp, rfl⟩
        rw [hu] at this
        cases this
      · obtain ⟨e2, he2, hmem⟩ := quota_update_error c.now file_size stored hp
        rw [hu] at he2
        cases he2
        exact hmem

/-- C20, as stated, fails: in `spent_quota_ledger`, reached by
`spent_quota_trace`, the quota record of account 7 is used up; an `addfile` of
account 7 with valid fields on the missing artwork 9 fails with the
daily-file-count quota error, not with artwork-not-found, and so does one on
its own artwork 1 with the taken `file_id` 1. -/
theorem addfile_quota_error_comes_first :
    run Ledger.empty spent_quota_trace = .ok spent_quota_ledger ∧
    addfile_fields_valid 2 9 [1] [1] 1000 [1] [1] [1] ∧
    tfind artwork.artwork_id spent_quota_ledger.artworks 9 = none ∧
    addfile demo_ctx spent_quota_ledger 2 9 7 [1] [1] 1000 0 [1] [] [1] [1] false =
      .error .daily_file_count_exceeded ∧
    (tfind artfile.file_id spent_quota_ledger.artfiles 1).isSome ∧
    addfile demo_ctx spent_quota_ledger 1 1 7 [1] [1] 1000 0 [1] [] [1] [1] false =
      .error .daily_file_count_exceeded :=
  ⟨rfl, by unfold addfile_fields_valid; decide, rfl, rfl, rfl, rfl⟩

/-- C20 (amended). AddFile error kinds: for an `addfile` call by the owner with
valid field bounds, when the call passes quota admission: if no artwork with
the given id exists the call fails with artwork-not-found; if the artwork
exists but its owner is not the caller, with artwork-owner-mismatch; if the
artwork is the caller's but `file_id` is taken, with file-id-already-exists.
When the caller's quota record rejects the file, the call fails with that
quota error, one of the four, whatever the artwork and the `file_id`. -/
theorem addfile_error_kinds (c : Ctx) (s : Ledger) (file_id artwork_id : Nat)
    (owner : Name) (filename mime : Bytes) (file_size file_hash : Nat) (dek : Bytes)
    (admin_deks : List Bytes) (iv tag : Bytes) (thumb : Bool)
    (hauth : c.has_auth owner)
    (hvalid : addfile_fields_valid file_id artwork_id filename mime file_size dek iv tag) :
    (∀ s1, check_and_update_quota c s owner file_size = .ok s1 →
      (tfind artwork.artwork_id s.artworks artwork_id = none →
        addfile c s file_id artwork_id owner filename mime file_size file_hash dek
          admin_deks iv tag thumb = .error .artwork_not_found) ∧
      (∀ art, tfind artwork.artwork_id s.artworks artwork_id = some art →
        art.owner ≠ owner →
        addfile c s file_id artwork_id owner filename mime file_size file_hash dek
          admin_deks iv tag thumb = .error .artwork_owner_mismatch) ∧
      (∀ art, tfind artwork.artwork_id s.artworks artwork_id = some art →
        art.owner = owner → (tfind artfile.file_id s.artfiles file_id).isSome →
        addfile c s file_id artwork_id owner filename mime file_size file_hash dek
          admin_deks iv tag thumb = .error .file_id_exists)) ∧
    (∀ e, check_and_update_quota c s owner file_size = .error e →
      e ∈ quota_errors ∧
      addfile c s file_id artwork_id owner filename mime file_size file_hash dek
        admin_deks iv tag thumb = .error e) := by
  obtain ⟨v1, v2, v3, v4, v5, v6, v7, v8, v9, v10⟩ := hvalid
  constructor
  · intro s1 hquota
    have hfr := check_and_update_quota_frame hquota
    have hA : s1.artworks = s.artworks := by rw [hfr]
    have hF : s1.artfiles = s.artfiles := by rw [hfr]
    refine ⟨?_, ?_, ?_⟩
    · intro hart
      unfold addfile
      simp only [require_auth, check, hauth, v1, v2, v3, v4, v5, v6, v7, v8, v9, v10, hquota,
        hA, hart, if_true, bind, Except.bind, and_self]
      rfl
    · intro art hart hown
      unfold addfile
      simp only [require_auth, check, hauth, v1, v2, v3, v4, v5, v6, v7, v8, v9, v10, hquota,
        hA, hart, hown, if_true, if_false, bind, Except.bind, and_self]
    · intro art hart hown htaken
      obtain ⟨g, hg⟩ := Option.isSome_iff_exists.mp htaken
      unfold addfile
      simp only [require_auth, check, hauth, v1, v2, v3, v4, v5, v6, v7, v8, v9, v10, hquota,
        hA, hF, hart, hown, hg, if_true, if_false, bind, Except.bind, and_self,
        Option.isNone_some, Bool.false_eq_true]
  · intro e hquota
    refine ⟨check_and_update_quota_error hquota, ?_⟩
    unfold addfile
    simp only [require_auth, check, hauth, v1, v2, v3, v4, v5, v6, v7, v8, v9, v10, hquota,
      if_true, bind, Except.bind, and_self]

/-- C20 (amended) on `two_file_ledger` and `spent_quota_ledger`, reached by
`two_file_trace` and `spent_quota_trace`: account 7 names the missing artwork 2; account 8, without a quota record, names artwork
1 of account 7; account 7 names its artwork 1 and the taken `file_id` 1; and
with its quota used up account 7 gets the quota error. -/
theorem addfile_error_kinds_witness :
    run Ledger.empty two_file_trace = .ok two_file_ledger ∧
    run Ledger.empty spent_quota_trace = .ok spent_quota_ledger ∧
    addfile demo_ctx two_file_ledger 3 2 7 [1] [1] 1000 0 [1] [] [1] [1] false =
      .error .artwork_not_found ∧
    addfile ⟨1, [8], 1704283200⟩ two_file_ledger 3 1 8 [1] [1] 1000 0 [1] [] [1] [1] false =
      .error .artwork_owner_mismatch ∧
    addfile demo_ctx two_file_ledger 1 1 7 [1] [1] 1000 0 [1] [] [1] [1] false =
      .error .file_id_exists ∧
    addfile demo_ctx spent_quota_ledger 2 9 7 [1] [1] 1000 0 [1] [] [1] [1] false =
      .error .daily_file_count_exceeded :=
  have hv : ∀ f a, 0 < f → 0 < a → addfile_fields_valid f a [1] [1] 1000 [1] [1] [1] :=
    fun f a hf ha => ⟨hf, ha, by decide, by decide, by decide, by decide, by decide,
      by decide, by decide, by decide⟩
  ⟨rfl, rfl,
    ((addfile_error_kinds demo_ctx two_file_ledger 3 2 7 [1] [1] 1000 0 [1] [] [1] [1] false
      (by decide) (hv 3 2 (by decide) (by decide))).1
      { two_file_ledger with quotas := [charged (default_quota 1704283200 7 1000) 2 2000] }
      rfl).1 rfl,
    ((addfile_error_kinds ⟨1, [8], 1704283200⟩ two_file_ledger 3 1 8 [1] [1] 1000 0 [1] []
      [1] [1] false (by decide) (hv 3 1 (by decide) (by decide))).1
      { two_file_ledger with
        quotas := two_file_ledger.quotas ++ [default_quota 1704283200 8 1000] }
      rfl).2.1 _ rfl (by decide),
    ((addfile_error_kinds demo_ctx two_file_ledger 1 1 7 [1] [1] 1000 0 [1] [] [1] [1] false
      (by decide) (hv 1 1 (by decide) (by decide))).1
      { two_file_ledger with quotas := [charged (default_quota 1704283200 7 1000) 2 2000] }
      rfl).2.2 _ rfl rfl rfl,
    ((addfile_error_kinds demo_ctx spent_quota_ledger 2 9 7 [1] [1] 1000 0 [1] [] [1] [1]
      false (by decide) (hv 2 9 (by decide) (by decide))).2 .daily_file_count_exceeded
      rfl).2⟩

/-! ### Failed actions and the store (C19) -/

theorem run_bind_check {β : Type} (p : Prop) [Decidable p] (e : Err) (f : Unit → Run β)
    (s : Ledger) :
    (Run.lift (check p e) >>= f) s = if p then f () s else (s, .error e) := by
  unfold check
  by_cases h : p <;> simp [h, bind, Run.lift]

theorem run_bind_require_auth {β : Type} (c : Ctx) (n : Name) (f : Unit → Run β)
    (s : Ledger) :
    (Run.lift (require_auth c n) >>= f) s =
      if c.has_auth n then f () s else (s, .error .missing_authority) :=
  run_bind_check _ _ f s

theorem run_bind_lift {α β : Type} (x : Except Err α) (f : α → Run β) (s : Ledger) :
    (Run.lift x >>= f) s =
      match x with
      | .ok a => f a s
      | .error e => (s, .error e) := by
  cases x <;> simp [bind, Run.lift]

theorem run_bind_read {β : Type} (f : Ledger → Run β) (s : Ledger) :
    (Run.read >>= f) s = f s s := by
  simp [bind, Run.read]

theorem run_bind_write {β : Type} (g : Ledger → Ledger) (f : Unit → Run β) (s : Ledger) :
    (Run.write g >>= f) s = f () (g s) := by
  simp [bind, Run.write]

theorem outcome_bind_check (p : Prop) [Decidable p] (e : Err) (f : Unit → Except Err Ledger)
    (s : Ledger) :
    outcome s (check p e >>= f) = if p then outcome s (f ()) else (s, .error e) := by
  unfold check
  by_cases h : p <;> simp [h, bind, Except.bind, outcome]

theorem outcome_bind_require_auth (c : Ctx) (n : Name) (f : Unit → Except Err Ledger)
    (s : Ledger) :
    outcome s (require_auth c n >>= f) =
      if c.has_auth n then outcome s (f ()) else (s, .error .missing_authority) :=
  outcome_bind_check _ _ f s

theorem outcome_bind {α : Type} (x : Except Err α) (f : α → Except Err Ledger) (s : Ledger) :
    outcome s (x >>= f) =
      match x with
      | .ok a => outcome s (f a)
      | .error e => (s, .error e) := by
  cases x <;> simp [bind, Except.bind, outcome]

theorem check_bind_ok_of {α : Type} {p : Prop} [Decidable p] (e : Err)
    (f : Unit → Except Err α) (h : p) : (check p e >>= f) = f () := by
  unfold check
  simp [h, bind, Except.bind]

theorem require_auth_bind_of {α : Type} {c : Ctx} {n : Name} (h : c.has_auth n)
    (f : Unit → Except Err α) : (require_auth c n >>= f) = f () :=
  check_bind_ok_of _ f h

theorem bind_ok_eq {α β : Type} (a : α) (f : α → Except Err β) :
    ((Except.ok a : Except Err α) >>= f) = f a := rfl

theorem createart_run_eq (c : Ctx) (s : Ledger) (a : Nat) (o : Name) (t d m k : Bytes) :
    createart_run c a o t d m k s = outcome s (createart c s a o t d m k) := by
  unfold createart_run createart
  simp only [run_bind_require_auth, run_bind_check, run_bind_read, run_bind_lift,
    outcome_bind_require_auth, outcome_bind_check, outcome_bind]
  rfl

theorem setquota_run_eq (c : Ctx) (s : Ledger) (acc : Name) (t dfl dsl wfl wsl : Nat) :
    setquota_run c acc t dfl dsl wfl wsl s = outcome s (setquota c s acc t dfl dsl wfl wsl) := by
  unfold setquota_run setquota
  simp only [run_bind_require_auth, run_bind_check, run_bind_read,
    outcome_bind_require_auth, outcome_bind_check]
  cases tfind usagequota.account s.quotas acc <;>
    simp only [run_bind_lift, outcome_bind] <;> rfl

theorem addadminkey_run_eq (c : Ctx) (s : Ledger) (acc : Name) (pk d : Bytes) :
    addadminkey_run c acc pk d s = outcome s (addadminkey c s acc pk d) := by
  unfold addadminkey_run addadminkey
  simp only [run_bind_require_auth, run_bind_check, run_bind_read, run_bind_lift,
    outcome_bind_require_auth, outcome_bind_check, outcome_bind]
  rfl

theorem rmadminkey_run_eq (c : Ctx) (s : Ledger) (k : Nat) :
    rmadminkey_run c k s = outcome s (rmadminkey c s k) := by
  unfold rmadminkey_run rmadminkey
  simp only [run_bind_require_auth, run_bind_check, run_bind_read, run_bind_lift,
    outcome_bind_require_auth, outcome_bind_check, outcome_bind]
  rfl

theorem logaccess_run_eq (c : Ctx) (s : Ledger) (acc : Name) (f : Nat) (r : Bytes) :
    logaccess_run c acc f r s = outcome s (logaccess c s acc f r) := by
  unfold logaccess_run logaccess
  simp only [run_bind_require_auth, run_bind_check, run_bind_read, run_bind_lift,
    outcome_bind_require_auth, outcome_bind_check, outcome_bind]
  rfl

theorem updateart_run_eq (c : Ctx) (s : Ledger) (a : Nat) (o : Name) (d m : Bytes) :
    updateart_run c a o d m s = outcome s (updateart c s a o d m) := by
  unfold updateart_run updateart
  simp only [run_bind_require_auth, run_bind_check, run_bind_read,
    outcome_bind_require_auth, outcome_bind_check]
  cases tfind artwork.artwork_id s.artworks a <;>
    simp only [run_bind_check, outcome_bind_check] <;> rfl

theorem addadmindek_run_eq (c : Ctx) (s : Ledger) (f : Nat) (dek : Bytes) :
    addadmindek_run c f dek s = outcome s (addadmindek c s f dek) := by
  unfold addadmindek_run addadmindek
  simp only [run_bind_require_auth, run_bind_check, run_bind_read,
    outcome_bind_require_auth, outcome_bind_check]
  cases tfind artfile.file_id s.artfiles f <;>
    simp only [run_bind_check, outcome_bind_check] <;> rfl

theorem completefile_run_eq (c : Ctx) (s : Ledger) (f : Nat) (o : Name) (n : Nat) :
    completefile_run c f o n s = outcome s (completefile c s f o n) := by
  unfold completefile_run completefile
  simp only [run_bind_require_auth, run_bind_check, run_bind_read,
    outcome_bind_require_auth, outcome_bind_check]
  cases tfind artfile.file_id s.artfiles f <;>
    simp only [run_bind_check, outcome_bind_check] <;> rfl

theorem uploadchunk_run_eq (c : Ctx) (s : Ledger) (ch f : Nat) (o : Name) (i : Nat)
    (data : Bytes) (sz : Nat) :
    uploadchunk_run c ch f o i data sz s = outcome s (uploadchunk c s ch f o i data sz) := by
  unfold uploadchunk_run uploadchunk
  simp only [run_bind_require_auth, run_bind_check, run_bind_read,
    outcome_bind_require_auth, outcome_bind_check]
  cases tfind artfile.file_id s.artfiles f <;>
    simp only [run_bind_check, outcome_bind_check, run_bind_lift, outcome_bind] <;> rfl

theorem deletefile_run_eq (c : Ctx) (s : Ledger) (f a : Nat) (o : Name) :
    deletefile_run c f a o s = outcome s (deletefile c s f a o) := by
  unfold deletefile_run deletefile
  simp only [run_bind_require_auth, run_bind_check, run_bind_read,
    outcome_bind_require_auth, outcome_bind_check]
  cases tfind artwork.artwork_id s.artworks a with
  | none => rfl
  | some art =>
    simp only [run_bind_check, outcome_bind_check]
    cases tfind artfile.file_id s.artfiles f with
    | none => rfl
    | some file =>
      simp only [run_bind_check, outcome_bind_check]
      rfl

theorem deleteart_run_eq (c : Ctx) (s : Ledger) (a : Nat) (o : Name) :
    deleteart_run c a o s = outcome s (deleteart c s a o) := by
  unfold deleteart_run deleteart
  simp only [run_bind_require_auth, run_bind_check, run_bind_read,
    outcome_bind_require_auth, outcome_bind_check]
  cases tfind artwork.artwork_id s.artworks a <;>
    simp only [run_bind_check, outcome_bind_check] <;> rfl

theorem check_and_update_quota_run_eq (c : Ctx) (s : Ledger) (acc : Name) (sz : Nat) :
    check_and_update_quota_run c acc sz s = outcome s (check_and_update_quota c s acc sz) := by
  unfold check_and_update_quota_run check_and_update_quota
  simp only [run_bind_read]
  cases tfind usagequota.account s.quotas acc <;>
    simp only [run_bind_lift, outcome_bind] <;> rfl

theorem run_bind_outcome {β : Type} (m : Run Unit) (f : Unit → Run β) (s : Ledger)
    (x : Except Err Ledger) :
    m s = outcome s x →
    (m >>= f) s =
      match x with
      | .ok s1 => f () s1
      | .error e => (s, .error e) := by
  intro h
  cases x <;> simp [bind, h, outcome]

theorem ite_error_congr {p : Prop} [Decidable p] {A B : Ledger × Except Err Unit}
    (s : Ledger) (e : Err) (h : p → A = B) :
    (if p then A else (s, .error e)) = (if p then B else (s, .error e)) := by
  by_cases hp : p
  · rw [if_pos hp, if_pos hp]; exact h hp
  · rw [if_neg hp, if_neg hp]

/-- While a check on the arguments of `addfile` fails nothing has been written. -/
theorem addfile_run_head (c : Ctx) (s : Ledger) (f a : Nat) (o : Name) (fn mt : Bytes)
    (sz hh : Nat) (dek : Bytes) (adeks : List Bytes) (iv tag : Bytes) (th : Bool)
    (h : ¬ (c.has_auth o ∧ addfile_fields_valid f a fn mt sz dek iv tag)) :
    addfile_run c f a o fn mt sz hh dek adeks iv tag th s =
      outcome s (addfile c s f a o fn mt sz hh dek adeks iv tag th) := by
  unfold addfile_run addfile
  simp only [run_bind_require_auth, run_bind_check, outcome_bind_require_auth,
    outcome_bind_check]
  refine ite_error_congr s _ (fun h0 => ?_)
  refine ite_error_congr s _ (fun h1 => ?_)
  refine ite_error_congr s _ (fun h2 => ?_)
  refine ite_error_congr s _ (fun h3 => ?_)
  refine ite_error_congr s _ (fun h4 => ?_)
  refine ite_error_congr s _ (fun h5 => ?_)
  refine ite_error_congr s _ (fun h6 => ?_)
  refine ite_error_congr s _ (fun h7 => ?_)
  refine ite_error_congr s _ (fun h8 => ?_)
  refine ite_error_congr s _ (fun h9 => ?_)
  refine ite_error_congr s _ (fun h10 => ?_)
  exact absurd ⟨h0, h1, h2, h3, h4, h5, h6, h7, h8, h9, h10⟩ h

/-- With the arguments of `addfile` accepted, the quota row is written first:
every later failure meets the store that `check_and_update_quota` left. -/
theorem addfile_run_tail (c : Ctx) (s : Ledger) (f a : Nat) (o : Name) (fn mt : Bytes)
    (sz hh : Nat) (dek : Bytes) (adeks : List Bytes) (iv tag : Bytes) (th : Bool)
    (hauth : c.has_auth o) (hv : addfile_fields_valid f a fn mt sz dek iv tag) :
    addfile_run c f a o fn mt sz hh dek adeks iv tag th s =
      match check_and_update_quota c s o sz with
      | .ok s1 => outcome s1 (addfile c s f a o fn mt sz hh dek adeks iv tag th)
      | .error e => (s, .error e) := by
  obtain ⟨v1, v2, v3, v4, v5, v6, v7, v8, v9, v10⟩ := hv
  unfold addfile_run addfile
  simp only [run_bind_require_auth, run_bind_check, if_pos hauth, if_pos v1, if_pos v2,
    if_pos v3, if_pos v4, if_pos v5, if_pos v6, if_pos v7, if_pos v8, if_pos v9, if_pos v10,
    check_bind_ok_of _ _ v1, check_bind_ok_of _ _ v2, check_bind_ok_of _ _ v3,
    check_bind_ok_of _ _ v4, check_bind_ok_of _ _ v5, check_bind_ok_of _ _ v6,
    check_bind_ok_of _ _ v7, check_bind_ok_of _ _ v8, check_bind_ok_of _ _ v9,
    check_bind_ok_of _ _ v10, require_auth_bind_of hauth]
  rw [run_bind_outcome _ _ s _ (check_and_update_quota_run_eq c s o sz)]
  cases hq : check_and_update_quota c s o sz with
  | error e => rfl
  | ok s1 =>
    show _ = outcome s1 _
    simp only [run_bind_read, bind_ok_eq]
    cases tfind artwork.artwork_id s1.artworks a with
    | none => rfl
    | some art =>
      simp only [run_bind_check, outcome_bind_check, run_bind_lift, outcome_bind,
        run_bind_write]
      rfl

/-- The loop of `transferart`, write by write: it fails exactly when
`transfer_loop` does and with the same error, touches no table but `artfiles`,
and on success has written the files that `transfer_loop` returns. -/
theorem transfer_loop_run_spec (a : Nat) (fr rc : Name) :
    ∀ (ids : List Nat) (deks tags : List Bytes) (s : Ledger),
      (transfer_loop_run a fr rc ids deks tags s).1 =
        { s with artfiles := (transfer_loop_run a fr rc ids deks tags s).1.artfiles } ∧
      match transfer_loop a fr rc ids deks tags s.artfiles with
      | .ok files =>
        transfer_loop_run a fr rc ids deks tags s = ({ s with artfiles := files }, .ok ())
      | .error e => (transfer_loop_run a fr rc ids deks tags s).2 = .error e := by
  intro ids
  induction ids with
  | nil => intro deks tags s; exact ⟨rfl, rfl⟩
  | cons id ids ih =>
    intro deks tags s
    cases deks with
    | nil => exact ⟨rfl, rfl⟩
    | cons dek deks =>
      cases tags with
      | nil => exact ⟨rfl, rfl⟩
      | cons tag tags =>
        unfold transfer_loop_run transfer_loop
        simp only [run_bind_read]
        cases hf : tfind artfile.file_id s.artfiles id with
        | none => exact ⟨rfl, rfl⟩
        | some file =>
          simp only [run_bind_check, run_bind_write]
          by_cases h1 : file.artwork_id = a
          swap
          · simp only [if_neg h1, check, bind, Except.bind]
            exact ⟨trivial, trivial⟩
          by_cases h2 : file.owner = fr
          swap
          · simp only [if_pos h1, if_neg h2, check, bind, Except.bind, if_true]
            exact ⟨trivial, trivial⟩
          simp only [if_pos h1, if_pos h2, check_bind_ok_of _ _ h1, check_bind_ok_of _ _ h2]
          obtain ⟨i1, i2⟩ := ih deks tags { s with
            artfiles := tmodify artfile.file_id s.artfiles id
              (fun row => { row with owner := rc, encrypted_dek := dek, auth_tag := tag }) }
          refine ⟨?_, ?_⟩
          · rw [i1]
          · exact i2

/-- Source action `transferart`, write by write: a success is the success of
`transferart`; a failure carries the same error and has written to no table
but `artfiles`. -/
theorem transferart_run_spec (c : Ctx) (s : Ledger) (a : Nat) (fr rc : Name) (ids : List Nat)
    (deks tags : List Bytes) (memo : Bytes) :
    match transferart c s a fr rc ids deks tags memo with
    | .ok s1 => transferart_run c a fr rc ids deks tags memo s = (s1, .ok ())
    | .error e =>
      (transferart_run c a fr rc ids deks tags memo s).2 = .error e ∧
      (transferart_run c a fr rc ids deks tags memo s).1 =
        { s with artfiles := (transferart_run c a fr rc ids deks tags memo s).1.artfiles } := by
  unfold transferart_run transferart
  simp only [run_bind_require_auth, run_bind_check, run_bind_read]
  by_cases h0 : c.has_auth fr
  swap
  · simp only [if_neg h0, require_auth, check, bind, Except.bind]
    exact ⟨trivial, trivial⟩
  by_cases h1 : fr ≠ rc
  swap
  · simp only [if_pos h0, if_neg h1, require_auth, check, bind, Except.bind, if_true]
    exact ⟨trivial, trivial⟩
  by_cases h2 : ids.length = deks.length
  swap
  · simp only [if_pos h0, if_pos h1, if_neg h2, require_auth, check, bind, Except.bind,
      if_true]
    exact ⟨trivial, trivial⟩
  by_cases h3 : ids.length = tags.length
  swap
  · simp only [if_pos h0, if_pos h1, if_pos h2, if_neg h3, require_auth, check, bind,
      Except.bind, if_true]
    exact ⟨trivial, trivial⟩
  simp only [if_pos h0, if_pos h1, if_pos h2, if_pos h3, require_auth_bind_of h0,
    check_bind_ok_of _ _ h1, check_bind_ok_of _ _ h2, check_bind_ok_of _ _ h3]
  cases tfind artwork.artwork_id s.artworks a with
  | none => exact ⟨rfl, rfl⟩
  | some art =>
    simp only [run_bind_check]
    by_cases h4 : art.owner = fr
    swap
    · simp only [if_neg h4, check, bind, Except.bind]
      exact ⟨trivial, trivial⟩
    simp only [if_pos h4, check_bind_ok_of _ _ h4]
    obtain ⟨i1, i2⟩ := transfer_loop_run_spec a fr rc ids deks tags s
    cases hl : transfer_loop a fr rc ids deks tags s.artfiles with
    | ok files =>
      rw [hl] at i2
      simp only [bind, Except.bind, i2, pure, Except.pure]
      rfl
    | error e =>
      rw [hl] at i2
      simp only [bind, Except.bind, i2]
      exact ⟨trivial, i1⟩

/-- In the eleven actions that check before they write, the store at a failed
check is the store the action met. -/
theorem dispatch_run_checks_first (c : Ctx) (s : Ledger) (a : Action)
    (h : checks_before_writes a) : dispatch_run c a s = outcome s (dispatch c s a) := by
  cases a with
  | createart a o t d m k => exact createart_run_eq c s a o t d m k
  | updateart a o d m => exact updateart_run_eq c s a o d m
  | addfile f a o fn mt sz hh dek adeks iv tag th => exact absurd h id
  | uploadchunk ch f o i data sz => exact uploadchunk_run_eq c s ch f o i data sz
  | completefile f o n => exact completefile_run_eq c s f o n
  | setquota acc t dfl dsl wfl wsl => exact setquota_run_eq c s acc t dfl dsl wfl wsl
  | addadminkey acc pk d => exact addadminkey_run_eq c s acc pk d
  | rmadminkey k => exact rmadminkey_run_eq c s k
  | addadmindek f d => exact addadmindek_run_eq c s f d
  | logaccess acc f r => exact logaccess_run_eq c s acc f r
  | deleteart a o => exact deleteart_run_eq c s a o
  | deletefile f a o => exact deletefile_run_eq c s f a o
  | transferart x fr rc ids deks tags memo => exact absurd h id

theorem outcome_spec (st : Ledger) (x : Except Err Ledger) :
    match x with
    | .ok s1 => outcome st x = (s1, .ok ())
    | .error e => (outcome st x).2 = .error e := by
  cases x <;> rfl

/-- The write-by-write actions and the actions agree: a success writes the
ledger the action returns, a failure carries the action's error. -/
theorem dispatch_run_spec (c : Ctx) (s : Ledger) (a : Action) :
    match dispatch c s a with
    | .ok s1 => dispatch_run c a s = (s1, .ok ())
    | .error e => (dispatch_run c a s).2 = .error e := by
  by_cases h : checks_before_writes a
  · rw [dispatch_run_checks_first c s a h]
    exact outcome_spec s _
  · cases a with
    | addfile f a o fn mt sz hh dek adeks iv tag th =>
      show match addfile c s f a o fn mt sz hh dek adeks iv tag th with
        | .ok s1 => addfile_run c f a o fn mt sz hh dek adeks iv tag th s = (s1, .ok ())
        | .error e => (addfile_run c f a o fn mt sz hh dek adeks iv tag th s).2 = .error e
      by_cases hv : c.has_auth o ∧ addfile_fields_valid f a fn mt sz dek iv tag
      · rw [addfile_run_tail c s f a o fn mt sz hh dek adeks iv tag th hv.1 hv.2]
        cases hq : check_and_update_quota c s o sz with
        | ok s1 => exact outcome_spec s1 _
        | error e =>
          cases hr : addfile c s f a o fn mt sz hh dek adeks iv tag th with
          | ok s2 =>
            obtain ⟨-, -, s1, art, hq1, -⟩ := addfile_ok.mp hr
            rw [hq] at hq1; cases hq1
          | error e1 =>
            have : addfile c s f a o fn mt sz hh dek adeks iv tag th = .error e := by
              obtain ⟨v1, v2, v3, v4, v5, v6, v7, v8, v9, v10⟩ := hv.2
              unfold addfile
              simp only [require_auth_bind_of hv.1, check_bind_ok_of _ _ v1,
                check_bind_ok_of _ _ v2, check_bind_ok_of _ _ v3, check_bind_ok_of _ _ v4,
                check_bind_ok_of _ _ v5, check_bind_ok_of _ _ v6, check_bind_ok_of _ _ v7,
                check_bind_ok_of _ _ v8, check_bind_ok_of _ _ v9, check_bind_ok_of _ _ v10, hq]
              rfl
            rw [hr] at this
            cases this
            rfl
      · rw [addfile_run_head c s f a o fn mt sz hh dek adeks iv tag th hv]
        exact outcome_spec s _
    | transferart x fr rc ids deks tags memo =>
      have h1 := transferart_run_spec c s x fr rc ids deks tags memo
      show match transferart c s x fr rc ids deks tags memo with
        | .ok s1 => transferart_run c x fr rc ids deks tags memo s = (s1, .ok ())
        | .error e => (transferart_run c x fr rc ids deks tags memo s).2 = .error e
      cases hr : transferart c s x fr rc ids deks tags memo with
      | ok s1 => rw [hr] at h1; exact h1
      | error e => rw [hr] at h1; exact h1.1
    | createart a o t d m k => exact absurd trivial h
    | updateart a o d m => exact absurd trivial h
    | uploadchunk ch f o i data sz => exact absurd trivial h
    | completefile f o n => exact absurd trivial h
    | setquota acc t dfl dsl wfl wsl => exact absurd trivial h
    | addadminkey acc pk d => exact absurd trivial h
    | rmadminkey k => exact absurd trivial h
    | addadmindek f d => exact absurd trivial h
    | logaccess acc f r => exact absurd trivial h
    | deleteart a o => exact absurd trivial h
    | deletefile f a o => exact absurd trivial h

theorem dispatch_run_error {c : Ctx} {s : Ledger} {a : Action} {e : Err}
    (h : (dispatch_run c a s).2 = .error e) : dispatch c s a = .error e := by
  have h1 := dispatch_run_spec c s a
  cases hd : dispatch c s a with
  | ok s1 => rw [hd] at h1; rw [h1] at h; cases h
  | error e1 => rw [hd] at h1; rw [h1] at h; cases h; rfl

/-- The environment's commit of the write-by-write run is `exec`. -/
theorem settle_dispatch_run (c : Ctx) (s : Ledger) (a : Action) :
    settle s (dispatch_run c a s) = exec c s a := by
  have h1 := dispatch_run_spec c s a
  unfold settle exec
  cases hd : dispatch c s a with
  | ok s1 => rw [hd] at h1; rw [h1]
  | error e => rw [hd] at h1; rw [h1]

/-- An `addfile` that passed its argument checks and quota admission fails
only on the artwork, its owner, the file id or the number of admin DEKs. -/
theorem addfile_error_after_admission {c : Ctx} {s s1 : Ledger} {f a : Nat} {o : Name}
    {fn mt : Bytes} {sz hh : Nat} {dek : Bytes} {adeks : List Bytes} {iv tag : Bytes}
    {th : Bool} {e : Err}
    (hauth : c.has_auth o) (hv : addfile_fields_valid f a fn mt sz dek iv tag)
    (hq : check_and_update_quota c s o sz = .ok s1)
    (h : addfile c s f a o fn mt sz hh dek adeks iv tag th = .error e) :
    (e = .artwork_not_found ∧ tfind artwork.artwork_id s1.artworks a = none) ∨
    (e = .artwork_owner_mismatch ∧
      ∃ art, tfind artwork.artwork_id s1.artworks a = some art ∧ art.owner ≠ o) ∨
    (e = .file_id_exists ∧ (tfind artfile.file_id s1.artfiles f).isSome) ∨
    (e = .admin_dek_count_mismatch ∧ adeks.length ≠ (get_active_admin_keys s1).length) := by
  obtain ⟨v1, v2, v3, v4, v5, v6, v7, v8, v9, v10⟩ := hv
  unfold addfile at h
  simp only [require_auth_bind_of hauth, check_bind_ok_of _ _ v1,
    check_bind_ok_of _ _ v2, check_bind_ok_of _ _ v3, check_bind_ok_of _ _ v4,
    check_bind_ok_of _ _ v5, check_bind_ok_of _ _ v6, check_bind_ok_of _ _ v7,
    check_bind_ok_of _ _ v8, check_bind_ok_of _ _ v9, check_bind_ok_of _ _ v10, hq,
    bind_ok_eq] at h
  cases ha : tfind artwork.artwork_id s1.artworks a with
  | none =>
    simp only [ha] at h
    cases h
    exact Or.inl ⟨rfl, rfl⟩
  | some art =>
    simp only [ha] at h
    by_cases h1 : art.owner = o
    swap
    · simp only [check, if_neg h1, bind, Except.bind] at h
      cases h
      exact Or.inr (Or.inl ⟨rfl, art, rfl, h1⟩)
    rw [check_bind_ok_of _ _ h1] at h
    by_cases h2 : (tfind artfile.file_id s1.artfiles f).isNone
    swap
    · simp only [check, if_neg h2, bind, Except.bind] at h
      cases h
      refine Or.inr (Or.inr (Or.inl ⟨rfl, ?_⟩))
      cases hf : tfind artfile.file_id s1.artfiles f with
      | none => rw [hf] at h2; exact absurd rfl h2
      | some x => rfl
    rw [check_bind_ok_of _ _ h2] at h
    by_cases h3 : adeks.length = (get_active_admin_keys s1).length
    swap
    · simp only [check, if_neg h3, bind, Except.bind] at h
      cases h
      exact Or.inr (Or.inr (Or.inr ⟨rfl, h3⟩))
    rw [check_bind_ok_of _ _ h3] at h
    have hn : tfind artfile.file_id s1.artfiles f = none := by
      cases hf : tfind artfile.file_id s1.artfiles f with
      | none => rfl
      | some x => rw [hf] at h2; cases h2
    simp only [templace, hn, Option.isSome_none, Bool.false_eq_true, if_false, bind,
      Except.bind, pure, Except.pure] at h
    cases h

/-- C19. All-or-nothing.  The actions are run write by write (`dispatch_run`),
so that the store at a failed `check` is visible, and the execution
environment commits the writes of a successful action and discards those of a
failed one (`settle`).  Whenever one of the thirteen operations fails, the
ledger afterwards is the ledger before the call, and the run agrees with
`dispatch` and `exec`.  In the eleven operations other than `addfile` and
`transferart` no write precedes a check: the store is untouched already at the
failure.  An `addfile` call that passes its argument checks and quota admission
and then fails does so for a missing artwork, an owner mismatch, a taken
file id or an admin-DEK count mismatch; at the failure the store holds the
quota row that admission wrote (line 74 precedes 80-91), and afterwards the
quota table, with the caller's record or its absence, is as before.  A
`transferart` call that fails has written to no table but `artfiles` (the
artwork is modified last, 479-481), and afterwards every file and the artwork
are as before. -/
theorem failed_action_leaves_ledger (c : Ctx) (s : Ledger) (a : Action) (e : Err)
    (h : (dispatch_run c a s).2 = .error e) :
    settle s (dispatch_run c a s) = s ∧
    dispatch c s a = .error e ∧
    settle s (dispatch_run c a s) = exec c s a ∧
    (checks_before_writes a → (dispatch_run c a s).1 = s) ∧
    (∀ f x o fn mt sz hh dek adeks iv tag th s1,
      a = .addfile f x o fn mt sz hh dek adeks iv tag th →
      c.has_auth o → addfile_fields_valid f x fn mt sz dek iv tag →
      check_and_update_quota c s o sz = .ok s1 →
      ((e = .artwork_not_found ∧ tfind artwork.artwork_id s.artworks x = none) ∨
        (e = .artwork_owner_mismatch ∧
          ∃ art, tfind artwork.artwork_id s.artworks x = some art ∧ art.owner ≠ o) ∨
        (e = .file_id_exists ∧ (tfind artfile.file_id s.artfiles f).isSome) ∨
        (e = .admin_dek_count_mismatch ∧
          adeks.length ≠ (get_active_admin_keys s).length)) ∧
      (dispatch_run c a s).1 = s1 ∧
      (settle s (dispatch_run c a s)).quotas = s.quotas ∧
      tfind usagequota.account (settle s (dispatch_run c a s)).quotas o =
        tfind usagequota.account s.quotas o) ∧
    (∀ x fr rc ids deks tags memo, a = .transferart x fr rc ids deks tags memo →
      (dispatch_run c a s).1 = { s with artfiles := (dispatch_run c a s).1.artfiles } ∧
      (settle s (dispatch_run c a s)).artfiles = s.artfiles ∧
      (settle s (dispatch_run c a s)).artworks = s.artworks) := by
  have hs : settle s (dispatch_run c a s) = s := by
    unfold settle; rw [h]
  have hd : dispatch c s a = .error e := dispatch_run_error h
  refine ⟨hs, hd, settle_dispatch_run c s a, ?_, ?_, ?_⟩
  · intro hc
    rw [dispatch_run_checks_first c s a hc, hd]
    rfl
  · intro f x o fn mt sz hh dek adeks iv tag th s1 ha hauth hv hq
    subst ha
    have hd1 : addfile c s f x o fn mt sz hh dek adeks iv tag th = .error e := hd
    have hfr := check_and_update_quota_frame hq
    refine ⟨?_, ?_, by rw [hs], by rw [hs]⟩
    · have e1 : s1.artworks = s.artworks := by rw [hfr]
      have e2 : s1.artfiles = s.artfiles := by rw [hfr]
      have e3 : get_active_admin_keys s1 = get_active_admin_keys s := by
        unfold get_active_admin_keys; rw [hfr]
      have hk := addfile_error_after_admission hauth hv hq hd1
      rw [e1, e2, e3] at hk
      exact hk
    · show (addfile_run c f x o fn mt sz hh dek adeks iv tag th s).1 = s1
      rw [addfile_run_tail c s f x o fn mt sz hh dek adeks iv tag th hauth hv, hq, hd1]
      rfl
  · intro x fr rc ids deks tags memo ha
    subst ha
    have hd1 : transferart c s x fr rc ids deks tags memo = .error e := hd
    have h1 := transferart_run_spec c s x fr rc ids deks tags memo
    rw [hd1] at h1
    exact ⟨h1.2, by rw [hs], by rw [hs]⟩

/-- C19 on `two_file_ledger`, reached by `two_file_trace`.  Account 7 adds
file 3 to the missing artwork 9: the call fails with "artwork not found"; at
the failure the quota row of account 7 stands at three files, and after the
transaction the ledger is `two_file_ledger` again.  Account 7 transfers
artwork 1 listing files 1 and 3: the call fails on file 3; at the failure
file 1 already belongs to account 8 with the new DEK and tag, and after the
transaction the ledger is `two_file_ledger` again. -/
theorem failed_action_leaves_ledger_witness :
    run Ledger.empty two_file_trace = .ok two_file_ledger ∧
    dispatch_run demo_ctx (.addfile 3 9 7 [1] [1] 1000 0 [1] [] [1] [1] false)
        two_file_ledger =
      ({ two_file_ledger with quotas := [charged (default_quota 1704283200 7 1000) 2 2000] },
        .error .artwork_not_found) ∧
    settle two_file_ledger
        (dispatch_run demo_ctx (.addfile 3 9 7 [1] [1] 1000 0 [1] [] [1] [1] false)
          two_file_ledger) = two_file_ledger ∧
    dispatch_run demo_ctx (.transferart 1 7 8 [1, 3] [[2], [4]] [[3], [5]] [])
        two_file_ledger =
      ({ two_file_ledger with artfiles := partial_transfer_ledger.artfiles },
        .error .file_not_found) ∧
    settle two_file_ledger
        (dispatch_run demo_ctx (.transferart 1 7 8 [1, 3] [[2], [4]] [[3], [5]] [])
          two_file_ledger) = two_file_ledger :=
  ⟨rfl, rfl,
    (failed_action_leaves_ledger demo_ctx two_file_ledger
      (.addfile 3 9 7 [1] [1] 1000 0 [1] [] [1] [1] false) .artwork_not_found rfl).1,
    rfl,
    (failed_action_leaves_ledger demo_ctx two_file_ledger
      (.transferart 1 7 8 [1, 3] [[2], [4]] [[3], [5]] []) .file_not_found rfl).1⟩

/-! ### Quota rejection (C5) -/

theorem reset_usage_bounded {q : usagequota} (now : Nat) (h : usage_bounded q) :
    usage_bounded (reset_quota_if_expired q now).1 := by
  unfold usage_bounded at *
  unfold reset_quota_if_expired
  obtain ⟨h1, h2, h3, h4, h5, h6⟩ := h
  by_cases hd : now ≥ q.daily_reset_at <;> by_cases hw : now ≥ q.weekly_reset_at <;>
    simp only [hd, hw, if_true, if_false] <;>
    refine ⟨h1, h2, ?_, ?_, ?_, ?_⟩ <;> first | assumption | exact Nat.zero_le _ | decide

/-- On a bounded row the byte sums of the checks do not leave `uint64_t`: the
checks are the four ceilings. -/
theorem checks_pass_iff_within {r : usagequota} {file_size : Nat} (h : usage_bounded r)
    (hsz : file_size ≤ 104857600) : checks_pass r file_size ↔ within_ceilings r file_size := by
  obtain ⟨h1, h2, h3, h4, h5, h6⟩ := h
  have e1 : u64 (r.daily_size_used + file_size) = r.daily_size_used + file_size :=
    u64_of_lt (by omega)
  have e2 : u64 (r.weekly_size_used + file_size) = r.weekly_size_used + file_size :=
    u64_of_lt (by omega)
  unfold checks_pass within_ceilings
  rw [e1, e2]

theorem quota_update_usage_bounded {now file_size : Nat} {q row : usagequota}
    (h : usage_bounded q) (hsz : file_size ≤ 104857600)
    (hu : quota_update now file_size q = .ok row) : usage_bounded row := by
  obtain ⟨hc, rfl⟩ := (quota_update_ok_iff now file_size q row).mp hu
  have hr := reset_usage_bounded now h
  obtain ⟨c1, c2, c3, c4⟩ := (checks_pass_iff_within hr hsz).mp hc
  obtain ⟨h1, h2, h3, h4, h5, h6⟩ := hr
  have e1 : u64 ((reset_quota_if_expired q now).1.daily_size_used + file_size) =
      (reset_quota_if_expired q now).1.daily_size_used + file_size := u64_of_lt (by omega)
  have e2 : u64 ((reset_quota_if_expired q now).1.weekly_size_used + file_size) =
      (reset_quota_if_expired q now).1.weekly_size_used + file_size := u64_of_lt (by omega)
  have e3 : u32 ((reset_quota_if_expired q now).1.daily_files_used + 1) =
      (reset_quota_if_expired q now).1.daily_files_used + 1 := Nat.mod_eq_of_lt (by omega)
  have e4 : u32 ((reset_quota_if_expired q now).1.weekly_files_used + 1) =
      (reset_quota_if_expired q now).1.weekly_files_used + 1 := Nat.mod_eq_of_lt (by omega)
  unfold usage_bounded
  simp only [e1, e2, e3, e4]
  refine ⟨h1, h2, by omega, by omega, by omega, by omega⟩

/-- What a successful action does to the quota table, with the arguments that
matter for the size of the counters. -/
theorem dispatch_quotas_sized {c : Ctx} {s s1 : Ledger} {a : Action}
    (hd : dispatch c s a = .ok s1) :
    s1.quotas = s.quotas ∨
    (∃ acc t dfl dsl wfl wsl, a = .setquota acc t dfl dsl wfl wsl ∧
      setquota c s acc t dfl dsl wfl wsl = .ok s1) ∨
    (∃ o sz s0, sz ≤ 104857600 ∧ check_and_update_quota c s o sz = .ok s0 ∧
      s1.quotas = s0.quotas) := by
  cases a with
  | addfile f a o fn mt sz hh dek adeks iv tag th =>
    obtain ⟨-, hv, s0, art, hq, -, -, -, -, rfl⟩ := addfile_ok.mp hd
    exact Or.inr (Or.inr ⟨o, sz, s0, hv.2.2.2.2.2.2.1, hq, rfl⟩)
  | setquota acc t dfl dsl wfl wsl =>
    exact Or.inr (Or.inl ⟨acc, t, dfl, dsl, wfl, wsl, rfl, hd⟩)
  | createart a o t d m k =>
    obtain ⟨-, rfl⟩ := createart_ok.mp hd; exact Or.inl rfl
  | updateart a o d m =>
    obtain ⟨-, -, -, -, art, -, -, rfl⟩ := updateart_ok.mp hd; exact Or.inl rfl
  | uploadchunk ch f o i data sz =>
    obtain ⟨-, -, -, -, -, -, file, -, -, -, -, -, rfl⟩ := uploadchunk_ok.mp hd
    exact Or.inl rfl
  | completefile f o n =>
    obtain ⟨-, -, -, file, -, -, -, -, rfl⟩ := completefile_ok.mp hd; exact Or.inl rfl
  | addadminkey acc pk d =>
    obtain ⟨-, -, -, -, -, rfl⟩ := addadminkey_ok.mp hd; exact Or.inl rfl
  | rmadminkey k =>
    obtain ⟨-, -, rfl⟩ := rmadminkey_ok.mp hd; exact Or.inl rfl
  | logaccess acc f r =>
    obtain ⟨-, -, -, -, -, -, rfl⟩ := logaccess_ok.mp hd; exact Or.inl rfl
  | deletefile f a o =>
    obtain ⟨-, -, -, art, file, -, -, -, -, -, rfl⟩ := deletefile_ok.mp hd; exact Or.inl rfl
  | deleteart a o =>
    obtain ⟨-, art, -, -, rfl⟩ := deleteart_ok.mp hd; exact Or.inl rfl
  | transferart x fr rc ids deks tags memo =>
    have hd1 : transferart c s x fr rc ids deks tags memo = .ok s1 := hd
    obtain ⟨-, -, -, -, art, files, -, -, -, rfl⟩ := transferart_ok.mp hd1
    exact Or.inl rfl
  | addadmindek f d =>
    obtain ⟨-, -, -, file, -, -, rfl⟩ := addadmindek_ok.mp hd; exact Or.inl rfl

theorem default_quota_usage_bounded (now : Nat) (acc : Name) {file_size : Nat}
    (hsz : file_size ≤ 104857600) : usage_bounded (default_quota now acc file_size) := by
  unfold usage_bounded default_quota
  exact ⟨(by decide : (10 : Nat) < 2 ^ 32), (by decide : (40 : Nat) < 2 ^ 32),
    (by decide : (1 : Nat) < 2 ^ 32), (by decide : (1 : Nat) < 2 ^ 32),
    by simpa using hsz, by simpa using hsz⟩

theorem dispatch_usage_bounded {c : Ctx} {s s1 : Ledger} {a : Action}
    (h : ∀ q ∈ s.quotas, usage_bounded q) (hp : limits_fit s a)
    (hd : dispatch c s a = .ok s1) : ∀ q ∈ s1.quotas, usage_bounded q := by
  rcases dispatch_quotas_sized hd with e | ⟨acc, t, dfl, dsl, wfl, wsl, rfl, hq⟩ |
    ⟨o, sz, s0, hsz, hq, e⟩
  · rw [e]; exact h
  · obtain ⟨p1, -, p3, -⟩ := hp
    obtain ⟨-, ⟨-, rfl⟩ | ⟨-, rfl⟩⟩ := setquota_ok.mp hq
    · intro q hq1
      rcases List.mem_append.mp hq1 with hq1 | hq1
      · exact h q hq1
      · rw [List.mem_singleton.mp hq1]
        exact ⟨p1, p3, (by decide : (0 : Nat) < 2 ^ 32), (by decide : (0 : Nat) < 2 ^ 32),
          Nat.zero_le _, Nat.zero_le _⟩
    · intro q hq1
      obtain ⟨r, hr, e⟩ := mem_tmodify.mp hq1
      by_cases hk : r.account = acc
      · rw [if_pos hk] at e
        obtain ⟨-, -, h3, h4, h5, h6⟩ := h r hr
        rw [e]
        exact ⟨p1, p3, h3, h4, h5, h6⟩
      · rw [if_neg hk] at e; rw [e]; exact h r hr
  · rw [e]
    rcases check_and_update_quota_ok.mp hq with ⟨-, rfl⟩ | ⟨stored, row, hst, hup, rfl⟩
    · intro q hq1
      rcases List.mem_append.mp hq1 with hq1 | hq1
      · exact h q hq1
      · rw [List.mem_singleton.mp hq1]
        exact default_quota_usage_bounded _ _ hsz
    · intro q hq1
      obtain ⟨r, hr, e⟩ := mem_tmodify.mp hq1
      by_cases hk : r.account = o
      · rw [if_pos hk] at e
        rw [e]
        exact quota_update_usage_bounded (h stored (tfind_some hst).1) hsz hup
      · rw [if_neg hk] at e; rw [e]; exact h r hr

/-- In every state reached by calls whose `setquota` limits fit their types,
every quota row is bounded. -/
theorem reachable_usage_bounded {s : Ledger} (hs : ReachableBy limits_fit s) :
    ∀ q ∈ s.quotas, usage_bounded q := by
  induction hs with
  | init => intro q hq; cases hq
  | next c a _ hp hd ih => exact dispatch_usage_bounded ih hp hd

/-- C5. Quota rejection is side-effect free.  In every state reached from the
empty ledger by calls whose `setquota` limits fit their parameter types, for
every stored quota record `q`, every time `now` and every `file_size` that
`addfile` passes on (at most 104857600): when, after the lazy window resets,
one of the four ceilings is violated, `check_and_update_quota` rejects with one
of the four quota errors, and the store at the rejection is the store the call
met (the checks run inside the `modify` lambda, before the row is stored): the
quota record is `q`, with its four usage counters and both reset times. -/
theorem quota_rejection_no_effect (c : Ctx) (s : Ledger) (account : Name) (file_size : Nat)
    (q : usagequota) (hs : ReachableBy limits_fit s)
    (hq : tfind usagequota.account s.quotas account = some q)
    (hsz : file_size ≤ 104857600)
    (hv : (reset_quota_if_expired q c.now).1.daily_files_used ≥
        (reset_quota_if_expired q c.now).1.daily_file_limit ∨
      (reset_quota_if_expired q c.now).1.daily_size_used + file_size >
        (reset_quota_if_expired q c.now).1.daily_size_limit ∨
      (reset_quota_if_expired q c.now).1.weekly_files_used ≥
        (reset_quota_if_expired q c.now).1.weekly_file_limit ∨
      (reset_quota_if_expired q c.now).1.weekly_size_used + file_size >
        (reset_quota_if_expired q c.now).1.weekly_size_limit) :
    ∃ e ∈ quota_errors,
      check_and_update_quota c s account file_size = .error e ∧
      check_and_update_quota_run c account file_size s = (s, .error e) ∧
      tfind usagequota.account
        (check_and_update_quota_run c account file_size s).1.quotas account = some q := by
  have hb := reset_usage_bounded c.now (reachable_usage_bounded hs q (tfind_some hq).1)
  have hn : ¬ checks_pass (reset_quota_if_expired q c.now).1 file_size := by
    rw [checks_pass_iff_within hb hsz]
    unfold within_ceilings
    omega
  obtain ⟨e, he, hmem⟩ := quota_update_error c.now file_size q hn
  have hc : check_and_update_quota c s account file_size = .error e := by
    unfold check_and_update_quota
    simp only [hq, he]
    rfl
  have hr : check_and_update_quota_run c account file_size s = (s, .error e) := by
    rw [check_and_update_quota_run_eq, hc]
    rfl
  exact ⟨e, hmem, hc, hr, by rw [hr]; exact hq⟩

/-- C5 on `spent_quota_ledger`, reached by `spent_quota_trace`: the record of
account 7 has one file used out of one a day; a further file of 1000 bytes is
rejected and the stored record is the one before the call. -/
theorem quota_rejection_no_effect_witness :
    run Ledger.empty spent_quota_trace = .ok spent_quota_ledger ∧
    trace_satisfies limits_fit Ledger.empty spent_quota_trace ∧
    tfind usagequota.account spent_quota_ledger.quotas 7 =
      some ⟨7, 0, 1, 1000000, 1, 1000000, 1, 1000, 1704326400, 1, 1000, 1704585600⟩ ∧
    ∃ e ∈ quota_errors,
      check_and_update_quota demo_ctx spent_quota_ledger 7 1000 = .error e ∧
      check_and_update_quota_run demo_ctx 7 1000 spent_quota_ledger =
        (spent_quota_ledger, .error e) ∧
      tfind usagequota.account
        (check_and_update_quota_run demo_ctx 7 1000 spent_quota_ledger).1.quotas 7 =
        some ⟨7, 0, 1, 1000000, 1, 1000000, 1, 1000, 1704326400, 1, 1000, 1704585600⟩ :=
  ⟨rfl, ⟨by unfold limits_fit; decide, trivial, trivial, trivial⟩, rfl,
    quota_rejection_no_effect demo_ctx spent_quota_ledger 7 1000
      ⟨7, 0, 1, 1000000, 1, 1000000, 1, 1000, 1704326400, 1, 1000, 1704585600⟩
      (reachableBy_of_run ReachableBy.init (rfl : run Ledger.empty spent_quota_trace = _)
        ⟨by unfold limits_fit; decide, trivial, trivial, trivial⟩)
      rfl (by decide) (Or.inl (by decide))⟩

end Verarta
